import Mathlib

/-!
# Verification of the encounter-bot table engine

A shallow embedding of the table-definition / import / export / roll core of
the `encounter-bot` repository (`src/importer.py`, `src/download.py`,
`src/roller.py`) together with proofs about the claims of the specification.

Modelling conventions:
* Spreadsheet cells are `Cell` (empty cell, integer, float, string).  Python
  floats are modelled as exact rationals: the only float operations the code
  performs are `float.is_integer` and `int(f)`, which on a rational `q` are
  `q.den = 1` and `q.num`.  The decimal rendering of a float (`str(f)`) is
  modelled by an explicit function; no theorem depends on its exact digits.
* Python `str.strip()` / `str.lower()` are `pyStrip` / `pyLower`, and
  `str(int)` is `intStr`, defined over the character list of the string.
* `float(s)` (string to float parsing) is `pyParseFloat`, a parser for the
  finite decimal literals Python accepts (sign, digits, fraction, exponent).
  `inf` / `nan` literals are modelled as parse failures: the source only ever
  asks `f.is_integer()`, which is false for those values, so the resulting
  behaviour of `_to_int` is identical.
* The SQLite store of one tenant (guild) is the pure value `Store`; the
  importer's phase-2 transaction is modelled by pure replacement, and a
  phase-2 exception (any `await db.execute` raising inside the
  `BEGIN ... commit` block) by the boolean `dbFail`: SQLite's rollback
  guarantee is modelled by returning the prior store unchanged.
* `random.randint(1, n)` is modelled by passing the drawn value as an
  explicit parameter; the `ValueError` Python raises when `n < 1` (empty
  range) is modelled as an explicit error result.
-/

/-! ## Python string primitives -/

/-- The characters `str.strip()` removes (Python's `str.isspace`). -/
def isPySpace (c : Char) : Bool :=
  c == ' ' || c == '\t' || c == '\n' || c == '\r' || c == '\x0b' || c == '\x0c'

/-- `str.strip()` on a character list. -/
def stripChars (l : List Char) : List Char :=
  ((l.dropWhile isPySpace).reverse.dropWhile isPySpace).reverse

/-- Python `s.strip()`. -/
def pyStrip (s : String) : String := ⟨stripChars s.data⟩

/-- Python `s.lower()` (ASCII case folding suffices for the headers used). -/
def pyLower (s : String) : String := ⟨s.data.map Char.toLower⟩

theorem dropWhile_dropWhile (p : Char → Bool) (l : List Char) :
    (l.dropWhile p).dropWhile p = l.dropWhile p := by
  induction l with
  | nil => rfl
  | cons x xs ih =>
    by_cases h : p x
    · simp [List.dropWhile_cons, h, ih]
    · simp [List.dropWhile_cons, h]

theorem dropWhile_eq_self_of_head (p : Char → Bool) (l : List Char)
    (h : ∀ x, l.head? = some x → ¬p x) : l.dropWhile p = l := by
  cases l with
  | nil => rfl
  | cons x xs =>
    have hx : ¬p x := h x rfl
    simp [List.dropWhile_cons, hx]

theorem head_dropWhile_not (p : Char → Bool) (l : List Char) :
    ∀ x, (l.dropWhile p).head? = some x → ¬p x := by
  induction l with
  | nil => intro x h; simp at h
  | cons y ys ih =>
    intro x h
    by_cases hy : p y
    · exact ih x (by simpa [List.dropWhile_cons, hy] using h)
    · simp [List.dropWhile_cons, hy] at h
      subst h; exact hy

theorem getLast_dropWhile (p : Char → Bool) (l : List Char)
    (hl : ∀ x, l.getLast? = some x → ¬p x) :
    ∀ x, (l.dropWhile p).getLast? = some x → ¬p x := by
  intro x hx
  have hsub : l.dropWhile p <:+ l := List.dropWhile_suffix p
  obtain ⟨t, ht⟩ := hsub
  have hne : l.dropWhile p ≠ [] := by
    intro hemp; rw [hemp] at hx; simp at hx
  have : l.getLast? = some x := by
    rw [← ht, List.getLast?_append_of_ne_nil t hne]
    exact hx
  exact hl x this

theorem stripChars_head (l : List Char) :
    ∀ x, (stripChars l).head? = some x → ¬isPySpace x := by
  intro x hx
  unfold stripChars at hx
  rw [List.head?_reverse] at hx
  exact getLast_dropWhile isPySpace _
    (by
      intro y hy
      rw [List.getLast?_reverse] at hy
      exact head_dropWhile_not isPySpace _ y hy) x hx

theorem stripChars_getLast (l : List Char) :
    ∀ x, (stripChars l).getLast? = some x → ¬isPySpace x := by
  intro x hx
  unfold stripChars at hx
  rw [List.getLast?_reverse] at hx
  exact head_dropWhile_not isPySpace _ x hx

theorem stripChars_idem (l : List Char) : stripChars (stripChars l) = stripChars l := by
  have h1 : (stripChars l).dropWhile isPySpace = stripChars l :=
    dropWhile_eq_self_of_head _ _ (stripChars_head l)
  have h2 : (stripChars l).reverse.dropWhile isPySpace = (stripChars l).reverse :=
    dropWhile_eq_self_of_head _ _ (by
      intro x hx
      rw [List.head?_reverse] at hx
      exact stripChars_getLast l x hx)
  show ((((stripChars l).dropWhile isPySpace).reverse.dropWhile isPySpace)).reverse = stripChars l
  rw [h1, h2, List.reverse_reverse]

theorem pyStrip_idem (s : String) : pyStrip (pyStrip s) = pyStrip s := by
  unfold pyStrip
  exact congrArg String.mk (stripChars_idem s.data)

/-! ## Decimal rendering of integers (Python `str(int)`) -/

/-- One decimal digit as a character. -/
def digitChar (d : Nat) : Char :=
  if d = 0 then '0' else if d = 1 then '1' else if d = 2 then '2'
  else if d = 3 then '3' else if d = 4 then '4' else if d = 5 then '5'
  else if d = 6 then '6' else if d = 7 then '7' else if d = 8 then '8' else '9'

/-- The base-10 digits of `n`, least significant first, by fuel-based
structural recursion (kernel-reducible, unlike `Nat.digits`). -/
def natDigitsAux : Nat → Nat → List Nat
  | 0, _ => []
  | fuel + 1, n => if n = 0 then [] else (n % 10) :: natDigitsAux fuel (n / 10)

def natDigitsLE (n : Nat) : List Nat := natDigitsAux n n

theorem natDigitsAux_eq_digits : ∀ (fuel n : Nat), n ≤ fuel →
    natDigitsAux fuel n = Nat.digits 10 n := by
  intro fuel
  induction fuel with
  | zero =>
    intro n hn
    have : n = 0 := by omega
    simp [this, natDigitsAux]
  | succ f ih =>
    intro n hn
    by_cases h0 : n = 0
    · simp [h0, natDigitsAux]
    · rw [natDigitsAux, if_neg h0]
      rw [Nat.digits_def' (by norm_num : 1 < 10) (by omega : 0 < n)]
      congr 1
      exact ih (n / 10) (by
        have := Nat.div_lt_self (by omega : 0 < n) (by norm_num : 1 < 10)
        omega)

theorem natDigitsLE_eq (n : Nat) : natDigitsLE n = Nat.digits 10 n :=
  natDigitsAux_eq_digits n n le_rfl

/-- Python `str(n)` for a natural number. -/
def natStr (n : Nat) : String :=
  if n = 0 then "0" else ⟨((natDigitsLE n).map digitChar).reverse⟩

theorem natStr_eq_digits (n : Nat) :
    natStr n = if n = 0 then "0" else ⟨((Nat.digits 10 n).map digitChar).reverse⟩ := by
  unfold natStr
  rw [natDigitsLE_eq]

/-- Python `str(n)` for an integer. -/
def intStr (n : Int) : String :=
  if n < 0 then "-" ++ natStr n.natAbs else natStr n.toNat

theorem digitChar_inj : ∀ d < 10, ∀ e < 10, digitChar d = digitChar e → d = e := by
  decide

theorem digitChar_ne_minus (d : Nat) : digitChar d ≠ '-' := by
  unfold digitChar
  split_ifs <;> decide

theorem map_digitChar_inj : ∀ {l1 l2 : List Nat}, (∀ d ∈ l1, d < 10) →
    (∀ d ∈ l2, d < 10) → l1.map digitChar = l2.map digitChar → l1 = l2 := by
  intro l1
  induction l1 with
  | nil => intro l2 _ _ h; cases l2 with
    | nil => rfl
    | cons b t => simp at h
  | cons a t ih =>
    intro l2 h1 h2 h
    cases l2 with
    | nil => simp at h
    | cons b t2 =>
      simp only [List.map_cons, List.cons.injEq] at h
      have ha : a = b := digitChar_inj a (h1 a (by simp)) b (h2 b (by simp)) h.1
      have ht : t = t2 := ih (fun d hd => h1 d (by simp [hd]))
        (fun d hd => h2 d (by simp [hd])) h.2
      rw [ha, ht]

theorem natStr_eq_zero_case {n : Nat} (hn : n ≠ 0) (h : natStr n = "0") : False := by
  rw [natStr_eq_digits] at h
  rw [if_neg hn] at h
  have hdata := congrArg String.data h
  have h2 : (Nat.digits 10 n).map digitChar = ['0'] := by
    have := congrArg List.reverse hdata
    simpa using this
  have h3 : Nat.digits 10 n = [0] := by
    apply map_digitChar_inj
    · intro d hd; exact Nat.digits_lt_base (by norm_num) hd
    · intro d hd; simp at hd; omega
    · simpa [digitChar] using h2
  have h4 := congrArg (Nat.ofDigits 10) h3
  rw [Nat.ofDigits_digits] at h4
  simp [Nat.ofDigits] at h4
  exact hn h4

theorem natStr_inj {m n : Nat} (h : natStr m = natStr n) : m = n := by
  by_cases hm : m = 0 <;> by_cases hn : n = 0
  · omega
  · exact absurd (by rw [← h, hm]; rfl) (fun hh => natStr_eq_zero_case hn hh)
  · exact absurd (by rw [h, hn]; rfl) (fun hh => natStr_eq_zero_case hm hh)
  · rw [natStr_eq_digits, natStr_eq_digits] at h
    rw [if_neg hm, if_neg hn] at h
    have hdata := congrArg String.data h
    have h2 : (Nat.digits 10 m).map digitChar = (Nat.digits 10 n).map digitChar := by
      have := congrArg List.reverse hdata
      simpa using this
    have hdig : Nat.digits 10 m = Nat.digits 10 n :=
      map_digitChar_inj (fun d hd => Nat.digits_lt_base (by norm_num) hd)
        (fun d hd => Nat.digits_lt_base (by norm_num) hd) h2
    have := congrArg (Nat.ofDigits 10) hdig
    rwa [Nat.ofDigits_digits, Nat.ofDigits_digits] at this

theorem natStr_data_digits (n : Nat) :
    (natStr n).data ≠ [] ∧ ∀ c ∈ (natStr n).data, ∃ d, d < 10 ∧ c = digitChar d := by
  rw [natStr_eq_digits]
  split_ifs with h
  · refine ⟨by decide, ?_⟩
    intro c hc
    have : c = '0' := by
      have : "0".data = ['0'] := rfl
      rw [this] at hc
      simpa using hc
    exact ⟨0, by norm_num, by rw [this]; rfl⟩
  · constructor
    · have hne : Nat.digits 10 n ≠ [] := Nat.digits_ne_nil_iff_ne_zero.mpr h
      simpa using hne
    · intro c hc
      simp only [List.mem_reverse, List.mem_map] at hc
      obtain ⟨d, hd, rfl⟩ := hc
      exact ⟨d, Nat.digits_lt_base (by norm_num) hd, rfl⟩

theorem minus_append_ne_natStr (s : String) (n : Nat) : "-" ++ s ≠ natStr n := by
  intro h
  obtain ⟨hne, hdig⟩ := natStr_data_digits n
  have hdata := congrArg String.data h
  have hlhs : ("-" ++ s).data = '-' :: s.data := rfl
  rw [hlhs] at hdata
  cases hd : (natStr n).data with
  | nil => exact hne hd
  | cons c rest =>
    rw [hd] at hdata
    have hc : c = '-' := (List.cons.injEq _ _ _ _ ▸ hdata).1.symm
    obtain ⟨d, _, hcd⟩ := hdig c (by rw [hd]; simp)
    exact digitChar_ne_minus d (by rw [← hcd, hc])

theorem intStr_inj {a b : Int} (h : intStr a = intStr b) : a = b := by
  unfold intStr at h
  split_ifs at h with ha hb
  · have hdata := congrArg String.data h
    have h1 : ("-" ++ natStr a.natAbs).data = '-' :: (natStr a.natAbs).data := rfl
    have h2 : ("-" ++ natStr b.natAbs).data = '-' :: (natStr b.natAbs).data := rfl
    rw [h1, h2] at hdata
    have : (natStr a.natAbs).data = (natStr b.natAbs).data := by
      simpa using hdata
    have := natStr_inj (String.ext this)
    omega
  · exact absurd h (minus_append_ne_natStr _ _)
  · exact absurd h.symm (minus_append_ne_natStr _ _)
  · have := natStr_inj h
    omega

/-! ## Cells and Python value coercion -/

/-- A spreadsheet cell value as surfaced by `openpyxl` (`values_only=True`):
`None`, `int`, `float` (modelled as an exact rational) or `str`. -/
inductive Cell where
  | cnone
  | cint (n : Int)
  | cfloat (q : ℚ)
  | cstr (s : String)
deriving Repr, DecidableEq

/-- Models Python `str(f)` for a float.  The exact decimal rendering is never
relied upon by any theorem (floats are only rendered when a float cell is used
as a display string); it only needs to be a definite non-empty string. -/
def pyFloatStr (q : ℚ) : String :=
  if q.den = 1 then intStr q.num ++ ".0" else intStr q.num ++ "/" ++ natStr q.den

/-- Python `str(v)` for a non-`None` cell value. -/
def cellRawStr : Cell → String
  | .cnone => "None"
  | .cint n => intStr n
  | .cfloat q => pyFloatStr q
  | .cstr s => s

/-- `_norm_header` (importer.py): `"" if v is None else str(v).strip().lower()`. -/
def normHeader : Cell → String
  | .cnone => ""
  | v => pyLower (pyStrip (cellRawStr v))

/-- `_cell_str` (importer.py): `"" if v is None else str(v).strip()`. -/
def cellStr : Cell → String
  | .cnone => ""
  | v => pyStrip (cellRawStr v)

/-- The digits of a character list, most-significant first. -/
def digitsVal (l : List Char) : Nat :=
  l.foldl (fun acc c => acc * 10 + (c.toNat - '0'.toNat)) 0

/-- Models Python `float(s)` on an (already stripped) string: an optional
sign, an integer part and/or a fractional part (at least one digit between
them), and an optional exponent.  Returns the value in the exact form
`(mantissa, exp10)`, i.e. `mantissa * 10 ^ exp10`.
`inf`/`nan` literals and underscore separators are modelled as parse
failures; the only consumer asks `is_integer()` afterwards, which is false
for `inf`/`nan`, so `_to_int`'s result is unaffected. -/
def pyParseFloatRaw (s : String) : Option (Int × Int) :=
  let l := s.data
  let (sgn, l1) : Int × List Char :=
    match l with
    | '+' :: rest => (1, rest)
    | '-' :: rest => (-1, rest)
    | _ => (1, l)
  let intDigits := l1.takeWhile Char.isDigit
  let l2 := l1.dropWhile Char.isDigit
  let (fracDigits, l3) : List Char × List Char :=
    match l2 with
    | '.' :: rest => (rest.takeWhile Char.isDigit, rest.dropWhile Char.isDigit)
    | _ => ([], l2)
  if intDigits.isEmpty && fracDigits.isEmpty then none
  else
    let mant : Int := sgn * (digitsVal (intDigits ++ fracDigits) : Int)
    match l3 with
    | [] => some (mant, -(fracDigits.length : Int))
    | e :: rest =>
      if e = 'e' ∨ e = 'E' then
        let (esgn, rest2) : Int × List Char :=
          match rest with
          | '+' :: r => (1, r)
          | '-' :: r => (-1, r)
          | _ => (1, rest)
        let expDigits := rest2.takeWhile Char.isDigit
        let rest3 := rest2.dropWhile Char.isDigit
        if expDigits.isEmpty then none
        else if rest3.isEmpty then
          some (mant, esgn * (digitsVal expDigits : Int) - (fracDigits.length : Int))
        else none
      else none

/-- The exact rational value of a parsed float. -/
def qOfRaw (p : Int × Int) : ℚ := (p.1 : ℚ) * (10 : ℚ) ^ p.2

/-- The rational value Python's `float(s)` parses (spec-facing view). -/
def pyParseFloat (s : String) : Option ℚ := (pyParseFloatRaw s).map qOfRaw

/-- `f.is_integer()` on the raw parsed form. -/
def floatIsInt (p : Int × Int) : Bool :=
  if 0 ≤ p.2 then true else p.1 % ((10 : Int) ^ (-p.2).toNat) = 0

/-- `int(f)` on the raw parsed form (only consulted when `floatIsInt`). -/
def floatToInt (p : Int × Int) : Int :=
  if 0 ≤ p.2 then p.1 * (10 : Int) ^ p.2.toNat else p.1 / ((10 : Int) ^ (-p.2).toNat)

/-- `_to_int` (importer.py): integer-or-`None` coercion of a cell value.
`float.is_integer()` on a rational `q` is `q.den = 1`, and `int(f)` is then
`q.num`; the string branch strips, rejects the empty string, and parses via
`float(s)` (computed on the raw form; `to_int_characterization` relates it
to the rational value). -/
def to_int (v : Cell) : Option Int :=
  match v with
  | .cnone => none
  | .cint n => some n
  | .cfloat q => if q.den = 1 then some q.num else none
  | .cstr v =>
    let s := pyStrip v
    if s = "" then none
    else
      match pyParseFloatRaw s with
      | some p => if floatIsInt p then some (floatToInt p) else none
      | none => none

/-! ## Sheets and workbooks -/

/-- One worksheet: its title and its rows (row 1 first). `openpyxl`'s
`iter_rows(values_only=True)` pads every row to the sheet width with `None`;
out-of-range access is therefore modelled by `getCell` returning `.cnone`. -/
structure Sheet where
  name : String
  rows : List (List Cell)
deriving Repr, DecidableEq

/-- A workbook: its sheets in order.  `openpyxl`'s `create_sheet` renames a
duplicate title by suffixing a counter, so `wb[title]` always resolves to the
first sheet created with `title`; appending and resolving `wb[title]` to the
first sheet with that name is extensionally the same lookup. -/
abbrev Workbook := List Sheet

def sheetNames (wb : Workbook) : List String := wb.map Sheet.name

def hasSheet (wb : Workbook) (tab : String) : Bool := (sheetNames wb).contains tab

def findSheet (wb : Workbook) (tab : String) : Option Sheet :=
  wb.find? (fun s => s.name == tab)

def getCell (row : List Cell) (i : Nat) : Cell := row.getD i Cell.cnone

/-- whether `all((c is None or str(c).strip() == "") for c in r)` holds for one cell. -/
def isBlankCell (c : Cell) : Bool :=
  match c with
  | .cnone => true
  | v => pyStrip (cellRawStr v) == ""

def rowBlank (row : List Cell) : Bool := row.all isBlankCell

/-- The header map of `_read_sheet_rows`: normalized header name to column
index, first occurrence winning, empty names skipped. -/
def headerMapAux (i : Nat) (cells : List Cell) (acc : List (String × Nat)) :
    List (String × Nat) :=
  match cells with
  | [] => acc
  | h :: rest =>
    let key := normHeader h
    if key ≠ "" ∧ (acc.find? (fun p => p.1 == key)).isNone then
      headerMapAux (i + 1) rest (acc ++ [(key, i)])
    else
      headerMapAux (i + 1) rest acc

def headerMap (header : List Cell) : List (String × Nat) := headerMapAux 0 header []

def hmFind (m : List (String × Nat)) (k : String) : Option Nat :=
  (m.find? (fun p => p.1 == k)).map Prod.snd

/-- The data rows of `_read_sheet_rows`: excel row numbers starting at 2,
fully-blank rows skipped. -/
def dataRowsAux (i : Nat) : List (List Cell) → List (Nat × List Cell)
  | [] => []
  | r :: rest =>
    if rowBlank r then dataRowsAux (i + 1) rest else (i, r) :: dataRowsAux (i + 1) rest

/-- `_read_sheet_rows` (importer.py). -/
def readSheetRows (ws : Sheet) : List (String × Nat) × List (Nat × List Cell) :=
  match ws.rows with
  | [] => ([], [])
  | header :: rest => (headerMap header, dataRowsAux 2 rest)

/-! ## Import errors and roll modes -/

/-- `ImportError` (importer.py): a structured validation error. -/
structure ImportError where
  tab : String
  row : Option Nat
  message : String
deriving Repr, DecidableEq

def ROLL_UNIFORM : String := "uniform"
def ROLL_WEIGHT : String := "weight"
def ROLL_RANGE : String := "range"

/-! ## Mode detection and range validation -/

/-- `_detect_mode` (importer.py). -/
def detectMode (tab : String) (hm : List (String × Nat))
    (data : List (Nat × List Cell)) : String × List ImportError :=
  let hasMin := (hmFind hm "min").isSome
  let hasMax := (hmFind hm "max").isSome
  let hasWeight := (hmFind hm "weight").isSome
  if hasMin ∨ hasMax then
    if ¬(hasMin ∧ hasMax) then
      (ROLL_RANGE, [⟨tab, none, "Range mode requires both 'min' and 'max' columns."⟩])
    else
      let miIdx := (hmFind hm "min").getD 0
      let maIdx := (hmFind hm "max").getD 0
      (ROLL_RANGE, data.filterMap (fun rr =>
        match to_int (getCell rr.2 miIdx), to_int (getCell rr.2 maIdx) with
        | some mi, some ma =>
          if mi > ma then
            some ⟨tab, some rr.1, "Invalid range: min " ++ intStr mi ++
              " is greater than max " ++ intStr ma ++ "."⟩
          else none
        | _, _ => none))
  else if hasWeight then
    let wIdx := (hmFind hm "weight").getD 0
    (ROLL_WEIGHT, data.filterMap (fun rr =>
      match to_int (getCell rr.2 wIdx) with
      | some w =>
        if w ≤ 0 then
          some ⟨tab, some rr.1, "Invalid weight " ++ intStr w ++
            ". Must be a positive integer."⟩
        else none
      | none => none))
  else
    (ROLL_UNIFORM, [])

/-- The `(min, max, excel_row)` triples `_validate_ranges` collects. -/
def collectRanges (hm : List (String × Nat)) (data : List (Nat × List Cell)) :
    List (Int × Int × Nat) :=
  let miIdx := (hmFind hm "min").getD 0
  let maIdx := (hmFind hm "max").getD 0
  data.filterMap (fun rr =>
    match to_int (getCell rr.2 miIdx), to_int (getCell rr.2 maIdx) with
    | some mi, some ma => some (mi, ma, rr.1)
    | _, _ => none)

/-- The sort key order of `_validate_ranges` (`key=lambda x: (x[0], x[1])`,
stable, as Python's sort; `List.insertionSort` is likewise stable). -/
def rangeLe (a b : Int × Int × Nat) : Prop :=
  a.1 < b.1 ∨ (a.1 = b.1 ∧ a.2.1 ≤ b.2.1)

instance : DecidableRel rangeLe := fun a b => by
  unfold rangeLe; infer_instance

/-- The adjacent-pair overlap scan of `_validate_ranges` over the sorted list. -/
def adjacentOverlapErrs (tab : String) : List (Int × Int × Nat) → List ImportError
  | a :: b :: rest =>
    (if b.1 ≤ a.2.1 then
      [⟨tab, some b.2.2, "Overlapping ranges with row " ++ natStr a.2.2 ++ ": " ++
        intStr a.1 ++ "-" ++ intStr a.2.1 ++ " overlaps " ++
        intStr b.1 ++ "-" ++ intStr b.2.1 ++ "."⟩]
     else []) ++ adjacentOverlapErrs tab (b :: rest)
  | _ => []

/-- An uncaught Python exception escaping `import_workbook_bytes`: the
`KeyError` raised by `row[header_map[k]]` when column `k` is absent.  Nothing
in `importer.py` catches it (the only `try` wraps the phase-2 transaction),
so it aborts the import without returning a report. -/
inductive PyErr where
  | keyError (k : String)
deriving Repr, DecidableEq

instance exceptDecEq {e a : Type} [DecidableEq e] [DecidableEq a] :
    DecidableEq (Except e a) := fun x y =>
  match x, y with
  | .ok v, .ok w =>
    if h : v = w then isTrue (by rw [h]) else isFalse (by intro hh; cases hh; exact h rfl)
  | .error v, .error w =>
    if h : v = w then isTrue (by rw [h]) else isFalse (by intro hh; cases hh; exact h rfl)
  | .ok _, .error _ => isFalse (by intro hh; cases hh)
  | .error _, .ok _ => isFalse (by intro hh; cases hh)

/-- `_validate_ranges` (importer.py).  Its loop body evaluates
`row[header_map["min"]]` then `row[header_map["max"]]` for every data row,
so when either column is absent and at least one data row exists it raises
`KeyError` instead of returning. -/
def validateRanges (tab : String) (hm : List (String × Nat))
    (data : List (Nat × List Cell)) : Except PyErr (List ImportError) :=
  if data ≠ [] ∧ (hmFind hm "min").isNone then .error (.keyError "min")
  else if data ≠ [] ∧ (hmFind hm "max").isNone then .error (.keyError "max")
  else .ok (adjacentOverlapErrs tab (List.insertionSort rangeLe (collectRanges hm data)))

/-! ## Type / result / regions tab parsing -/

/-- `list(dict.fromkeys(types))`: preserve first-seen order, drop duplicates. -/
def dedupFirstAux (seen : List String) : List String → List String
  | [] => []
  | x :: xs =>
    if seen.contains x then dedupFirstAux seen xs
    else x :: dedupFirstAux (x :: seen) xs

def dedupFirst (l : List String) : List String := dedupFirstAux [] l

/-- `mr if mr > 0 else None` where `mr` folds `max` from 0 over a list. -/
def maxRollOf (maxes : List Int) : Option Int :=
  let mr := maxes.foldl max 0
  if mr > 0 then some mr else none

/-- The `(type, min, max)` rows the range branch of `_parse_type_tab` keeps. -/
def typeRowsRange (hm : List (String × Nat)) (data : List (Nat × List Cell)) :
    List (String × Int × Int) :=
  let tIdx := (hmFind hm "type").getD 0
  let miIdx := (hmFind hm "min").getD 0
  let maIdx := (hmFind hm "max").getD 0
  data.filterMap (fun rr =>
    let t := cellStr (getCell rr.2 tIdx)
    if t = "" then none
    else
      match to_int (getCell rr.2 miIdx), to_int (getCell rr.2 maIdx) with
      | some mi, some ma => some (t, mi, ma)
      | _, _ => none)

/-- The types the weight branch of `_parse_type_tab` keeps. -/
def typeRowsWeight (hm : List (String × Nat)) (data : List (Nat × List Cell)) :
    List String :=
  let tIdx := (hmFind hm "type").getD 0
  let wIdx := (hmFind hm "weight").getD 0
  data.filterMap (fun rr =>
    let t := cellStr (getCell rr.2 tIdx)
    if t = "" then none
    else
      match to_int (getCell rr.2 wIdx) with
      | some w => if w ≤ 0 then none else some t
      | none => none)

/-- The types the uniform branch of `_parse_type_tab` keeps. -/
def typeRowsUniform (hm : List (String × Nat)) (data : List (Nat × List Cell)) :
    List String :=
  let tIdx := (hmFind hm "type").getD 0
  data.filterMap (fun rr =>
    let t := cellStr (getCell rr.2 tIdx)
    if t = "" then none else some t)

/-- `_parse_type_tab` (importer.py) on a found sheet: returns
`(roll_mode, types, max_roll, errors)`, or the uncaught `KeyError` from
`_validate_ranges` in range mode with a min/max column missing. -/
def parseTypeSheet (tab : String) (ws : Sheet) :
    Except PyErr (String × List String × Option Int × List ImportError) :=
  let (hm, data) := readSheetRows ws
  if (hmFind hm "type").isNone then
    .ok (ROLL_UNIFORM, [], none, [⟨tab, none, "Missing required column 'type'."⟩])
  else
    let (mode, modeErrs) := detectMode tab hm data
    if mode = ROLL_RANGE then
      match validateRanges tab hm data with
      | .error e => .error e
      | .ok vErrs =>
        let rows := typeRowsRange hm data
        let types := dedupFirst (rows.map (fun r => r.1))
        let mr := maxRollOf (rows.map (fun r => r.2.2))
        .ok (mode, types, mr, modeErrs ++ vErrs ++
          (if types = [] then [⟨tab, none, "No types found."⟩] else []))
    else if mode = ROLL_WEIGHT then
      let types := dedupFirst (typeRowsWeight hm data)
      .ok (mode, types, none, modeErrs ++
        (if types = [] then [⟨tab, none, "No types found."⟩] else []))
    else
      let types := dedupFirst (typeRowsUniform hm data)
      .ok (mode, types, none, modeErrs ++
        (if types = [] then [⟨tab, none, "No types found."⟩] else []))

/-- `_parse_type_tab` (importer.py) including the missing-tab case. -/
def parseTypeTab (wb : Workbook) (tab : String) :
    Except PyErr (String × List String × Option Int × List ImportError) :=
  match findSheet wb tab with
  | none => .ok (ROLL_UNIFORM, [], none, [⟨tab, none, "Missing required tab."⟩])
  | some ws => parseTypeSheet tab ws

/-! ## Result tab parsing -/

/-- A parsed entry (the dicts `_parse_result_tab` builds), also the shape of a
stored `table_entry` row (`min_roll`, `max_roll`, `weight`, `result`;
`sort_order` is the list position). -/
structure Entry where
  min_roll : Option Int
  max_roll : Option Int
  weight : Option Int
  result : String
deriving Repr, DecidableEq

/-- The entries the range branch of `_parse_result_tab` keeps. -/
def resultRowsRange (hm : List (String × Nat)) (data : List (Nat × List Cell)) :
    List Entry :=
  let rIdx := (hmFind hm "result").getD 0
  let miIdx := (hmFind hm "min").getD 0
  let maIdx := (hmFind hm "max").getD 0
  data.filterMap (fun rr =>
    let res := cellStr (getCell rr.2 rIdx)
    if res = "" then none
    else
      match to_int (getCell rr.2 miIdx), to_int (getCell rr.2 maIdx) with
      | some mi, some ma => some ⟨some mi, some ma, none, res⟩
      | _, _ => none)

/-- The entries the weight branch of `_parse_result_tab` keeps. -/
def resultRowsWeight (hm : List (String × Nat)) (data : List (Nat × List Cell)) :
    List Entry :=
  let rIdx := (hmFind hm "result").getD 0
  let wIdx := (hmFind hm "weight").getD 0
  data.filterMap (fun rr =>
    let res := cellStr (getCell rr.2 rIdx)
    if res = "" then none
    else
      match to_int (getCell rr.2 wIdx) with
      | some w => if w ≤ 0 then none else some ⟨none, none, some w, res⟩
      | none => none)

/-- The entries the uniform branch of `_parse_result_tab` keeps. -/
def resultRowsUniform (hm : List (String × Nat)) (data : List (Nat × List Cell)) :
    List Entry :=
  let rIdx := (hmFind hm "result").getD 0
  data.filterMap (fun rr =>
    let res := cellStr (getCell rr.2 rIdx)
    if res = "" then none else some ⟨none, none, none, res⟩)

/-- `_parse_result_tab` (importer.py) on a found sheet: returns
`(roll_mode, entries, max_roll, errors)`, or the uncaught `KeyError` from
`_validate_ranges` in range mode with a min/max column missing. -/
def parseResultSheet (tab : String) (ws : Sheet) :
    Except PyErr (String × List Entry × Option Int × List ImportError) :=
  let (hm, data) := readSheetRows ws
  if (hmFind hm "result").isNone then
    .ok (ROLL_UNIFORM, [], none, [⟨tab, none, "Missing required column 'result'."⟩])
  else
    let (mode, modeErrs) := detectMode tab hm data
    if mode = ROLL_RANGE then
      match validateRanges tab hm data with
      | .error e => .error e
      | .ok vErrs =>
        let entries := resultRowsRange hm data
        let mr := maxRollOf (entries.map (fun e => e.max_roll.getD 0))
        .ok (mode, entries, mr, modeErrs ++ vErrs ++
          (if entries = [] then [⟨tab, none, "No results found."⟩] else []))
    else if mode = ROLL_WEIGHT then
      let entries := resultRowsWeight hm data
      .ok (mode, entries, none, modeErrs ++
        (if entries = [] then [⟨tab, none, "No results found."⟩] else []))
    else
      let entries := resultRowsUniform hm data
      .ok (mode, entries, none, modeErrs ++
        (if entries = [] then [⟨tab, none, "No results found."⟩] else []))

/-- `_parse_result_tab` (importer.py) including the missing-tab case. -/
def parseResultTab (wb : Workbook) (tab : String) :
    Except PyErr (String × List Entry × Option Int × List ImportError) :=
  match findSheet wb tab with
  | none => .ok (ROLL_UNIFORM, [], none, [⟨tab, none, "Missing required tab."⟩])
  | some ws => parseResultSheet tab ws

/-! ## Regions tab parsing -/

/-- The row loop of `_parse_regions_tab`, threading the `seen` set. -/
def regionsRowsAux (seen : List Int) (ridIdx nameIdx : Nat) :
    List (Nat × List Cell) → List (Int × String) × List ImportError
  | [] => ([], [])
  | rr :: rest =>
    let rid? := to_int (getCell rr.2 ridIdx)
    let name := cellStr (getCell rr.2 nameIdx)
    match rid? with
    | none =>
      let (rs, es) := regionsRowsAux seen ridIdx nameIdx rest
      (rs, ⟨"Regions", some rr.1, "region_id must be an integer."⟩ :: es)
    | some rid =>
      if rid ≤ 0 then
        let (rs, es) := regionsRowsAux seen ridIdx nameIdx rest
        (rs, ⟨"Regions", some rr.1, "region_id must be a positive integer."⟩ :: es)
      else if name = "" then
        let (rs, es) := regionsRowsAux seen ridIdx nameIdx rest
        (rs, ⟨"Regions", some rr.1, "region_name is required."⟩ :: es)
      else if seen.contains rid then
        let (rs, es) := regionsRowsAux seen ridIdx nameIdx rest
        (rs, ⟨"Regions", some rr.1, "Duplicate region_id " ++ intStr rid ++ "."⟩ :: es)
      else
        let (rs, es) := regionsRowsAux (rid :: seen) ridIdx nameIdx rest
        ((rid, name) :: rs, es)

/-- `_parse_regions_tab` (importer.py): returns the regions in sheet order
and the per-row errors.  (No `KeyError` is reachable here: both column
indexes are checked before any row access.) -/
def parseRegionsTab (wb : Workbook) : List (Int × String) × List ImportError :=
  match findSheet wb "Regions" with
  | none => ([], [])
  | some ws =>
    let (hm, data) := readSheetRows ws
    if (hmFind hm "region_id").isNone ∨ (hmFind hm "region_name").isNone then
      ([], [⟨"Regions", none, "Regions tab must have columns: region_id, region_name."⟩])
    else
      regionsRowsAux [] ((hmFind hm "region_id").getD 0)
        ((hmFind hm "region_name").getD 0) data

/-! ## Sheet-naming convention -/

/-- `_enc_type_tab` (importer.py / download.py). -/
def encTypeTab : Option Int → String
  | none => "Encounter Types"
  | some r => "Encounter Types - " ++ intStr r

/-- `_enc_tab` (importer.py / download.py). -/
def encTab : Option Int → String → String
  | none, t => "Encounter - " ++ t
  | some r, t => "Encounter - " ++ intStr r ++ " - " ++ t

/-- `_rew_tab` (importer.py / download.py). -/
def rewTab : Option Int → String → String
  | none, t => "Reward - " ++ t
  | some r, t => "Reward - " ++ intStr r ++ " - " ++ t

/-! ## Phase 1: parse and validate the whole workbook -/

/-- One parsed result table (the per-type dicts of `import_workbook_bytes`). -/
structure TableParse where
  mode : String
  entries : List Entry
  maxRoll : Option Int
deriving Repr, DecidableEq

/-- One region's parsed blob (`parsed_regions` element of
`import_workbook_bytes`): the encounter-type table info and the per-type
encounter/reward tables, keyed in `types` order. -/
structure RegionParse where
  region_id : Option Int
  typesMode : String
  typesMax : Option Int
  types : List String
  encTables : List (String × TableParse)
  rewTables : List (String × TableParse)
deriving Repr, DecidableEq

/-- The missing-tab checks of `import_workbook_bytes` for one region. -/
def missingTabErrs (sheetnames : List String) (rid : Option Int)
    (types : List String) : List ImportError :=
  types.flatMap (fun t =>
    (if sheetnames.contains (encTab rid t) then []
     else [⟨encTab rid t, none, "Missing tab for encounter type '" ++ t ++ "'."⟩]) ++
    (if sheetnames.contains (rewTab rid t) then []
     else [⟨rewTab rid t, none, "Missing tab for reward type '" ++ t ++ "'."⟩]))

/-- One of the two per-type result-tab loops of `import_workbook_bytes`:
parse `mk t` for every type `t` in order, collecting the tables and the
errors, propagating an uncaught exception. -/
def parseResultTabs (wb : Workbook) (mk : String → String) :
    List String → Except PyErr (List (String × TableParse) × List ImportError)
  | [] => .ok ([], [])
  | t :: rest =>
    match parseResultTab wb (mk t) with
    | .error e => .error e
    | .ok r =>
      match parseResultTabs wb mk rest with
      | .error e => .error e
      | .ok (tbls, errs) => .ok ((t, ⟨r.1, r.2.1, r.2.2.1⟩) :: tbls, r.2.2.2 ++ errs)

/-- The body of the per-region loop of `import_workbook_bytes` (phase 1).
Takes the errors accumulated so far (the loop consults the *global* error
list before parsing result tabs), returns the region's parsed blob (if it
was appended) and the new error list. -/
def parseRegionPhase (wb : Workbook) (sheetnames : List String)
    (errsSoFar : List ImportError) (rid : Option Int) :
    Except PyErr (Option RegionParse × List ImportError) :=
  match parseTypeTab wb (encTypeTab rid) with
  | .error e => .error e
  | .ok (typesMode, types, typesMax, typeErrs) =>
    let errs1 := errsSoFar ++ typeErrs
    if typeErrs ≠ [] then
      .ok (none, errs1)
    else
      let errs2 := errs1 ++ missingTabErrs sheetnames rid types
      if errs2 ≠ [] then
        .ok (none, errs2)
      else
        match parseResultTabs wb (encTab rid) types with
        | .error e => .error e
        | .ok (encTables, encErrs) =>
          match parseResultTabs wb (rewTab rid) types with
          | .error e => .error e
          | .ok (rewTables, rewErrs) =>
            let errs3 := errs2 ++ encErrs ++ rewErrs
            if errs3 ≠ [] then
              .ok (none, errs3)
            else
              .ok (some ⟨rid, typesMode, typesMax, types, encTables, rewTables⟩, errs3)

/-- The whole per-region loop of `import_workbook_bytes` (phase 1). -/
def parseAllRegions (wb : Workbook) (sheetnames : List String) :
    List (Option Int) → List ImportError →
    Except PyErr (List RegionParse × List ImportError)
  | [], errs => .ok ([], errs)
  | rid :: rest, errs =>
    match parseRegionPhase wb sheetnames errs rid with
    | .error e => .error e
    | .ok (blob?, errs') =>
      match parseAllRegions wb sheetnames rest errs' with
      | .error e => .error e
      | .ok (blobs, errs'') =>
        match blob? with
        | some blob => .ok (blob :: blobs, errs'')
        | none => .ok (blobs, errs'')

/-- The outcome of phase 1 of `import_workbook_bytes`: regional flag, parsed
regions list, per-region blobs, and the accumulated error list. -/
structure ParsePhase where
  regionalMode : Bool
  regions : List (Int × String)
  parsed : List RegionParse
  errors : List ImportError
deriving Repr, DecidableEq

/-- Phase 1 of `import_workbook_bytes`: everything before the `BEGIN`,
including the two regional-mode early returns. -/
def importParse (wb : Workbook) : Except PyErr ParsePhase :=
  let sheetnames := sheetNames wb
  let (regions, regionErrs) := parseRegionsTab wb
  let regionalMode := hasSheet wb "Regions"
  if regionalMode ∧ regionErrs ≠ [] then
    .ok ⟨regionalMode, regions, [], regionErrs⟩
  else if regionalMode ∧ regions = [] then
    .ok ⟨regionalMode, regions, [],
      [⟨"Regions", none, "Regions tab is present but has no valid rows."⟩]⟩
  else
    let regionIds : List (Option Int) :=
      if regionalMode then regions.map (fun p => some p.1) else [none]
    match parseAllRegions wb sheetnames regionIds regionErrs with
    | .error e => .error e
    | .ok (parsed, errs) => .ok ⟨regionalMode, regions, parsed, errs⟩

/-! ## Phase 2: the atomic replace, and the stored state -/

/-- A stored `table_def` row together with its owned `table_entry` rows in
`sort_order`.  `updated_at` is a wall-clock timestamp and carries no
content; it is not modelled. -/
structure TableDef where
  group_key : String
  region_id : Option Int
  type_key : Option String
  roll_mode : String
  max_roll : Option Int
  entries : List Entry
deriving Repr, DecidableEq

/-- One tenant's stored rows: its `region` rows in `sort_order` and its
`table_def` rows (with entries) in insertion order. -/
structure Store where
  regions : List (Int × String)
  tables : List TableDef
deriving Repr, DecidableEq

/-- `build_type_entries_from_sheet` (importer.py): re-reads the encounter
types sheet inside phase 2 and builds the entries of the `encounter_type`
table.  Phase 2 only runs after a fully successful phase 1, so the sheet and
its `type` column (and `min`/`max` resp. `weight` in those modes) are
present and no `KeyError` can occur. -/
def buildTypeEntriesSheet (tab : String) (ws : Sheet) : List Entry :=
  let (hm, data) := readSheetRows ws
  let (mode, _) := detectMode tab hm data
  let tIdx := (hmFind hm "type").getD 0
  if mode = ROLL_RANGE then
    let miIdx := (hmFind hm "min").getD 0
    let maIdx := (hmFind hm "max").getD 0
    data.filterMap (fun rr =>
      let t := cellStr (getCell rr.2 tIdx)
      if t = "" then none
      else
        match to_int (getCell rr.2 miIdx), to_int (getCell rr.2 maIdx) with
        | some mi, some ma => some ⟨some mi, some ma, none, t⟩
        | _, _ => none)
  else if mode = ROLL_WEIGHT then
    let wIdx := (hmFind hm "weight").getD 0
    data.filterMap (fun rr =>
      let t := cellStr (getCell rr.2 tIdx)
      if t = "" then none
      else
        match to_int (getCell rr.2 wIdx) with
        | some w => if w ≤ 0 then none else some ⟨none, none, some w, t⟩
        | none => none)
  else
    data.filterMap (fun rr =>
      let t := cellStr (getCell rr.2 tIdx)
      if t = "" then none else some ⟨none, none, none, t⟩)

/-- `build_type_entries_from_sheet` (importer.py), looking the sheet up. -/
def buildTypeEntriesFromSheet (wb : Workbook) (rid : Option Int) : List Entry :=
  match findSheet wb (encTypeTab rid) with
  | none => []
  | some ws => buildTypeEntriesSheet (encTypeTab rid) ws

/-- The `table_def`/`table_entry` rows phase 2 inserts for one region blob:
the `encounter_type` table, then per type (in order) its `encounter` and
`reward` tables. -/
def tablesOfBlob (wb : Workbook) (blob : RegionParse) : List TableDef :=
  ⟨"encounter_type", blob.region_id, none, blob.typesMode, blob.typesMax,
    buildTypeEntriesFromSheet wb blob.region_id⟩ ::
  (blob.encTables.zip blob.rewTables).flatMap (fun pp =>
    [⟨"encounter", blob.region_id, some pp.1.1, pp.1.2.mode, pp.1.2.maxRoll, pp.1.2.entries⟩,
     ⟨"reward", blob.region_id, some pp.2.1, pp.2.2.mode, pp.2.2.maxRoll, pp.2.2.entries⟩])

/-- The store phase 2 leaves behind on success: prior rows for the tenant
deleted, regions inserted in sheet order (regional mode only), tables
inserted region by region. -/
def storeOfParse (wb : Workbook) (pp : ParsePhase) : Store :=
  { regions := if pp.regionalMode then pp.regions else [],
    tables := pp.parsed.flatMap (tablesOfBlob wb) }

/-- `ImportCounts` (importer.py). -/
structure ImportCounts where
  encounter_types : Nat
  encounter_entries : Nat
  reward_types : Nat
  reward_entries : Nat
  regions : Nat
deriving Repr, DecidableEq

/-- The success summary `import_workbook_bytes` builds: the totals are
accumulated exactly for the blobs appended to `parsed_regions`, and
`reward_types` is set from the *encounter* type total. -/
def countsOfParse (pp : ParsePhase) : ImportCounts :=
  { encounter_types := (pp.parsed.map (fun b => b.types.length)).sum,
    encounter_entries := (pp.parsed.map (fun b =>
      (b.encTables.map (fun p => p.2.entries.length)).sum)).sum,
    reward_types := (pp.parsed.map (fun b => b.types.length)).sum,
    reward_entries := (pp.parsed.map (fun b =>
      (b.rewTables.map (fun p => p.2.entries.length)).sum)).sum,
    regions := if pp.regionalMode then pp.regions.length else 0 }

/-- `import_workbook_bytes` (importer.py) for one tenant.

`st` is the tenant's prior stored state.  `dbFail = true` models any
exception raised inside the phase-2 `BEGIN ... commit` block; the `except`
handler rolls the transaction back (leaving the prior state) and reports the
single storage error.  The exception text interpolates the driver's message
and is modelled as a fixed string.  An uncaught parse `KeyError` (see
`validateRanges`) aborts the call without a report and without touching
storage. -/
def importWorkbook (st : Store) (wb : Workbook) (dbFail : Bool) :
    Except PyErr (Store × Option ImportCounts × List ImportError) :=
  match importParse wb with
  | .error e => .error e
  | .ok pp =>
    if pp.errors ≠ [] then
      .ok (st, none, pp.errors)
    else if dbFail then
      .ok (st, none, [⟨"DB", none, "Import failed during database write: <exception>"⟩])
    else
      .ok (storeOfParse wb pp, some (countsOfParse pp), [])

/-! ## Exporter (download.py) -/

/-- `_fetch_table_def` (download.py): the `WHERE ... region_id IS ? AND
type_key IS ?` lookup (SQLite `IS` is null-safe equality). -/
def fetchTableDef (st : Store) (g : String) (r : Option Int) (t : Option String) :
    Option TableDef :=
  st.tables.find? (fun td => td.group_key == g && td.region_id == r && td.type_key == t)

def cellOfOptInt : Option Int → Cell
  | none => .cnone
  | some n => .cint n

/-- `_add_sheet_for_table` (download.py): headers by roll mode, then one row
per entry in stored order. -/
def addSheetForTable (title kind roll_mode : String) (entries : List Entry) : Sheet :=
  let headers :=
    if roll_mode = "range" then [Cell.cstr "min", Cell.cstr "max", Cell.cstr kind]
    else if roll_mode = "weight" then [Cell.cstr "weight", Cell.cstr kind]
    else [Cell.cstr kind]
  let rows := entries.map (fun e =>
    if roll_mode = "range" then
      [cellOfOptInt e.min_roll, cellOfOptInt e.max_roll, Cell.cstr e.result]
    else if roll_mode = "weight" then
      [cellOfOptInt e.weight, Cell.cstr e.result]
    else
      [Cell.cstr e.result])
  ⟨title, headers :: rows⟩

/-- The `types` list the exporter derives from the stored encounter-type
entries (`[e["result"] for e in enc_type_entries if e["result"]]`). -/
def exportTypesOf (entries : List Entry) : List String :=
  entries.filterMap (fun e => if e.result = "" then none else some e.result)

/-- The encounter/reward sheets the exporter emits for one type. -/
def exportTypedSheets (st : Store) (rid : Option Int) (t : String) : List Sheet :=
  (match fetchTableDef st "encounter" rid (some t) with
   | some d => [addSheetForTable (encTab rid t) "result" d.roll_mode d.entries]
   | none => []) ++
  (match fetchTableDef st "reward" rid (some t) with
   | some d => [addSheetForTable (rewTab rid t) "result" d.roll_mode d.entries]
   | none => [])

/-- The sheets the exporter emits for one region's block (regional mode):
the encounter-types sheet, then per type the typed sheets; a region with no
`encounter_type` table is skipped. -/
def exportRegionBlock (st : Store) (rid : Option Int) : List Sheet :=
  match fetchTableDef st "encounter_type" rid none with
  | none => []
  | some etd =>
    addSheetForTable (encTypeTab rid) "type" etd.roll_mode etd.entries ::
    (exportTypesOf etd.entries).flatMap (exportTypedSheets st rid)

/-- `build_workbook_bytes` (download.py).  The workbook value stands for the
`.xlsx` bytes; only sheet names, headers and cell values are content. -/
def buildWorkbook (st : Store) : Except String Workbook :=
  if st.regions.isEmpty then
    match fetchTableDef st "encounter_type" none none with
    | none => .error "No imported data found. Run /import first."
    | some etd =>
      .ok (addSheetForTable (encTypeTab none) "type" etd.roll_mode etd.entries ::
        (exportTypesOf etd.entries).flatMap (exportTypedSheets st none))
  else
    .ok ((⟨"Regions",
      [Cell.cstr "region_id", Cell.cstr "region_name"] ::
        st.regions.map (fun p => [Cell.cint p.1, Cell.cstr p.2])⟩ : Sheet) ::
      st.regions.flatMap (fun p => exportRegionBlock st (some p.1)))

/-! ## Roller (roller.py) -/

/-- `_pick_weighted` (roller.py): walk the candidates accumulating weight,
returning the first whose cumulative sum reaches the draw; the trailing
`return items[-1][0]` fallback is the last candidate. -/
def pickWeightedGo (r : Int) (acc : Int) : List (String × Int) → Option String
  | [] => none
  | (v, w) :: rest => if r ≤ acc + w then some v else pickWeightedGo r (acc + w) rest

def pickWeighted (items : List (String × Int)) (r : Int) : String :=
  match pickWeightedGo r 0 items with
  | some v => v
  | none => ((items.getLast?).map Prod.fst).getD ""

/-- The range-mode bucket walk of `roll_from_table`: first entry in stored
order whose `[min_roll, max_roll]` contains the roll (entries with a null
bound skipped). -/
def findRangeEntry (roll : Int) : List Entry → Option Entry
  | [] => none
  | e :: rest =>
    match e.min_roll, e.max_roll with
    | some mi, some ma =>
      if mi ≤ roll ∧ roll ≤ ma then some e else findRangeEntry roll rest
    | _, _ => findRangeEntry roll rest

/-- `roll_from_table` (roller.py) for one tenant's store.

Randomness is modelled by `draw`: the value `random.randint(1, n)` returns,
where `n` is the weight total (weight mode), the table's `max_roll` (range
mode), or the entry count (uniform mode, `random.choice`, `draw` then being
a 0-based index).  `randint(1, n)` with `n < 1` raises `ValueError` (an
empty range), modelled as an error result; theorems constrain `draw` to the
contract of the corresponding call.  Python's `if not max_roll:` is falsy
for both `NULL` and `0`. -/
def rollFromTable (st : Store) (group_key : String) (region_id : Option Int)
    (type_key : Option String) (draw : Int) : Except String (String × String) :=
  match fetchTableDef st group_key region_id type_key with
  | none => .error ("Missing table: " ++ group_key)
  | some t =>
    let rows := t.entries
    if rows.isEmpty then .error "Table has no entries"
    else if t.roll_mode = "uniform" then
      .ok (((rows.getD draw.toNat ⟨none, none, none, ""⟩).result), "uniform")
    else if t.roll_mode = "weight" then
      let items := rows.filterMap (fun e => e.weight.map (fun w => (e.result, w)))
      if items.isEmpty then .error "Weight mode table has no valid weights"
      else
        let total := (items.map Prod.snd).sum
        if total < 1 then .error "ValueError: empty range for randrange"
        else .ok (pickWeighted items draw, "weight")
    else if t.roll_mode = "range" then
      match t.max_roll with
      | none => .error "Range mode table missing max_roll"
      | some m =>
        if m = 0 then .error "Range mode table missing max_roll"
        else if m < 1 then .error "ValueError: empty range for randrange"
        else
          match findRangeEntry draw rows with
          | some e => .ok (e.result, "range d" ++ intStr m ++ "=" ++ intStr draw)
          | none => .error ("No range matched roll " ++ intStr draw)
    else .error ("Unknown roll_mode " ++ t.roll_mode)

/-! ## Spec-side definitions and concrete inputs used by the claims -/

/-- The integer-coercion behaviour as the specification words it: the integer
is returned exactly for an integer, a float with zero fractional part, or a
trimmed non-empty string parsing as a float with zero fractional part. -/
def specToInt (v : Cell) : Option Int :=
  match v with
  | .cnone => none
  | .cint n => some n
  | .cfloat q => if q.den = 1 then some q.num else none
  | .cstr s =>
    if pyStrip s ≠ "" then
      match pyParseFloat (pyStrip s) with
      | some q => if q.den = 1 then some q.num else none
      | none => none
    else none

/-! ## C10: the integer-coercion helper -/

theorem qOfRaw_den_one_iff (p : Int × Int) :
    (floatIsInt p = true ↔ (qOfRaw p).den = 1) ∧
    (floatIsInt p = true → (qOfRaw p).num = floatToInt p) := by
  obtain ⟨m, e⟩ := p
  by_cases he : 0 ≤ e
  · have hq : qOfRaw (m, e) = ((m * 10 ^ e.toNat : ℤ) : ℚ) := by
      unfold qOfRaw
      rw [show (m, e).2 = ((e.toNat : ℕ) : ℤ) by simp [Int.toNat_of_nonneg he],
        zpow_natCast]
      push_cast
      ring
    constructor
    · constructor
      · intro _
        rw [hq]
        exact Rat.den_intCast _
      · intro _
        simp [floatIsInt, he]
    · intro _
      rw [hq, Rat.num_intCast]
      simp [floatToInt, he]
  · push_neg at he
    set k := (-e).toNat with hk
    have hpow_ne : ((10 : ℤ) ^ k) ≠ 0 := by positivity
    have h10 : ((10 ^ k : ℤ) : ℚ) ≠ 0 := by exact_mod_cast hpow_ne
    have hq : qOfRaw (m, e) = (m : ℚ) / ((10 ^ k : ℤ) : ℚ) := by
      unfold qOfRaw
      rw [show (m, e).2 = -(k : ℤ) by omega, zpow_neg, zpow_natCast]
      push_cast
      ring
    have hdvd_iff : (qOfRaw (m, e)).den = 1 ↔ ((10 : ℤ) ^ k) ∣ m := by
      constructor
      · intro hden
        have hqq : ((qOfRaw (m, e)).num : ℚ) = qOfRaw (m, e) :=
          (Rat.den_eq_one_iff _).mp hden
        nth_rewrite 2 [hq] at hqq
        have h2 : ((qOfRaw (m, e)).num : ℚ) * ((10 ^ k : ℤ) : ℚ) = (m : ℚ) := by
          field_simp at hqq
          exact_mod_cast hqq
        have h3 : ((qOfRaw (m, e)).num * 10 ^ k : ℤ) = m := by exact_mod_cast h2
        exact ⟨(qOfRaw (m, e)).num, by rw [mul_comm]; exact h3.symm⟩
      · rintro ⟨c, rfl⟩
        have hval : qOfRaw (10 ^ k * c, e) = ((c : ℤ) : ℚ) := by
          rw [hq]; push_cast; field_simp
        rw [hval, Rat.den_intCast]
    have hfi : floatIsInt (m, e) = true ↔ ((10 : ℤ) ^ k) ∣ m := by
      simp only [floatIsInt, if_neg (show ¬(0:ℤ) ≤ e by omega)]
      constructor
      · intro h
        exact Int.dvd_of_emod_eq_zero (by simpa using h)
      · intro h
        simpa using Int.emod_eq_zero_of_dvd h
    constructor
    · rw [hfi, hdvd_iff]
    · intro hfl
      obtain ⟨c, rfl⟩ := hfi.mp hfl
      have hval : qOfRaw (10 ^ k * c, e) = ((c : ℤ) : ℚ) := by
        rw [hq]; push_cast; field_simp
      rw [hval, Rat.num_intCast]
      simp only [floatToInt, if_neg (show ¬(0:ℤ) ≤ e by omega)]
      rw [Int.mul_ediv_cancel_left c hpow_ne]

/-- A float cell with value 3.5 (the rational 7/2, built in lowest terms). -/
def floatThreeFive : ℚ := ⟨7, 2, by norm_num, by norm_num⟩

/-- C10: `_to_int` is total and returns the integer exactly when the cell is
an integer, a float with zero fractional part, or a trimmed non-empty string
parsing as a float with zero fractional part; every other value - including
fractional numbers like 3.5 and non-numeric text - yields `None` (treated as
blank by the callers).  Floats are modelled as exact rationals (see the file
header). -/
theorem to_int_characterization :
    (∀ v : Cell, to_int v = specToInt v) ∧
    to_int (.cfloat floatThreeFive) = none ∧
    to_int (.cstr "3.5") = none ∧
    to_int (.cstr " 42 ") = some 42 ∧
    to_int (.cstr "abc") = none := by
  refine ⟨?_, by rfl, by decide, by decide, by decide⟩
  intro v
  cases v with
  | cnone => rfl
  | cint n => rfl
  | cfloat q => rfl
  | cstr s =>
    show to_int (.cstr s) = specToInt (.cstr s)
    by_cases h : pyStrip s = ""
    · simp [to_int, specToInt, h]
    · cases hp : pyParseFloatRaw (pyStrip s) with
      | none => simp [to_int, specToInt, pyParseFloat, h, hp]
      | some p =>
        obtain ⟨hiff, hnum⟩ := qOfRaw_den_one_iff p
        by_cases hfi : floatIsInt p = true
        · have hden := hiff.mp hfi
          simp [to_int, specToInt, pyParseFloat, h, hp, hfi, hden, hnum hfi]
        · have hden : ¬(qOfRaw p).den = 1 := fun hd => hfi (hiff.mpr hd)
          simp [to_int, specToInt, pyParseFloat, h, hp, hfi, hden]

/-! ## C4 and C5: the roll algorithms -/

/-- The candidate list of a weight-mode roll: entries with a null weight
excluded (the list comprehension in `roll_from_table`). -/
def weightItems (td : TableDef) : List (String × Int) :=
  td.entries.filterMap (fun e => e.weight.map (fun w => (e.result, w)))

theorem pickWeightedGo_first (items : List (String × Int)) :
    ∀ (acc r : Int), acc < r → r ≤ acc + ((items.map Prod.snd).sum) →
    ∃ k : Fin items.length,
      pickWeightedGo r acc items = some (items.get k).1 ∧
      r ≤ acc + ((items.take (k.1 + 1)).map Prod.snd).sum ∧
      ∀ j < k.1, acc + ((items.take (j + 1)).map Prod.snd).sum < r := by
  induction items with
  | nil =>
    intro acc r h1 h2
    simp at h2
    omega
  | cons hd rest ih =>
    intro acc r h1 h2
    by_cases hr : r ≤ acc + hd.2
    · refine ⟨⟨0, by simp⟩, ?_, ?_, ?_⟩
      · obtain ⟨v, w⟩ := hd
        simp [pickWeightedGo, hr]
      · show r ≤ acc + (((hd :: rest).take (0 + 1)).map Prod.snd).sum
        simpa using hr
      · intro j hj
        simp at hj
    · push_neg at hr
      have h2' : r ≤ (acc + hd.2) + ((rest.map Prod.snd).sum) := by
        simp at h2
        omega
      obtain ⟨k, hk1, hk2, hk3⟩ := ih (acc + hd.2) r hr h2'
      have hlen : k.1 + 1 < (hd :: rest).length := by
        have := k.2
        simp only [List.length_cons]
        omega
      refine ⟨⟨k.1 + 1, hlen⟩, ?_, ?_, ?_⟩
      · show pickWeightedGo r acc (hd :: rest) = some (rest.get k).1
        obtain ⟨v, w⟩ := hd
        simp only [pickWeightedGo, if_neg (by omega : ¬r ≤ acc + w)]
        exact hk1
      · show r ≤ acc + (((hd :: rest).take (k.1 + 1 + 1)).map Prod.snd).sum
        simp only [List.take_succ_cons, List.map_cons, List.sum_cons]
        omega
      · intro j hj
        simp only at hj
        cases j with
        | zero =>
          simpa using hr
        | succ j' =>
          have := hk3 j' (by omega)
          simp only [List.take_succ_cons, List.map_cons, List.sum_cons]
          omega

/-- C4: a weight-mode roll excludes null-weight entries from the candidates,
fails with the no-valid-weights condition when none remain, and otherwise,
for a draw `r` in `[1, total]`, returns the first candidate in stored order
whose cumulative weight reaches `r`, with provenance label `"weight"`. -/
theorem weight_roll_spec (st : Store) (g : String) (r? : Option Int)
    (t? : Option String) (td : TableDef) (h : fetchTableDef st g r? t? = some td)
    (hmode : td.roll_mode = "weight") (hne : td.entries ≠ []) (draw : Int) :
    (weightItems td = [] →
      rollFromTable st g r? t? draw = .error "Weight mode table has no valid weights") ∧
    (1 ≤ draw → draw ≤ (((weightItems td).map Prod.snd).sum) →
      ∃ k : Fin (weightItems td).length,
        rollFromTable st g r? t? draw = .ok (((weightItems td).get k).1, "weight") ∧
        draw ≤ (((weightItems td).take (k.1 + 1)).map Prod.snd).sum ∧
        ∀ j < k.1, (((weightItems td).take (j + 1)).map Prod.snd).sum < draw) := by
  have hbranch : rollFromTable st g r? t? draw =
      (if (weightItems td).isEmpty then
        Except.error "Weight mode table has no valid weights"
      else if ((weightItems td).map Prod.snd).sum < 1 then
        Except.error "ValueError: empty range for randrange"
      else Except.ok (pickWeighted (weightItems td) draw, "weight")) := by
    unfold rollFromTable
    rw [h]
    dsimp only
    rw [hmode]
    rw [if_neg (by simpa [List.isEmpty_iff] using hne),
      if_neg (by decide : ¬("weight" : String) = "uniform"),
      if_pos (rfl : ("weight" : String) = "weight")]
    rfl
  constructor
  · intro hempty
    rw [hbranch, if_pos (by simp [hempty])]
  · intro h1 h2
    have hitems_ne : weightItems td ≠ [] := by
      intro hempty
      rw [hempty] at h2
      simp at h2
      omega
    obtain ⟨k, hk1, hk2, hk3⟩ := pickWeightedGo_first (weightItems td) 0 draw
      (by omega) (by omega)
    refine ⟨k, ?_, by simpa using hk2, fun j hj => by simpa using hk3 j hj⟩
    rw [hbranch, if_neg (by simpa [List.isEmpty_iff] using hitems_ne),
      if_neg (by omega)]
    unfold pickWeighted
    rw [hk1]

/-- A concrete weight-mode store: entries A (weight 2), C (null weight,
excluded), B (weight 3). -/
def stWeightDemo : Store :=
  ⟨[], [⟨"encounter", none, none, "weight", none,
    [⟨none, none, some 2, "A"⟩, ⟨none, none, none, "C"⟩, ⟨none, none, some 3, "B"⟩]⟩]⟩

theorem weight_roll_spec_witness :
    ∃ k : Fin (weightItems ⟨"encounter", none, none, "weight", none,
        [⟨none, none, some 2, "A"⟩, ⟨none, none, none, "C"⟩,
         ⟨none, none, some 3, "B"⟩]⟩).length,
      rollFromTable stWeightDemo "encounter" none none 3 =
        .ok (((weightItems ⟨"encounter", none, none, "weight", none,
          [⟨none, none, some 2, "A"⟩, ⟨none, none, none, "C"⟩,
           ⟨none, none, some 3, "B"⟩]⟩).get k).1, "weight") ∧
      3 ≤ (((weightItems ⟨"encounter", none, none, "weight", none,
          [⟨none, none, some 2, "A"⟩, ⟨none, none, none, "C"⟩,
           ⟨none, none, some 3, "B"⟩]⟩).take (k.1 + 1)).map Prod.snd).sum ∧
      ∀ j < k.1, (((weightItems ⟨"encounter", none, none, "weight", none,
          [⟨none, none, some 2, "A"⟩, ⟨none, none, none, "C"⟩,
           ⟨none, none, some 3, "B"⟩]⟩).take (j + 1)).map Prod.snd).sum < 3 :=
  (weight_roll_spec stWeightDemo "encounter" none none
    ⟨"encounter", none, none, "weight", none,
      [⟨none, none, some 2, "A"⟩, ⟨none, none, none, "C"⟩, ⟨none, none, some 3, "B"⟩]⟩
    (by decide) (by decide) (by decide) 3).2 (by decide) (by decide)

/-- A range-mode entry whose interval contains a roll (both bounds set). -/
def entryContains (e : Entry) (roll : Int) : Prop :=
  ∃ mi ma, e.min_roll = some mi ∧ e.max_roll = some ma ∧ mi ≤ roll ∧ roll ≤ ma

theorem findRangeEntry_none_iff (roll : Int) (l : List Entry) :
    findRangeEntry roll l = none ↔ ∀ e ∈ l, ¬entryContains e roll := by
  induction l with
  | nil => simp [findRangeEntry]
  | cons e rest ih =>
    cases hmi : e.min_roll with
    | none =>
      simp only [findRangeEntry, hmi, List.mem_cons]
      rw [ih]
      constructor
      · rintro hall e' (rfl | he')
        · rintro ⟨mi, ma, hmi', _, _, _⟩
          rw [hmi] at hmi'
          exact Option.noConfusion hmi'
        · exact hall e' he'
      · intro hall e' he'
        exact hall e' (Or.inr he')
    | some mi =>
      cases hma : e.max_roll with
      | none =>
        simp only [findRangeEntry, hmi, hma, List.mem_cons]
        rw [ih]
        constructor
        · rintro hall e' (rfl | he')
          · rintro ⟨mi', ma', _, hma', _, _⟩
            rw [hma] at hma'
            exact Option.noConfusion hma'
          · exact hall e' he'
        · intro hall e' he'
          exact hall e' (Or.inr he')
      | some ma =>
        simp only [findRangeEntry, hmi, hma]
        by_cases hin : mi ≤ roll ∧ roll ≤ ma
        · rw [if_pos hin]
          constructor
          · intro hc
            exact Option.noConfusion hc
          · intro hall
            exact absurd ⟨mi, ma, hmi, hma, hin.1, hin.2⟩ (hall e (by simp))
        · rw [if_neg hin]
          rw [ih]
          constructor
          · intro hall e' he'
            rcases List.mem_cons.mp he' with rfl | he''
            · rintro ⟨mi', ma', hmi', hma', h1, h2⟩
              rw [hmi] at hmi'
              rw [hma] at hma'
              cases hmi'
              cases hma'
              exact hin ⟨h1, h2⟩
            · exact hall e' he''
          · intro hall e' he'
            exact hall e' (List.mem_cons_of_mem _ he')
  
theorem findRangeEntry_some_spec (roll : Int) (l : List Entry) (e : Entry)
    (h : findRangeEntry roll l = some e) :
    ∃ k : Fin l.length, l.get k = e ∧ entryContains e roll ∧
      ∀ j, (hj : j < l.length) → j < k.1 → ¬entryContains (l.get ⟨j, hj⟩) roll := by
  induction l with
  | nil => exact Option.noConfusion h
  | cons hd rest ih =>
    by_cases hc : entryContains hd roll
    · obtain ⟨mi, ma, hmi, hma, h1, h2⟩ := hc
      rw [findRangeEntry, hmi, hma] at h
      dsimp only at h
      rw [if_pos ⟨h1, h2⟩] at h
      cases h
      exact ⟨⟨0, by simp⟩, rfl, ⟨mi, ma, hmi, hma, h1, h2⟩,
        fun j hj hj0 => absurd hj0 (by simp)⟩
    · have hskip : findRangeEntry roll (hd :: rest) = findRangeEntry roll rest := by
        rw [findRangeEntry]
        cases hmi : hd.min_roll with
        | none => rfl
        | some mi =>
          cases hma : hd.max_roll with
          | none => rfl
          | some ma =>
            dsimp only
            rw [if_neg (fun hin : mi ≤ roll ∧ roll ≤ ma =>
              hc ⟨mi, ma, hmi, hma, hin.1, hin.2⟩)]
      rw [hskip] at h
      obtain ⟨k, hk1, hk2, hk3⟩ := ih h
      have hlen : k.1 + 1 < (hd :: rest).length := by
        have := k.2
        simp only [List.length_cons]
        omega
      refine ⟨⟨k.1 + 1, hlen⟩, hk1, hk2, ?_⟩
      intro j hj hjlt
      cases j with
      | zero => exact hc
      | succ j' =>
        simp only [List.length_cons] at hj
        exact hk3 j' (by omega) (by simpa using hjlt)

/-- A range-mode table whose stored `max_roll` is negative. -/
def stNegRange : Store :=
  ⟨[], [⟨"encounter", none, none, "range", some (-1), [⟨some 1, some 1, none, "A"⟩]⟩]⟩

/-- C5 counterexample: this range-mode table's `max_roll` (`-1`) is set but
not positive, so the claim requires the roll to fail with the
"missing max_roll" condition; the code's `if not max_roll:` is truthy for a
negative value, so it instead reaches `random.randint(1, -1)`, which raises
`ValueError` - a different failure. -/
theorem range_roll_negative_max_counterexample :
    (∃ td, fetchTableDef stNegRange "encounter" none none = some td ∧
      td.roll_mode = "range" ∧ td.max_roll = some (-1)) ∧
    (∀ draw : Int, rollFromTable stNegRange "encounter" none none draw =
      .error "ValueError: empty range for randrange") ∧
    ("ValueError: empty range for randrange" : String) ≠
      "Range mode table missing max_roll" := by
  refine ⟨⟨⟨"encounter", none, none, "range", some (-1),
    [⟨some 1, some 1, none, "A"⟩]⟩, by decide, rfl, rfl⟩, ?_, by decide⟩
  intro draw
  rfl

/-- C5 (amended): a range-mode roll fails with the "missing max_roll"
condition when `max_roll` is unset *or zero* (Python falsiness); a stored
*negative* `max_roll` instead raises the draw's empty-range `ValueError`;
when `max_roll = m ≥ 1` and the draw lies in `[1, m]`, the roll returns the
first entry in stored order whose `[min_roll, max_roll]` contains the draw
with provenance label `"range d<m>=<draw>"`, and fails with the
"no range matched" condition when no entry's interval contains it. -/
theorem range_roll_amended (st : Store) (g : String) (r? : Option Int)
    (t? : Option String) (td : TableDef) (h : fetchTableDef st g r? t? = some td)
    (hmode : td.roll_mode = "range") (hne : td.entries ≠ []) :
    ((td.max_roll = none ∨ td.max_roll = some 0) → ∀ draw,
      rollFromTable st g r? t? draw = .error "Range mode table missing max_roll") ∧
    (∀ m, td.max_roll = some m → m < 0 → ∀ draw,
      rollFromTable st g r? t? draw = .error "ValueError: empty range for randrange") ∧
    (∀ m, td.max_roll = some m → 1 ≤ m → ∀ draw, 1 ≤ draw → draw ≤ m →
      ((∃ k : Fin td.entries.length,
          rollFromTable st g r? t? draw =
            .ok ((td.entries.get k).result, "range d" ++ intStr m ++ "=" ++ intStr draw) ∧
          entryContains (td.entries.get k) draw ∧
          ∀ j, (hj : j < td.entries.length) → j < k.1 →
            ¬entryContains (td.entries.get ⟨j, hj⟩) draw) ∨
       ((∀ e ∈ td.entries, ¬entryContains e draw) ∧
         rollFromTable st g r? t? draw =
           .error ("No range matched roll " ++ intStr draw)))) := by
  have hbranch : ∀ draw, rollFromTable st g r? t? draw =
      (match td.max_roll with
      | none => Except.error "Range mode table missing max_roll"
      | some m =>
        if m = 0 then Except.error "Range mode table missing max_roll"
        else if m < 1 then Except.error "ValueError: empty range for randrange"
        else
          match findRangeEntry draw td.entries with
          | some e => Except.ok (e.result, "range d" ++ intStr m ++ "=" ++ intStr draw)
          | none => Except.error ("No range matched roll " ++ intStr draw)) := by
    intro draw
    unfold rollFromTable
    rw [h]
    dsimp only
    rw [hmode]
    rw [if_neg (by simpa [List.isEmpty_iff] using hne),
      if_neg (by decide : ¬("range" : String) = "uniform"),
      if_neg (by decide : ¬("range" : String) = "weight"),
      if_pos (rfl : ("range" : String) = "range")]
  refine ⟨?_, ?_, ?_⟩
  · rintro (hmr | hmr) draw
    · rw [hbranch, hmr]
    · rw [hbranch, hmr]
      simp
  · intro m hmr hneg draw
    rw [hbranch, hmr]
    dsimp only
    rw [if_neg (by omega : ¬m = 0), if_pos (by omega : m < 1)]
  · intro m hmr h1 draw hd1 hd2
    cases hfind : findRangeEntry draw td.entries with
    | some e =>
      left
      obtain ⟨k, hk1, hk2, hk3⟩ := findRangeEntry_some_spec draw td.entries e hfind
      refine ⟨k, ?_, by rw [hk1]; exact hk2, fun j hj hjlt => hk3 j hj hjlt⟩
      rw [hbranch, hmr]
      dsimp only
      rw [if_neg (by omega : ¬m = 0), if_neg (by omega : ¬m < 1), hfind, hk1]
    | none =>
      right
      refine ⟨(findRangeEntry_none_iff draw td.entries).mp hfind, ?_⟩
      rw [hbranch, hmr]
      dsimp only
      rw [if_neg (by omega : ¬m = 0), if_neg (by omega : ¬m < 1), hfind]

/-- A concrete range-mode store covering 1..10 with two buckets. -/
def stRangeDemo : Store :=
  ⟨[], [⟨"encounter", none, none, "range", some 10,
    [⟨some 1, some 5, none, "A"⟩, ⟨some 6, some 10, none, "B"⟩]⟩]⟩

theorem range_roll_amended_witness :
    rollFromTable stRangeDemo "encounter" none none 7 =
      .ok ("B", "range d" ++ intStr 10 ++ "=" ++ intStr 7) := by
  have hspec := (range_roll_amended stRangeDemo "encounter" none none
    ⟨"encounter", none, none, "range", some 10,
      [⟨some 1, some 5, none, "A"⟩, ⟨some 6, some 10, none, "B"⟩]⟩
    (by decide) rfl (by decide)).2.2 10 rfl (by norm_num) 7 (by norm_num) (by norm_num)
  rcases hspec with ⟨k, hk1, hk2, _⟩ | ⟨hall, _⟩
  · have hkval : k.1 = 1 := by
      rcases k with ⟨kv, hkv⟩
      simp only [List.length_cons, List.length_nil] at hkv
      interval_cases kv
      · exfalso
        obtain ⟨mi, ma, hmi, hma, hc1, hc2⟩ := hk2
        simp at hmi hma
        omega
      · rfl
    rcases k with ⟨kv, hkv⟩
    simp only at hkval
    subst hkval
    exact hk1
  · exfalso
    exact hall ⟨some 6, some 10, none, "B"⟩ (by simp)
      ⟨6, 10, rfl, rfl, by norm_num, by norm_num⟩

/-! ## C2, C3, C9: import error handling and counts -/

/-- A workbook whose `Encounter Types` sheet has a `min` column but no `max`
column, plus one data row. -/
def wbCrash : Workbook :=
  [⟨"Encounter Types", [[Cell.cstr "type", Cell.cstr "min"], [Cell.cstr "X", Cell.cint 1]]⟩]

/-- C2 failing input: on `wbCrash` the importer accumulates the
"Range mode requires both 'min' and 'max' columns." validation error, but
then `_validate_ranges` evaluates `row[header_map["max"]]` and raises an
uncaught `KeyError` - the import aborts without returning the error list
(storage is untouched, but no report is produced), for any prior store and
any transaction behaviour. -/
theorem import_crash_on_single_range_column :
    ∀ (st : Store) (dbFail : Bool),
      importWorkbook st wbCrash dbFail = .error (.keyError "max") := by
  intro st dbFail
  rfl

/-- An empty prior store. -/
def st0 : Store := ⟨[], []⟩

/-- A minimal valid default-mode workbook: one type `X`, one encounter row
and one reward row. -/
def wbDemo : Workbook :=
  [⟨"Encounter Types", [[Cell.cstr "type"], [Cell.cstr "X"]]⟩,
   ⟨"Encounter - X", [[Cell.cstr "result"], [Cell.cstr "A"]]⟩,
   ⟨"Reward - X", [[Cell.cstr "result"], [Cell.cstr "B"]]⟩]

/-- The parse of `wbDemo`. -/
def ppDemo : ParsePhase :=
  ⟨false, [], [⟨none, "uniform", none, ["X"],
    [("X", ⟨"uniform", [⟨none, none, none, "A"⟩], none⟩)],
    [("X", ⟨"uniform", [⟨none, none, none, "B"⟩], none⟩)]⟩], []⟩

/-- C3: when phase 1 passes with zero errors and any exception occurs inside
the phase-2 `BEGIN ... commit` transaction, the rollback leaves the prior
stored state exactly unchanged and the report is the single storage error
(tab `"DB"`), never a validation error and never a success summary. -/
theorem storage_failure_rollback (st : Store) (wb : Workbook) (pp : ParsePhase)
    (h : importParse wb = .ok pp) (hok : pp.errors = []) :
    importWorkbook st wb true =
      .ok (st, none,
        [⟨"DB", none, "Import failed during database write: <exception>"⟩]) := by
  unfold importWorkbook
  rw [h]
  show (if pp.errors ≠ [] then Except.ok (st, none, pp.errors)
    else if true then
      Except.ok (st, none,
        [⟨"DB", none, "Import failed during database write: <exception>"⟩])
    else Except.ok (storeOfParse wb pp, some (countsOfParse pp), [])) = _
  rw [if_neg (by simp [hok])]
  rfl

theorem storage_failure_rollback_witness :
    importWorkbook st0 wbDemo true =
      .ok (st0, none,
        [⟨"DB", none, "Import failed during database write: <exception>"⟩]) :=
  storage_failure_rollback st0 wbDemo ppDemo (by rfl) (by rfl)

theorem importParse_ok_inv (wb : Workbook) (pp : ParsePhase)
    (h : importParse wb = .ok pp) :
    pp.regionalMode = hasSheet wb "Regions" ∧
    (pp.errors = [] → pp.regionalMode = true → pp.regions ≠ []) := by
  unfold importParse at h
  rcases hreg : parseRegionsTab wb with ⟨regions, regionErrs⟩
  rw [hreg] at h
  dsimp only at h
  by_cases h1 : (hasSheet wb "Regions" = true) ∧ regionErrs ≠ []
  · rw [if_pos h1] at h
    cases h
    exact ⟨rfl, fun he _ => absurd he h1.2⟩
  · rw [if_neg h1] at h
    by_cases h2 : (hasSheet wb "Regions" = true) ∧ regions = []
    · rw [if_pos h2] at h
      cases h
      exact ⟨rfl, fun he _ => absurd he (by simp)⟩
    · rw [if_neg h2] at h
      cases hpar : parseAllRegions wb (sheetNames wb)
        (if hasSheet wb "Regions" = true then regions.map (fun p => some p.1)
         else [none]) regionErrs with
      | error e =>
        rw [hpar] at h
        exact absurd h (by simp [Except.bind])
      | ok pr =>
        rw [hpar] at h
        rcases pr with ⟨parsed, errs⟩
        dsimp only [Except.bind] at h
        cases h
        refine ⟨rfl, fun _ hrm => ?_⟩
        intro hempty
        exact h2 ⟨hrm, hempty⟩

/-- C9: every success summary reports `reward_types` equal to
`encounter_types` (reward tables are keyed off the encounter type list, no
independent discovery), and reports zero regions exactly when the workbook
has no `Regions` sheet. -/
theorem import_counts_invariant (st : Store) (wb : Workbook) (st' : Store)
    (cnt : ImportCounts) (errs : List ImportError)
    (h : importWorkbook st wb false = .ok (st', some cnt, errs)) :
    cnt.reward_types = cnt.encounter_types ∧
    (cnt.regions = 0 ↔ hasSheet wb "Regions" = false) := by
  unfold importWorkbook at h
  cases hp : importParse wb with
  | error e =>
    rw [hp] at h
    exact absurd h (by simp [Except.bind])
  | ok pp =>
    rw [hp] at h
    dsimp only [Except.bind] at h
    by_cases he : pp.errors = []
    · rw [if_neg (by simp [he]), if_neg (by simp)] at h
      cases h
      obtain ⟨hrm, hreg⟩ := importParse_ok_inv wb pp hp
      refine ⟨rfl, ?_⟩
      show (if pp.regionalMode then pp.regions.length else 0) = 0 ↔
        hasSheet wb "Regions" = false
      cases hb : pp.regionalMode with
      | false =>
        rw [hb] at hrm
        simp [← hrm]
      | true =>
        rw [hb] at hrm
        have hne := hreg he hb
        rw [if_pos rfl]
        constructor
        · intro hlen
          exact absurd (List.eq_nil_of_length_eq_zero hlen) hne
        · intro hfalse
          rw [← hrm] at hfalse
          exact absurd hfalse (by simp)
    · rw [if_pos (by simp [he])] at h
      cases h

/-- The stored state after importing `wbDemo` into an empty store. -/
def stDemoAfter : Store :=
  ⟨[], [⟨"encounter_type", none, none, "uniform", none, [⟨none, none, none, "X"⟩]⟩,
    ⟨"encounter", none, some "X", "uniform", none, [⟨none, none, none, "A"⟩]⟩,
    ⟨"reward", none, some "X", "uniform", none, [⟨none, none, none, "B"⟩]⟩]⟩

theorem import_counts_invariant_witness :
    (⟨1, 1, 1, 1, 0⟩ : ImportCounts).reward_types =
      (⟨1, 1, 1, 1, 0⟩ : ImportCounts).encounter_types ∧
    ((⟨1, 1, 1, 1, 0⟩ : ImportCounts).regions = 0 ↔
      hasSheet wbDemo "Regions" = false) :=
  import_counts_invariant st0 wbDemo stDemoAfter ⟨1, 1, 1, 1, 0⟩ [] (by rfl)

/-! ## C8: the export "no data" condition -/

/-- A store holding one `TableDefinition` row (group `encounter`, default
region) but no regions and no default `encounter_type` table. -/
def stOrphan : Store :=
  ⟨[], [⟨"encounter", none, some "X", "uniform", none, [⟨none, none, none, "A"⟩]⟩]⟩

/-- C8 counterexample: this tenant has a stored `TableDefinition` row, yet
export still fails with the "no data" condition - the code keys the check on
the *default `encounter_type`* table (and regions), not on the existence of
any `TableDefinition` row. -/
theorem export_no_data_counterexample :
    stOrphan.tables ≠ [] ∧
    buildWorkbook stOrphan = .error "No imported data found. Run /import first." :=
  ⟨by decide, by rfl⟩

/-- C8 (amended): export fails - always with the "no data" message - if and
only if the tenant has no `Region` rows *and* no default-region
`encounter_type` table; in every other case it succeeds and returns a
workbook.  (For stores produced by a successful import the condition
coincides with "zero `TableDefinition` rows".) -/
theorem export_fails_iff (st : Store) :
    (buildWorkbook st = .error "No imported data found. Run /import first." ↔
      st.regions = [] ∧ fetchTableDef st "encounter_type" none none = none) ∧
    ((st.regions ≠ [] ∨ fetchTableDef st "encounter_type" none none ≠ none) →
      ∃ wb, buildWorkbook st = .ok wb) := by
  unfold buildWorkbook
  by_cases hr : st.regions = []
  · rw [if_pos (by simp [hr])]
    cases hf : fetchTableDef st "encounter_type" none none with
    | none =>
      refine ⟨by simp [hr], ?_⟩
      rintro (h | h)
      · exact absurd hr h
      · exact absurd rfl h
    | some etd =>
      refine ⟨by simp, ?_⟩
      intro _
      exact ⟨_, rfl⟩
  · rw [if_neg (by simpa [List.isEmpty_iff] using hr)]
    exact ⟨by simp [hr], fun _ => ⟨_, rfl⟩⟩

/-! ## C6 and C7: per-row validation in weight and range modes -/

theorem detectMode_weight_eq (tab : String) (hm : List (String × Nat))
    (data : List (Nat × List Cell)) (hmin : hmFind hm "min" = none)
    (hmax : hmFind hm "max" = none) (wi : Nat) (hw : hmFind hm "weight" = some wi) :
    detectMode tab hm data = (ROLL_WEIGHT, data.filterMap (fun rr =>
      match to_int (getCell rr.2 wi) with
      | some w =>
        if w ≤ 0 then
          some ⟨tab, some rr.1, "Invalid weight " ++ intStr w ++
            ". Must be a positive integer."⟩
        else none
      | none => none)) := by
  unfold detectMode
  rw [hmin, hmax, hw]
  simp

theorem detectMode_range_eq (tab : String) (hm : List (String × Nat))
    (data : List (Nat × List Cell)) (mi ma : Nat) (hmin : hmFind hm "min" = some mi)
    (hmax : hmFind hm "max" = some ma) :
    detectMode tab hm data = (ROLL_RANGE, data.filterMap (fun rr =>
      match to_int (getCell rr.2 mi), to_int (getCell rr.2 ma) with
      | some miv, some mav =>
        if miv > mav then
          some ⟨tab, some rr.1, "Invalid range: min " ++ intStr miv ++
            " is greater than max " ++ intStr mav ++ "."⟩
        else none
      | _, _ => none)) := by
  unfold detectMode
  rw [hmin, hmax]
  simp

theorem detectMode_uniform_eq (tab : String) (hm : List (String × Nat))
    (data : List (Nat × List Cell)) (hmin : hmFind hm "min" = none)
    (hmax : hmFind hm "max" = none) (hw : hmFind hm "weight" = none) :
    detectMode tab hm data = (ROLL_UNIFORM, []) := by
  unfold detectMode
  rw [hmin, hmax, hw]
  simp

/-- A weight-mode sheet whose row 2 has the non-numeric weight `"x"`. -/
def wbBadWeight : Workbook :=
  [⟨"Encounter - A",
    [[Cell.cstr "weight", Cell.cstr "result"],
     [Cell.cstr "x", Cell.cstr "A"],
     [Cell.cint 2, Cell.cstr "B"]]⟩]

/-- C6 counterexample: row 2's weight `"x"` does not parse as a positive
integer, yet the parse returns *zero* errors - no error names row 2; the row
is silently excluded (only row 3's entry survives).  The claim's "produces a
validation error naming that row" fails for non-integer weights: only
integer-parsing non-positive weights are flagged. -/
theorem weight_nonint_counterexample :
    parseResultTab wbBadWeight "Encounter - A" =
      .ok (ROLL_WEIGHT, [⟨none, none, some 2, "B"⟩], none, []) := by
  decide

/-- C6 (amended): on a weight-mode sheet, a row whose weight *coerces to an
integer* `w ≤ 0` produces the validation error naming that row; a row whose
weight does not coerce to an integer at all (blank, fractional or
non-numeric text) is silently excluded with *no* error; every kept entry has
a positive integer weight; exclusions are not fatal to the sheet (the parse
still succeeds with the remaining rows). -/
theorem weight_row_validation_amended (tab : String) (ws : Sheet)
    (ri wi : Nat)
    (hres : hmFind (readSheetRows ws).1 "result" = some ri)
    (hmin : hmFind (readSheetRows ws).1 "min" = none)
    (hmax : hmFind (readSheetRows ws).1 "max" = none)
    (hw : hmFind (readSheetRows ws).1 "weight" = some wi) :
    ∃ errs, parseResultSheet tab ws =
      .ok (ROLL_WEIGHT, resultRowsWeight (readSheetRows ws).1 (readSheetRows ws).2,
        none, errs) ∧
    (∀ rr ∈ (readSheetRows ws).2, ∀ w, to_int (getCell rr.2 wi) = some w → w ≤ 0 →
      (⟨tab, some rr.1, "Invalid weight " ++ intStr w ++
        ". Must be a positive integer."⟩ : ImportError) ∈ errs) ∧
    ((∀ rr ∈ (readSheetRows ws).2, ∀ w, to_int (getCell rr.2 wi) = some w → 0 < w) →
      errs = (if resultRowsWeight (readSheetRows ws).1 (readSheetRows ws).2 = []
        then [⟨tab, none, "No results found."⟩] else [])) ∧
    (∀ e ∈ resultRowsWeight (readSheetRows ws).1 (readSheetRows ws).2,
      ∃ w, e.weight = some w ∧ 0 < w) := by
  have hdm := detectMode_weight_eq tab (readSheetRows ws).1 (readSheetRows ws).2
    hmin hmax wi hw
  refine ⟨((readSheetRows ws).2.filterMap (fun rr =>
      match to_int (getCell rr.2 wi) with
      | some w =>
        if w ≤ 0 then
          some ⟨tab, some rr.1, "Invalid weight " ++ intStr w ++
            ". Must be a positive integer."⟩
        else none
      | none => none)) ++
    (if resultRowsWeight (readSheetRows ws).1 (readSheetRows ws).2 = []
      then [⟨tab, none, "No results found."⟩] else []), ?_, ?_, ?_, ?_⟩
  · unfold parseResultSheet
    rw [show readSheetRows ws = ((readSheetRows ws).1, (readSheetRows ws).2) from rfl]
    dsimp only
    rw [hres]
    simp only [Option.isNone_some, Bool.false_eq_true, if_false]
    rw [hdm]
    dsimp only
    rw [if_neg (by decide : ¬ROLL_WEIGHT = ROLL_RANGE),
      if_pos (rfl : ROLL_WEIGHT = ROLL_WEIGHT)]
  · intro rr hrr w hcoerce hle
    apply List.mem_append_left
    apply List.mem_filterMap.mpr
    refine ⟨rr, hrr, ?_⟩
    rw [hcoerce]
    dsimp only
    rw [if_pos hle]
  · intro hall
    have hnil : ((readSheetRows ws).2.filterMap (fun rr =>
        (match to_int (getCell rr.2 wi) with
        | some w =>
          if w ≤ 0 then
            some ⟨tab, some rr.1, "Invalid weight " ++ intStr w ++
              ". Must be a positive integer."⟩
          else none
        | none => none : Option ImportError))) = [] := by
      rw [List.filterMap_eq_nil_iff]
      intro rr hrr
      cases hc : to_int (getCell rr.2 wi) with
      | none => rfl
      | some w =>
        dsimp only
        rw [if_neg (by have := hall rr hrr w hc; omega)]
    rw [hnil]
    rfl
  · intro e he
    obtain ⟨rr, hrr, hf⟩ := List.mem_filterMap.mp he
    dsimp only [resultRowsWeight] at hf
    rw [hres, hw] at hf
    dsimp only [Option.getD] at hf
    by_cases hr : cellStr (getCell rr.2 ri) = ""
    · rw [if_pos hr] at hf
      exact Option.noConfusion hf
    · rw [if_neg hr] at hf
      cases hc : to_int (getCell rr.2 wi) with
      | none =>
        rw [hc] at hf
        exact Option.noConfusion hf
      | some w =>
        rw [hc] at hf
        dsimp only at hf
        by_cases hle : w ≤ 0
        · rw [if_pos hle] at hf
          exact Option.noConfusion hf
        · rw [if_neg hle] at hf
          cases hf
          exact ⟨w, rfl, by omega⟩

/-- "previous interval ends before the next begins" on `(min, max, row)` triples. -/
def rangeGap (a b : Int × Int × Nat) : Prop := a.2.1 < b.1

/-- symmetric interval disjointness on `(min, max, row)` triples. -/
def rangeDisj (a b : Int × Int × Nat) : Prop := a.2.1 < b.1 ∨ b.2.1 < a.1

theorem rangeDisj_symm : Symmetric rangeDisj := by
  intro a b h
  rcases h with h | h
  · exact Or.inr h
  · exact Or.inl h

instance : IsTotal (Int × Int × Nat) rangeLe :=
  ⟨by intro a b; unfold rangeLe; omega⟩

instance : IsTrans (Int × Int × Nat) rangeLe :=
  ⟨by intro a b c hab hbc; unfold rangeLe at *; omega⟩

theorem adjacentOverlapErrs_nil_iff (tab : String) :
    ∀ l : List (Int × Int × Nat), adjacentOverlapErrs tab l = [] ↔ l.Chain' rangeGap
  | [] => by simp [adjacentOverlapErrs]
  | [a] => by simp [adjacentOverlapErrs]
  | a :: b :: rest => by
    rw [adjacentOverlapErrs]
    constructor
    · intro h
      have hsplit := List.append_eq_nil.mp h
      have hgap : rangeGap a b := by
        by_contra hg
        unfold rangeGap at hg
        rw [if_pos (by omega)] at h
        simp at h
      rw [List.chain'_cons]
      exact ⟨hgap, (adjacentOverlapErrs_nil_iff tab (b :: rest)).mp hsplit.2⟩
    · intro h
      rw [List.chain'_cons] at h
      rw [if_neg (by unfold rangeGap at h; omega)]
      simpa using (adjacentOverlapErrs_nil_iff tab (b :: rest)).mpr h.2

theorem chain_gap_head : ∀ (rest : List (Int × Int × Nat)) (a : Int × Int × Nat),
    (∀ x ∈ rest, x.1 ≤ x.2.1) → List.Chain' rangeGap (a :: rest) →
    ∀ b ∈ rest, rangeGap a b
  | [], _, _, _ => by simp
  | b :: rest', a, hmm, hc => by
    rw [List.chain'_cons] at hc
    intro c hcmem
    rcases List.mem_cons.mp hcmem with rfl | hc'
    · exact hc.1
    · have hb := chain_gap_head rest' b (fun x hx => hmm x (List.mem_cons_of_mem _ hx)) hc.2 c hc'
      have hbmm := hmm b (by simp)
      unfold rangeGap at *
      omega

theorem chain_gap_pairwise : ∀ (l : List (Int × Int × Nat)),
    (∀ x ∈ l, x.1 ≤ x.2.1) → List.Chain' rangeGap l → List.Pairwise rangeGap l
  | [] => fun _ _ => List.Pairwise.nil
  | a :: rest => fun hmm hc => by
    rw [List.chain'_cons'] at hc
    refine List.Pairwise.cons ?_ (chain_gap_pairwise rest
      (fun x hx => hmm x (List.mem_cons_of_mem _ hx)) hc.2)
    exact chain_gap_head rest a (fun x hx => hmm x (List.mem_cons_of_mem _ hx))
      (List.chain'_cons'.mpr hc)

theorem pairwise_disj_chain : ∀ l : List (Int × Int × Nat),
    List.Sorted rangeLe l → (∀ x ∈ l, x.1 ≤ x.2.1) →
    List.Pairwise rangeDisj l → List.Chain' rangeGap l
  | [] => fun _ _ _ => List.chain'_nil
  | [a] => fun _ _ _ => List.chain'_singleton a
  | a :: b :: rest => fun hs hmm hp => by
    rw [List.chain'_cons]
    constructor
    · have hle : rangeLe a b := List.rel_of_sorted_cons hs b (by simp)
      have hdisj : rangeDisj a b := (List.pairwise_cons.mp hp).1 b (by simp)
      have hbmm : b.1 ≤ b.2.1 := hmm b (by simp)
      unfold rangeLe at hle
      unfold rangeDisj at hdisj
      unfold rangeGap
      omega
    · exact pairwise_disj_chain (b :: rest) (List.sorted_cons.mp hs).2
        (fun x hx => hmm x (List.mem_cons_of_mem _ hx)) (List.pairwise_cons.mp hp).2

theorem validateRanges_ok (tab : String) (hm : List (String × Nat))
    (data : List (Nat × List Cell)) (mi ma : Nat)
    (hmin : hmFind hm "min" = some mi) (hmax : hmFind hm "max" = some ma) :
    validateRanges tab hm data =
      .ok (adjacentOverlapErrs tab (List.insertionSort rangeLe (collectRanges hm data))) := by
  unfold validateRanges
  rw [if_neg (by rw [hmin]; simp), if_neg (by rw [hmax]; simp)]

theorem validateRanges_nil_iff (tab : String) (hm : List (String × Nat))
    (data : List (Nat × List Cell)) (mi ma : Nat)
    (hmin : hmFind hm "min" = some mi) (hmax : hmFind hm "max" = some ma)
    (hmm : ∀ x ∈ collectRanges hm data, x.1 ≤ x.2.1) :
    validateRanges tab hm data = .ok [] ↔
      (collectRanges hm data).Pairwise rangeDisj := by
  rw [validateRanges_ok tab hm data mi ma hmin hmax]
  constructor
  · intro h
    have hadj : adjacentOverlapErrs tab
        (List.insertionSort rangeLe (collectRanges hm data)) = [] := by
      injection h
    have hchain := (adjacentOverlapErrs_nil_iff tab _).mp hadj
    have hpair := chain_gap_pairwise _
      (fun x hx => hmm x ((List.mem_insertionSort rangeLe).mp hx)) hchain
    have hpairD : (List.insertionSort rangeLe (collectRanges hm data)).Pairwise rangeDisj :=
      hpair.imp (fun h => Or.inl h)
    exact ((List.perm_insertionSort rangeLe _).pairwise_iff
      (fun hxy => rangeDisj_symm hxy)).mp hpairD
  · intro hp
    have hsorted := List.sorted_insertionSort rangeLe (collectRanges hm data)
    have hpairS : (List.insertionSort rangeLe (collectRanges hm data)).Pairwise rangeDisj :=
      ((List.perm_insertionSort rangeLe _).pairwise_iff
        (fun hxy => rangeDisj_symm hxy)).mpr hp
    have hchain := pairwise_disj_chain _ hsorted
      (fun x hx => hmm x ((List.mem_insertionSort rangeLe).mp hx)) hpairS
    rw [(adjacentOverlapErrs_nil_iff tab _).mpr hchain]

/-- Symmetric interval disjointness between two range-mode entries. -/
def entryDisj (e f : Entry) : Prop :=
  ∀ mi1 ma1 mi2 ma2, e.min_roll = some mi1 → e.max_roll = some ma1 →
    f.min_roll = some mi2 → f.max_roll = some ma2 → (ma1 < mi2 ∨ ma2 < mi1)

theorem resultRowsRange_pairs_sublist (hm : List (String × Nat))
    (data : List (Nat × List Cell)) :
    List.Sublist
      ((resultRowsRange hm data).map (fun e => (e.min_roll.getD 0, e.max_roll.getD 0)))
      ((collectRanges hm data).map (fun x => (x.1, x.2.1))) := by
  induction data with
  | nil => simp [resultRowsRange, collectRanges]
  | cons rr rest ih =>
    unfold resultRowsRange collectRanges at ih ⊢
    dsimp only at ih ⊢
    simp only [List.filterMap_cons]
    cases hmi : to_int (getCell rr.2 ((hmFind hm "min").getD 0)) with
    | none =>
      by_cases hres : cellStr (getCell rr.2 ((hmFind hm "result").getD 0)) = ""
      · simp only [hmi, hres, if_pos, if_true, reduceIte]
        exact ih
      · simp only [hmi, if_neg hres]
        exact ih
    | some miv =>
      cases hma : to_int (getCell rr.2 ((hmFind hm "max").getD 0)) with
      | none =>
        by_cases hres : cellStr (getCell rr.2 ((hmFind hm "result").getD 0)) = ""
        · simp only [hmi, hma, hres, reduceIte]
          exact ih
        · simp only [hmi, hma, if_neg hres]
          exact ih
      | some mav =>
        by_cases hres : cellStr (getCell rr.2 ((hmFind hm "result").getD 0)) = ""
        · simp only [hmi, hma, hres, reduceIte, List.map_cons]
          exact ih.cons _
        · simp only [hmi, hma, if_neg hres, List.map_cons, Option.getD_some]
          exact ih.cons₂ _

/-- Interval disjointness on bare `(min, max)` pairs. -/
def pairDisj (p q : Int × Int) : Prop := p.2 < q.1 ∨ q.2 < p.1

/-- A range-mode sheet whose row 2 has a blank `min` cell. -/
def wbBadRange : Workbook :=
  [⟨"Encounter - A",
    [[Cell.cstr "min", Cell.cstr "max", Cell.cstr "result"],
     [Cell.cnone, Cell.cint 5, Cell.cstr "A"],
     [Cell.cint 1, Cell.cint 3, Cell.cstr "B"]]⟩]

/-- C7 counterexample: row 2 lacks an integer `min`, which the claim says is
a validation error for that row; the parse instead returns *zero* errors and
silently drops the row.  Note also `max_roll` is computed only over the kept
rows (here 3, ignoring row 2's max of 5). -/
theorem range_nonint_counterexample :
    parseResultTab wbBadRange "Encounter - A" =
      .ok (ROLL_RANGE, [⟨some 1, some 3, none, "B"⟩], some 3, []) := by
  decide

/-- C7 (amended): on a range-mode sheet (both `min` and `max` columns
present), a data row whose `min`/`max` both coerce to integers with
`min > max` produces the validation error naming that row; rows where either
bound fails to coerce are silently skipped (not errors); when the sheet
yields zero errors every kept entry has integer bounds with `min ≤ max` and
the kept entries' intervals are pairwise disjoint; the table's `max_roll` is
the positive maximum of the kept rows' `max` values (else null). -/
theorem range_row_validation_amended (tab : String) (ws : Sheet)
    (ri mi ma : Nat)
    (hres : hmFind (readSheetRows ws).1 "result" = some ri)
    (hmin : hmFind (readSheetRows ws).1 "min" = some mi)
    (hmax : hmFind (readSheetRows ws).1 "max" = some ma) :
    ∃ errs, parseResultSheet tab ws =
      .ok (ROLL_RANGE, resultRowsRange (readSheetRows ws).1 (readSheetRows ws).2,
        maxRollOf ((resultRowsRange (readSheetRows ws).1 (readSheetRows ws).2).map
          (fun e => e.max_roll.getD 0)), errs) ∧
    (∀ rr ∈ (readSheetRows ws).2, ∀ miv mav,
      to_int (getCell rr.2 mi) = some miv → to_int (getCell rr.2 ma) = some mav →
      miv > mav →
      (⟨tab, some rr.1, "Invalid range: min " ++ intStr miv ++
        " is greater than max " ++ intStr mav ++ "."⟩ : ImportError) ∈ errs) ∧
    (errs = [] →
      (∀ e ∈ resultRowsRange (readSheetRows ws).1 (readSheetRows ws).2,
        ∃ miv mav, e.min_roll = some miv ∧ e.max_roll = some mav ∧ miv ≤ mav) ∧
      (resultRowsRange (readSheetRows ws).1 (readSheetRows ws).2).Pairwise entryDisj) := by
  have hdm := detectMode_range_eq tab (readSheetRows ws).1 (readSheetRows ws).2 mi ma
    hmin hmax
  have hv := validateRanges_ok tab (readSheetRows ws).1 (readSheetRows ws).2 mi ma
    hmin hmax
  refine ⟨((readSheetRows ws).2.filterMap (fun rr =>
      (match to_int (getCell rr.2 mi), to_int (getCell rr.2 ma) with
      | some miv, some mav =>
        if miv > mav then
          some ⟨tab, some rr.1, "Invalid range: min " ++ intStr miv ++
            " is greater than max " ++ intStr mav ++ "."⟩
        else none
      | _, _ => none : Option ImportError))) ++
    (adjacentOverlapErrs tab (List.insertionSort rangeLe
      (collectRanges (readSheetRows ws).1 (readSheetRows ws).2)) ++
     (if resultRowsRange (readSheetRows ws).1 (readSheetRows ws).2 = []
      then [⟨tab, none, "No results found."⟩] else [])), ?_, ?_, ?_⟩
  · unfold parseResultSheet
    rw [show readSheetRows ws = ((readSheetRows ws).1, (readSheetRows ws).2) from rfl]
    dsimp only
    rw [hres]
    simp only [Option.isNone_some, Bool.false_eq_true, if_false]
    rw [hdm]
    dsimp only
    rw [if_pos (rfl : ROLL_RANGE = ROLL_RANGE), hv]
    dsimp only
    rw [List.append_assoc]
  · intro rr hrr miv mav hmi' hma' hgt
    apply List.mem_append_left
    apply List.mem_filterMap.mpr
    refine ⟨rr, hrr, ?_⟩
    rw [hmi', hma']
    dsimp only
    rw [if_pos hgt]
  · intro herrs
    have hsplit := List.append_eq_nil.mp herrs
    have hsplit2 := List.append_eq_nil.mp hsplit.2
    have hmode_nil := hsplit.1
    have hadj_nil := hsplit2.1
    -- min ≤ max for every row whose bounds both coerce
    have hrowle : ∀ rr ∈ (readSheetRows ws).2, ∀ miv mav,
        to_int (getCell rr.2 mi) = some miv → to_int (getCell rr.2 ma) = some mav →
        miv ≤ mav := by
      intro rr hrr miv mav hmi' hma'
      by_contra hgt
      have : (⟨tab, some rr.1, "Invalid range: min " ++ intStr miv ++
          " is greater than max " ++ intStr mav ++ "."⟩ : ImportError) ∈
          ([] : List ImportError) := by
        rw [← hmode_nil]
        apply List.mem_filterMap.mpr
        refine ⟨rr, hrr, ?_⟩
        rw [hmi', hma']
        dsimp only
        rw [if_pos (by omega)]
      simp at this
    have hcoll_le : ∀ x ∈ collectRanges (readSheetRows ws).1 (readSheetRows ws).2,
        x.1 ≤ x.2.1 := by
      intro x hx
      obtain ⟨rr, hrr, hf⟩ := List.mem_filterMap.mp hx
      simp only [collectRanges, hmin, hmax, Option.getD_some] at hf
      cases hmi' : to_int (getCell rr.2 mi) with
      | none => rw [hmi'] at hf; exact Option.noConfusion hf
      | some miv =>
        cases hma' : to_int (getCell rr.2 ma) with
        | none => rw [hmi', hma'] at hf; exact Option.noConfusion hf
        | some mav =>
          rw [hmi', hma'] at hf
          dsimp only at hf
          cases hf
          exact hrowle rr hrr miv mav hmi' hma'
    -- entries: bounds present and ordered
    have hbounds : ∀ e ∈ resultRowsRange (readSheetRows ws).1 (readSheetRows ws).2,
        ∃ miv mav, e.min_roll = some miv ∧ e.max_roll = some mav ∧ miv ≤ mav := by
      intro e he
      obtain ⟨rr, hrr, hf⟩ := List.mem_filterMap.mp he
      simp only [resultRowsRange, hres, hmin, hmax, Option.getD_some] at hf
      by_cases hre : cellStr (getCell rr.2 ri) = ""
      · rw [if_pos hre] at hf
        exact Option.noConfusion hf
      · rw [if_neg hre] at hf
        cases hmi' : to_int (getCell rr.2 mi) with
        | none => rw [hmi'] at hf; exact Option.noConfusion hf
        | some miv =>
          cases hma' : to_int (getCell rr.2 ma) with
          | none => rw [hmi', hma'] at hf; exact Option.noConfusion hf
          | some mav =>
            rw [hmi', hma'] at hf
            dsimp only at hf
            cases hf
            exact ⟨miv, mav, rfl, rfl, hrowle rr hrr miv mav hmi' hma'⟩
    refine ⟨hbounds, ?_⟩
    -- pairwise disjointness, transferred along the sublist of (min,max) pairs
    have hdisj : (collectRanges (readSheetRows ws).1 (readSheetRows ws).2).Pairwise
        rangeDisj := by
      have := (validateRanges_nil_iff tab (readSheetRows ws).1 (readSheetRows ws).2
        mi ma hmin hmax hcoll_le).mp
      apply this
      rw [hv, hadj_nil]
    have hpc : ((collectRanges (readSheetRows ws).1 (readSheetRows ws).2).map
        (fun x => (x.1, x.2.1))).Pairwise pairDisj := by
      rw [List.pairwise_map]
      exact hdisj.imp (fun h => h)
    have hpe : ((resultRowsRange (readSheetRows ws).1 (readSheetRows ws).2).map
        (fun e => (e.min_roll.getD 0, e.max_roll.getD 0))).Pairwise pairDisj :=
      hpc.sublist (resultRowsRange_pairs_sublist _ _)
    have hpe2 := List.pairwise_map.mp hpe
    refine hpe2.imp_of_mem ?_
    intro e f he hf hpd
    intro mi1 ma1 mi2 ma2 hemi hema hfmi hfma
    rw [hemi, hema, hfmi, hfma] at hpd
    dsimp only [pairDisj, Option.getD_some] at hpd
    exact hpd

/-- A small valid weight-mode sheet. -/
def sheetWDemo : Sheet :=
  ⟨"Encounter - A",
    [[Cell.cstr "weight", Cell.cstr "result"], [Cell.cint 2, Cell.cstr "A"]]⟩

theorem weight_row_validation_amended_witness :
    ∃ errs, parseResultSheet "Encounter - A" sheetWDemo =
      .ok (ROLL_WEIGHT,
        resultRowsWeight (readSheetRows sheetWDemo).1 (readSheetRows sheetWDemo).2,
        none, errs) := by
  obtain ⟨errs, h1, _, _, _⟩ := weight_row_validation_amended "Encounter - A"
    sheetWDemo 1 0 (by decide) (by decide) (by decide) (by decide)
  exact ⟨errs, h1⟩

/-- A small valid range-mode sheet. -/
def sheetRDemo : Sheet :=
  ⟨"Encounter - A",
    [[Cell.cstr "min", Cell.cstr "max", Cell.cstr "result"],
     [Cell.cint 1, Cell.cint 5, Cell.cstr "A"],
     [Cell.cint 6, Cell.cint 10, Cell.cstr "B"]]⟩

theorem range_row_validation_amended_witness :
    ∃ errs, parseResultSheet "Encounter - A" sheetRDemo =
      .ok (ROLL_RANGE,
        resultRowsRange (readSheetRows sheetRDemo).1 (readSheetRows sheetRDemo).2,
        maxRollOf ((resultRowsRange (readSheetRows sheetRDemo).1
          (readSheetRows sheetRDemo).2).map (fun e => e.max_roll.getD 0)),
        errs) := by
  obtain ⟨errs, h1, _, _⟩ := range_row_validation_amended "Encounter - A"
    sheetRDemo 2 0 1 (by decide) (by decide) (by decide)
  exact ⟨errs, h1⟩

/-! ## C1: the import-export round trip.  Sheet-name discrimination. -/

theorem intStr_ne_nil (n : Int) : (intStr n).data ≠ [] := by
  unfold intStr
  split_ifs with h
  · intro hc
    have : ("-" ++ natStr n.natAbs).data = '-' :: (natStr n.natAbs).data := rfl
    rw [this] at hc
    exact List.noConfusion hc
  · exact (natStr_data_digits n.toNat).1

theorem getElem10_append (pre rest : List Char) (h : 10 < pre.length) :
    (pre ++ rest)[10]? = pre[10]? := by
  rw [List.getElem?_append_left h]

theorem encTab_data (r : Option Int) (t : String) :
    (encTab r t).data = "Encounter - ".data ++
      (match r with
       | none => t.data
       | some rv => (intStr rv).data ++ " - ".data ++ t.data) := by
  cases r with
  | none => rfl
  | some rv =>
    show ((("Encounter - " ++ intStr rv) ++ " - ") ++ t).data = _
    show ((("Encounter - ".data ++ (intStr rv).data) ++ " - ".data) ++ t.data) = _
    simp [List.append_assoc]

theorem rewTab_data (r : Option Int) (t : String) :
    (rewTab r t).data = "Reward - ".data ++
      (match r with
       | none => t.data
       | some rv => (intStr rv).data ++ " - ".data ++ t.data) := by
  cases r with
  | none => rfl
  | some rv =>
    show ((("Reward - " ++ intStr rv) ++ " - ") ++ t).data = _
    show ((("Reward - ".data ++ (intStr rv).data) ++ " - ".data) ++ t.data) = _
    simp [List.append_assoc]

theorem encTypeTab_data (r : Option Int) :
    (encTypeTab r).data = (match r with
      | none => "Encounter Types".data
      | some rv => "Encounter Types - ".data ++ (intStr rv).data) := by
  cases r with
  | none => rfl
  | some rv => rfl

theorem encTab_ne_regions (r : Option Int) (t : String) : encTab r t ≠ "Regions" := by
  intro h
  have hd := congrArg String.data h
  rw [encTab_data] at hd
  have := congrArg List.length hd
  rw [List.length_append] at this
  cases r <;> simp at this <;> omega

theorem rewTab_ne_regions (r : Option Int) (t : String) : rewTab r t ≠ "Regions" := by
  intro h
  have hd := congrArg String.data h
  rw [rewTab_data] at hd
  have := congrArg List.length hd
  rw [List.length_append] at this
  cases r <;> simp at this <;> omega

theorem encTypeTab_ne_regions (r : Option Int) : encTypeTab r ≠ "Regions" := by
  intro h
  have hd := congrArg String.data h
  rw [encTypeTab_data] at hd
  cases r with
  | none => simp at hd
  | some rv =>
    have := congrArg List.length hd
    rw [List.length_append] at this
    simp at this
    omega

theorem encTab_ne_encTypeTab (r r' : Option Int) (t : String) :
    encTab r t ≠ encTypeTab r' := by
  intro h
  have hd := congrArg (fun s => (String.data s)[10]?) h
  dsimp only at hd
  rw [encTab_data, encTypeTab_data] at hd
  rw [getElem10_append _ _ (by decide)] at hd
  cases r' with
  | none =>
    revert hd
    decide
  | some rv =>
    rw [getElem10_append _ _ (by decide)] at hd
    revert hd
    decide

theorem rewTab_ne_encTab (r r' : Option Int) (t t' : String) :
    rewTab r t ≠ encTab r' t' := by
  intro h
  have hd := congrArg (fun s => (String.data s)[0]?) h
  dsimp only at hd
  rw [rewTab_data, encTab_data] at hd
  rw [List.getElem?_append_left (by decide), List.getElem?_append_left (by decide)] at hd
  revert hd
  decide

theorem rewTab_ne_encTypeTab (r r' : Option Int) (t : String) :
    rewTab r t ≠ encTypeTab r' := by
  intro h
  have hd := congrArg (fun s => (String.data s)[0]?) h
  dsimp only at hd
  rw [rewTab_data, encTypeTab_data] at hd
  rw [List.getElem?_append_left (by decide)] at hd
  cases r' with
  | none =>
    revert hd
    decide
  | some rv =>
    rw [List.getElem?_append_left (by decide)] at hd
    revert hd
    decide

theorem encTypeTab_inj {r r' : Option Int} (h : encTypeTab r = encTypeTab r') :
    r = r' := by
  have hd := congrArg String.data h
  rw [encTypeTab_data, encTypeTab_data] at hd
  have h15 : ("Encounter Types".data).length = 15 := by decide
  have h18 : ("Encounter Types - ".data).length = 18 := by decide
  cases r with
  | none =>
    cases r' with
    | none => rfl
    | some rv =>
      exfalso
      have hlen := congrArg List.length hd
      dsimp only at hlen
      rw [List.length_append, h15, h18] at hlen
      have hne := intStr_ne_nil rv
      have hone : (intStr rv).data.length ≥ 1 := by
        cases hh : (intStr rv).data with
        | nil => exact absurd hh hne
        | cons a l => simp [hh]
      omega
  | some rv =>
    cases r' with
    | none =>
      exfalso
      have hlen := congrArg List.length hd
      dsimp only at hlen
      rw [List.length_append, h15, h18] at hlen
      have hne := intStr_ne_nil rv
      have hone : (intStr rv).data.length ≥ 1 := by
        cases hh : (intStr rv).data with
        | nil => exact absurd hh hne
        | cons a l => simp [hh]
      omega
    | some rv' =>
      dsimp only at hd
      have hcancel := List.append_cancel_left hd
      have := intStr_inj (String.ext hcancel)
      rw [this]

theorem encTab_none_inj {t t' : String} (h : encTab none t = encTab none t') :
    t = t' := by
  have hd := congrArg String.data h
  rw [encTab_data, encTab_data] at hd
  exact String.ext (List.append_cancel_left hd)

theorem rewTab_none_inj {t t' : String} (h : rewTab none t = rewTab none t') :
    t = t' := by
  have hd := congrArg String.data h
  rw [rewTab_data, rewTab_data] at hd
  exact String.ext (List.append_cancel_left hd)

/-! ## C1: findSheet utilities and Regions reconstruction -/

theorem findSheet_cons (s : Sheet) (wb : Workbook) (n : String) :
    findSheet (s :: wb) n = if s.name = n then some s else findSheet wb n := by
  unfold findSheet
  rw [List.find?_cons]
  by_cases h : s.name = n
  · simp [h]
  · have hb : (s.name == n) = false := by simpa using h
    rw [hb, if_neg h]

theorem findSheet_of_all_eq (wb : Workbook) (n : String) (target : Sheet)
    (hmem : target ∈ wb) (hname : target.name = n)
    (hall : ∀ s ∈ wb, s.name = n → s = target) : findSheet wb n = some target := by
  induction wb with
  | nil => exact absurd hmem (by simp)
  | cons s rest ih =>
    rw [findSheet_cons]
    by_cases h : s.name = n
    · rw [if_pos h, hall s (by simp) h]
    · rw [if_neg h]
      rcases List.mem_cons.mp hmem with rfl | hmem'
      · exact absurd hname h
      · exact ih hmem' (fun s' hs' hn' => hall s' (List.mem_cons_of_mem _ hs') hn')

theorem findSheet_none (wb : Workbook) (n : String)
    (hall : ∀ s ∈ wb, s.name ≠ n) : findSheet wb n = none := by
  unfold findSheet
  rw [List.find?_eq_none]
  intro s hs
  simpa using hall s hs

theorem hasSheet_iff (wb : Workbook) (n : String) :
    hasSheet wb n = true ↔ ∃ s ∈ wb, s.name = n := by
  unfold hasSheet sheetNames
  rw [List.contains_iff_exists_mem_beq]
  constructor
  · rintro ⟨x, hx, hb⟩
    obtain ⟨s, hs, rfl⟩ := List.mem_map.mp hx
    exact ⟨s, hs, (eq_of_beq hb).symm⟩
  · rintro ⟨s, hs, hn⟩
    exact ⟨s.name, List.mem_map_of_mem _ hs, by simp [hn]⟩

theorem cellStr_strip_fix (c : Cell) : pyStrip (cellStr c) = cellStr c := by
  cases c with
  | cnone => decide
  | cint n => exact pyStrip_idem _
  | cfloat q => exact pyStrip_idem _
  | cstr s => exact pyStrip_idem _

/-- The Regions sheet the exporter emits. -/
def regionsSheetOf (regs : List (Int × String)) : Sheet :=
  ⟨"Regions", [Cell.cstr "region_id", Cell.cstr "region_name"] ::
    regs.map (fun p => [Cell.cint p.1, Cell.cstr p.2])⟩

theorem regionsRowsAux_reconstruct :
    ∀ (regs : List (Int × String)) (seen : List Int) (i : Nat),
    (∀ p ∈ regs, 0 < p.1 ∧ p.2 ≠ "" ∧ pyStrip p.2 = p.2) →
    (regs.map Prod.fst).Nodup →
    (∀ p ∈ regs, p.1 ∉ seen) →
    regionsRowsAux seen 0 1 (dataRowsAux i (regs.map (fun p => [Cell.cint p.1, Cell.cstr p.2]))) =
      (regs, []) := by
  intro regs
  induction regs with
  | nil => intro seen i _ _ _; rfl
  | cons p rest ih =>
    intro seen i hinv hnd hseen
    obtain ⟨hpos, hne, hfix⟩ := hinv p (by simp)
    have hblank : rowBlank [Cell.cint p.1, Cell.cstr p.2] = false := by
      unfold rowBlank
      simp only [List.all_cons, List.all_nil, Bool.and_eq_false_iff]
      right
      left
      show isBlankCell (Cell.cstr p.2) = false
      unfold isBlankCell
      simp only [cellRawStr]
      rw [hfix]
      simpa using hne
    rw [List.map_cons, dataRowsAux, if_neg (by simp [hblank])]
    rw [regionsRowsAux]
    have hto : to_int (getCell [Cell.cint p.1, Cell.cstr p.2] 0) = some p.1 := rfl
    rw [hto]
    dsimp only
    rw [if_neg (by omega)]
    have hcs : cellStr (getCell [Cell.cint p.1, Cell.cstr p.2] 1) = p.2 := by
      show cellStr (Cell.cstr p.2) = p.2
      unfold cellStr
      simpa [cellRawStr] using hfix
    rw [hcs, if_neg hne,
      if_neg (by simpa using hseen p (by simp))]
    have hnd2 : (p.1 :: rest.map Prod.fst).Nodup := by simpa using hnd
    rw [ih (p.1 :: seen) (i + 1)
      (fun q hq => hinv q (List.mem_cons_of_mem _ hq))
      ((List.nodup_cons.mp hnd2).2)
      ?_]
    intro q hq
    simp only [List.mem_cons, not_or]
    refine ⟨?_, hseen q (List.mem_cons_of_mem _ hq)⟩
    intro heq
    have hmap : q.1 ∈ rest.map Prod.fst := List.mem_map_of_mem _ hq
    rw [heq] at hmap
    exact (List.nodup_cons.mp hnd2).1 hmap

/-! ## C1: reconstruction of emitted result sheets -/

/-- The row `_add_sheet_for_table` emits per entry, by mode. -/
def rowRange (e : Entry) : List Cell :=
  [cellOfOptInt e.min_roll, cellOfOptInt e.max_roll, Cell.cstr e.result]

def rowWeight (e : Entry) : List Cell :=
  [cellOfOptInt e.weight, Cell.cstr e.result]

def rowUniform (e : Entry) : List Cell :=
  [Cell.cstr e.result]

/-- Well-formed stored result string: non-empty and strip-fixed. -/
def WFres (e : Entry) : Prop := e.result ≠ "" ∧ pyStrip e.result = e.result

def WFrange (e : Entry) : Prop :=
  WFres e ∧ e.weight = none ∧
    ∃ mi ma, e.min_roll = some mi ∧ e.max_roll = some ma ∧ mi ≤ ma

def WFweight (e : Entry) : Prop :=
  WFres e ∧ e.min_roll = none ∧ e.max_roll = none ∧ ∃ w, e.weight = some w ∧ 0 < w

def WFuniform (e : Entry) : Prop :=
  WFres e ∧ e.min_roll = none ∧ e.max_roll = none ∧ e.weight = none

theorem cstr_result_not_blank {e : Entry} (h : WFres e) :
    isBlankCell (Cell.cstr e.result) = false := by
  unfold isBlankCell
  simp only [cellRawStr]
  rw [h.2]
  simpa using h.1

theorem rowRange_not_blank {e : Entry} (h : WFres e) : rowBlank (rowRange e) = false := by
  unfold rowBlank rowRange
  simp [cstr_result_not_blank h]

theorem rowWeight_not_blank {e : Entry} (h : WFres e) : rowBlank (rowWeight e) = false := by
  unfold rowBlank rowWeight
  simp [cstr_result_not_blank h]

theorem rowUniform_not_blank {e : Entry} (h : WFres e) :
    rowBlank (rowUniform e) = false := by
  unfold rowBlank rowUniform
  simp [cstr_result_not_blank h]

theorem cellStr_result {e : Entry} (h : WFres e) :
    cellStr (Cell.cstr e.result) = e.result := by
  unfold cellStr
  simpa [cellRawStr] using h.2

/-- Content of the data rows of an emitted range-mode result sheet. -/
theorem rangeRows_parse (rIdx miIdx maIdx : Nat) (hri : rIdx = 2) (hmi : miIdx = 0)
    (hma : maIdx = 1) (g : (Nat × List Cell) → Int → Int → ImportError) :
    ∀ (es : List Entry), (∀ e ∈ es, WFrange e) → ∀ i,
    (List.filterMap (fun rr =>
        (let res := cellStr (getCell rr.2 rIdx)
         if res = "" then none
         else
           match to_int (getCell rr.2 miIdx), to_int (getCell rr.2 maIdx) with
           | some mi, some ma => some ⟨some mi, some ma, none, res⟩
           | _, _ => none : Option Entry))
      (dataRowsAux i (es.map rowRange))) = es ∧
    (List.filterMap (fun rr =>
        (match to_int (getCell rr.2 miIdx), to_int (getCell rr.2 maIdx) with
         | some mi, some ma => some (mi, ma, rr.1)
         | _, _ => none : Option (Int × Int × Nat)))
      (dataRowsAux i (es.map rowRange))).map (fun x => (x.1, x.2.1)) =
      es.map (fun e => (e.min_roll.getD 0, e.max_roll.getD 0)) ∧
    (List.filterMap (fun rr =>
        (match to_int (getCell rr.2 miIdx), to_int (getCell rr.2 maIdx) with
         | some miv, some mav =>
           if miv > mav then
             some (g rr miv mav)
           else none
         | _, _ => none : Option ImportError))
      (dataRowsAux i (es.map rowRange))) = [] := by
  subst hri hmi hma
  intro es
  induction es with
  | nil => intro _ i; exact ⟨rfl, rfl, rfl⟩
  | cons e rest ih =>
    intro hwf i
    obtain ⟨hres, hwnone, mi, ma, hemi, hema, hle⟩ := hwf e (by simp)
    have hrow : rowRange e = [Cell.cint mi, Cell.cint ma, Cell.cstr e.result] := by
      unfold rowRange
      rw [hemi, hema]
      rfl
    have hstep : dataRowsAux i ((e :: rest).map rowRange) =
        (i, rowRange e) :: dataRowsAux (i + 1) (rest.map rowRange) := by
      rw [List.map_cons, dataRowsAux, if_neg (by simp [rowRange_not_blank hres])]
    obtain ⟨ihA, ihB, ihC⟩ := ih (fun e' he' => hwf e' (List.mem_cons_of_mem _ he')) (i + 1)
    refine ⟨?_, ?_, ?_⟩
    · rw [hstep, List.filterMap_cons]
      rw [hrow]
      have hget : cellStr (getCell (i, [Cell.cint mi, Cell.cint ma, Cell.cstr e.result]).2 2) =
          e.result := cellStr_result hres
      dsimp only
      rw [hget, if_neg hres.1]
      have h0 : to_int (getCell [Cell.cint mi, Cell.cint ma, Cell.cstr e.result] 0) =
          some mi := rfl
      have h1 : to_int (getCell [Cell.cint mi, Cell.cint ma, Cell.cstr e.result] 1) =
          some ma := rfl
      rw [h0, h1]
      dsimp only
      rw [ihA]
      congr 1
      cases e
      simp only at hemi hema hwnone
      simp [hemi, hema, hwnone]
    · rw [hstep, List.filterMap_cons, hrow]
      have h0 : to_int (getCell [Cell.cint mi, Cell.cint ma, Cell.cstr e.result] 0) =
          some mi := rfl
      have h1 : to_int (getCell [Cell.cint mi, Cell.cint ma, Cell.cstr e.result] 1) =
          some ma := rfl
      dsimp only
      rw [h0, h1]
      dsimp only
      rw [List.map_cons, ihB, List.map_cons]
      congr 1
      rw [hemi, hema]
      rfl
    · rw [hstep, List.filterMap_cons, hrow]
      have h0 : to_int (getCell [Cell.cint mi, Cell.cint ma, Cell.cstr e.result] 0) =
          some mi := rfl
      have h1 : to_int (getCell [Cell.cint mi, Cell.cint ma, Cell.cstr e.result] 1) =
          some ma := rfl
      dsimp only
      rw [h0, h1]
      dsimp only
      rw [if_neg (by omega), ihC]

theorem addSheet_range (tab kind : String) (es : List Entry) :
    addSheetForTable tab kind ROLL_RANGE es =
      ⟨tab, [Cell.cstr "min", Cell.cstr "max", Cell.cstr kind] :: es.map rowRange⟩ := by
  unfold addSheetForTable
  rw [if_pos (by decide : ROLL_RANGE = "range")]
  congr 1

theorem addSheet_weight (tab kind : String) (es : List Entry) :
    addSheetForTable tab kind ROLL_WEIGHT es =
      ⟨tab, [Cell.cstr "weight", Cell.cstr kind] :: es.map rowWeight⟩ := by
  unfold addSheetForTable
  rw [if_neg (by decide : ¬ROLL_WEIGHT = "range"),
    if_pos (by decide : ROLL_WEIGHT = "weight")]
  congr 1

theorem addSheet_uniform (tab kind : String) (es : List Entry) :
    addSheetForTable tab kind ROLL_UNIFORM es =
      ⟨tab, [Cell.cstr kind] :: es.map rowUniform⟩ := by
  unfold addSheetForTable
  rw [if_neg (by decide : ¬ROLL_UNIFORM = "range"),
    if_neg (by decide : ¬ROLL_UNIFORM = "weight")]
  congr 1

/-- The reconstruction core for range-mode result sheets: re-parsing the
emitted sheet reproduces the entries, the max roll, and no errors. -/
theorem reparse_result_range (tab : String) (es : List Entry)
    (hwf : ∀ e ∈ es, WFrange e) (hne : es ≠ [])
    (hdisj : List.Pairwise entryDisj es) :
    parseResultSheet tab (addSheetForTable tab "result" ROLL_RANGE es) =
      .ok (ROLL_RANGE, es, maxRollOf (es.map (fun e => e.max_roll.getD 0)), []) := by
  rw [addSheet_range]
  unfold parseResultSheet
  have hrs : readSheetRows ⟨tab, [Cell.cstr "min", Cell.cstr "max", Cell.cstr "result"] ::
      es.map rowRange⟩ =
      (headerMap [Cell.cstr "min", Cell.cstr "max", Cell.cstr "result"],
        dataRowsAux 2 (es.map rowRange)) := rfl
  rw [hrs]
  dsimp only
  have hres : hmFind (headerMap [Cell.cstr "min", Cell.cstr "max", Cell.cstr "result"])
      "result" = some 2 := by decide
  have hmi : hmFind (headerMap [Cell.cstr "min", Cell.cstr "max", Cell.cstr "result"])
      "min" = some 0 := by decide
  have hma : hmFind (headerMap [Cell.cstr "min", Cell.cstr "max", Cell.cstr "result"])
      "max" = some 1 := by decide
  rw [hres]
  simp only [Option.isNone_some, Bool.false_eq_true, if_false]
  rw [detectMode_range_eq _ _ _ 0 1 hmi hma]
  dsimp only
  rw [if_pos (rfl : ROLL_RANGE = ROLL_RANGE)]
  obtain ⟨hA, hB, hC⟩ := rangeRows_parse 2 0 1 rfl rfl rfl
    (fun rr miv mav => ⟨tab, some rr.1, "Invalid range: min " ++ intStr miv ++
      " is greater than max " ++ intStr mav ++ "."⟩) es hwf 2
  have hentries : resultRowsRange
      (headerMap [Cell.cstr "min", Cell.cstr "max", Cell.cstr "result"])
      (dataRowsAux 2 (es.map rowRange)) = es := by
    unfold resultRowsRange
    rw [hres, hmi, hma]
    exact hA
  have hcoll : (collectRanges
      (headerMap [Cell.cstr "min", Cell.cstr "max", Cell.cstr "result"])
      (dataRowsAux 2 (es.map rowRange))).map (fun x => (x.1, x.2.1)) =
      es.map (fun e => (e.min_roll.getD 0, e.max_roll.getD 0)) := by
    unfold collectRanges
    rw [hmi, hma]
    exact hB
  have hcoll_le : ∀ x ∈ collectRanges
      (headerMap [Cell.cstr "min", Cell.cstr "max", Cell.cstr "result"])
      (dataRowsAux 2 (es.map rowRange)), x.1 ≤ x.2.1 := by
    intro x hx
    have hx2 : (x.1, x.2.1) ∈ es.map (fun e => (e.min_roll.getD 0, e.max_roll.getD 0)) := by
      rw [← hcoll]
      exact List.mem_map_of_mem _ hx
    obtain ⟨e, he, hpe⟩ := List.mem_map.mp hx2
    obtain ⟨_, _, mi, ma, hemi, hema, hle⟩ := hwf e he
    have h1 : x.1 = mi := by
      have := congrArg Prod.fst hpe
      simpa [hemi] using this.symm
    have h2 : x.2.1 = ma := by
      have := congrArg Prod.snd hpe
      simpa [hema] using this.symm
    omega
  have hdisjC : (collectRanges
      (headerMap [Cell.cstr "min", Cell.cstr "max", Cell.cstr "result"])
      (dataRowsAux 2 (es.map rowRange))).Pairwise rangeDisj := by
    have hes : (es.map (fun e => (e.min_roll.getD 0, e.max_roll.getD 0))).Pairwise
        pairDisj := by
      rw [List.pairwise_map]
      refine hdisj.imp_of_mem ?_
      intro e f he hf hd
      obtain ⟨_, _, mi1, ma1, hemi, hema, _⟩ := hwf e he
      obtain ⟨_, _, mi2, ma2, hfmi, hfma, _⟩ := hwf f hf
      have := hd mi1 ma1 mi2 ma2 hemi hema hfmi hfma
      rw [hemi, hema, hfmi, hfma]
      unfold pairDisj
      simpa using this
    rw [← hcoll] at hes
    rw [List.pairwise_map] at hes
    exact hes.imp (fun h => h)
  have hv : validateRanges tab
      (headerMap [Cell.cstr "min", Cell.cstr "max", Cell.cstr "result"])
      (dataRowsAux 2 (es.map rowRange)) = .ok [] :=
    (validateRanges_nil_iff tab _ _ 0 1 hmi hma hcoll_le).mpr hdisjC
  rw [hv]
  dsimp only
  rw [hC, hentries, if_neg hne]
  rfl

/-- Content of the data rows of an emitted weight-mode result sheet. -/
theorem weightRows_parse (rIdx wIdx : Nat) (hri : rIdx = 1) (hwi : wIdx = 0)
    (tab : String) :
    ∀ (es : List Entry), (∀ e ∈ es, WFweight e) → ∀ i,
    (List.filterMap (fun rr =>
        (let res := cellStr (getCell rr.2 rIdx)
         if res = "" then none
         else
           match to_int (getCell rr.2 wIdx) with
           | some w => if w ≤ 0 then none else some ⟨none, none, some w, res⟩
           | none => none : Option Entry))
      (dataRowsAux i (es.map rowWeight))) = es ∧
    (List.filterMap (fun rr =>
        (match to_int (getCell rr.2 wIdx) with
         | some w =>
           if w ≤ 0 then
             some ⟨tab, some rr.1, "Invalid weight " ++ intStr w ++
               ". Must be a positive integer."⟩
           else none
         | none => none : Option ImportError))
      (dataRowsAux i (es.map rowWeight))) = [] := by
  subst hri hwi
  intro es
  induction es with
  | nil => intro _ i; exact ⟨rfl, rfl⟩
  | cons e rest ih =>
    intro hwf i
    obtain ⟨hres, hminn, hmaxn, w, hw, hwpos⟩ := hwf e (by simp)
    have hrow : rowWeight e = [Cell.cint w, Cell.cstr e.result] := by
      unfold rowWeight
      rw [hw]
      rfl
    have hstep : dataRowsAux i ((e :: rest).map rowWeight) =
        (i, rowWeight e) :: dataRowsAux (i + 1) (rest.map rowWeight) := by
      rw [List.map_cons, dataRowsAux, if_neg (by simp [rowWeight_not_blank hres])]
    obtain ⟨ihA, ihB⟩ := ih (fun e' he' => hwf e' (List.mem_cons_of_mem _ he')) (i + 1)
    refine ⟨?_, ?_⟩
    · rw [hstep, List.filterMap_cons]
      rw [hrow]
      have hget : cellStr (getCell (i, [Cell.cint w, Cell.cstr e.result]).2 1) =
          e.result := cellStr_result hres
      dsimp only
      rw [hget, if_neg hres.1]
      have h0 : to_int (getCell [Cell.cint w, Cell.cstr e.result] 0) = some w := rfl
      rw [h0]
      dsimp only
      rw [if_neg (by omega), ihA]
      cases e
      simp only at hw hminn hmaxn
      simp [hw, hminn, hmaxn]
    · rw [hstep, List.filterMap_cons, hrow]
      have h0 : to_int (getCell [Cell.cint w, Cell.cstr e.result] 0) = some w := rfl
      dsimp only
      rw [h0]
      dsimp only
      rw [if_neg (by omega), ihB]

/-- Content of the data rows of an emitted uniform-mode result sheet. -/
theorem uniformRows_parse (rIdx : Nat) (hri : rIdx = 0) :
    ∀ (es : List Entry), (∀ e ∈ es, WFuniform e) → ∀ i,
    (List.filterMap (fun rr =>
        (let res := cellStr (getCell rr.2 rIdx)
         if res = "" then none
         else some ⟨none, none, none, res⟩ : Option Entry))
      (dataRowsAux i (es.map rowUniform))) = es := by
  subst hri
  intro es
  induction es with
  | nil => intro _ i; rfl
  | cons e rest ih =>
    intro hwf i
    obtain ⟨hres, hminn, hmaxn, hwn⟩ := hwf e (by simp)
    have hrow : rowUniform e = [Cell.cstr e.result] := rfl
    have hstep : dataRowsAux i ((e :: rest).map rowUniform) =
        (i, rowUniform e) :: dataRowsAux (i + 1) (rest.map rowUniform) := by
      rw [List.map_cons, dataRowsAux, if_neg (by simp [rowUniform_not_blank hres])]
    have ihA := ih (fun e' he' => hwf e' (List.mem_cons_of_mem _ he')) (i + 1)
    rw [hstep, List.filterMap_cons, hrow]
    have hget : cellStr (getCell (i, [Cell.cstr e.result]).2 0) = e.result :=
      cellStr_result hres
    dsimp only
    rw [hget, if_neg hres.1, ihA]
    cases e
    simp only at hminn hmaxn hwn
    simp [hminn, hmaxn, hwn]

/-- The reconstruction core for weight-mode result sheets. -/
theorem reparse_result_weight (tab : String) (es : List Entry)
    (hwf : ∀ e ∈ es, WFweight e) (hne : es ≠ []) :
    parseResultSheet tab (addSheetForTable tab "result" ROLL_WEIGHT es) =
      .ok (ROLL_WEIGHT, es, none, []) := by
  rw [addSheet_weight]
  unfold parseResultSheet
  have hrs : readSheetRows ⟨tab, [Cell.cstr "weight", Cell.cstr "result"] ::
      es.map rowWeight⟩ =
      (headerMap [Cell.cstr "weight", Cell.cstr "result"],
        dataRowsAux 2 (es.map rowWeight)) := rfl
  rw [hrs]
  dsimp only
  have hres : hmFind (headerMap [Cell.cstr "weight", Cell.cstr "result"])
      "result" = some 1 := by decide
  have hwi : hmFind (headerMap [Cell.cstr "weight", Cell.cstr "result"])
      "weight" = some 0 := by decide
  have hmi : hmFind (headerMap [Cell.cstr "weight", Cell.cstr "result"])
      "min" = none := by decide
  have hma : hmFind (headerMap [Cell.cstr "weight", Cell.cstr "result"])
      "max" = none := by decide
  rw [hres]
  simp only [Option.isNone_some, Bool.false_eq_true, if_false]
  rw [detectMode_weight_eq _ _ _ hmi hma 0 hwi]
  dsimp only
  rw [if_neg (by decide : ¬ROLL_WEIGHT = ROLL_RANGE),
    if_pos (rfl : ROLL_WEIGHT = ROLL_WEIGHT)]
  obtain ⟨hA, hB⟩ := weightRows_parse 1 0 rfl rfl tab es hwf 2
  have hentries : resultRowsWeight
      (headerMap [Cell.cstr "weight", Cell.cstr "result"])
      (dataRowsAux 2 (es.map rowWeight)) = es := by
    unfold resultRowsWeight
    rw [hres, hwi]
    exact hA
  rw [hB, hentries, if_neg hne]
  rfl

/-- The reconstruction core for uniform-mode result sheets. -/
theorem reparse_result_uniform (tab : String) (es : List Entry)
    (hwf : ∀ e ∈ es, WFuniform e) (hne : es ≠ []) :
    parseResultSheet tab (addSheetForTable tab "result" ROLL_UNIFORM es) =
      .ok (ROLL_UNIFORM, es, none, []) := by
  rw [addSheet_uniform]
  unfold parseResultSheet
  have hrs : readSheetRows ⟨tab, [Cell.cstr "result"] :: es.map rowUniform⟩ =
      (headerMap [Cell.cstr "result"], dataRowsAux 2 (es.map rowUniform)) := rfl
  rw [hrs]
  dsimp only
  have hres : hmFind (headerMap [Cell.cstr "result"]) "result" = some 0 := by decide
  have hwi : hmFind (headerMap [Cell.cstr "result"]) "weight" = none := by decide
  have hmi : hmFind (headerMap [Cell.cstr "result"]) "min" = none := by decide
  have hma : hmFind (headerMap [Cell.cstr "result"]) "max" = none := by decide
  rw [hres]
  simp only [Option.isNone_some, Bool.false_eq_true, if_false]
  rw [detectMode_uniform_eq _ _ _ hmi hma hwi]
  dsimp only
  rw [if_neg (by decide : ¬ROLL_UNIFORM = ROLL_RANGE),
    if_neg (by decide : ¬ROLL_UNIFORM = ROLL_WEIGHT)]
  have hA := uniformRows_parse 0 rfl es hwf 2
  have hentries : resultRowsUniform (headerMap [Cell.cstr "result"])
      (dataRowsAux 2 (es.map rowUniform)) = es := by
    unfold resultRowsUniform
    rw [hres]
    exact hA
  rw [hentries, if_neg hne]
  rfl

/-! ## C1: reconstruction of emitted encounter-type sheets -/

/-- The `(type, min, max)` triples re-parsed from an emitted range-mode type
sheet. -/
theorem typeRangeRows_parse :
    ∀ (es : List Entry), (∀ e ∈ es, WFrange e) → ∀ i,
    (List.filterMap (fun rr =>
        (let t := cellStr (getCell rr.2 2)
         if t = "" then none
         else
           match to_int (getCell rr.2 0), to_int (getCell rr.2 1) with
           | some mi, some ma => some (t, mi, ma)
           | _, _ => none : Option (String × Int × Int)))
      (dataRowsAux i (es.map rowRange))) =
      es.map (fun e => (e.result, e.min_roll.getD 0, e.max_roll.getD 0)) := by
  intro es
  induction es with
  | nil => intro _ i; rfl
  | cons e rest ih =>
    intro hwf i
    obtain ⟨hres, hwnone, mi, ma, hemi, hema, hle⟩ := hwf e (by simp)
    have hrow : rowRange e = [Cell.cint mi, Cell.cint ma, Cell.cstr e.result] := by
      unfold rowRange
      rw [hemi, hema]
      rfl
    have hstep : dataRowsAux i ((e :: rest).map rowRange) =
        (i, rowRange e) :: dataRowsAux (i + 1) (rest.map rowRange) := by
      rw [List.map_cons, dataRowsAux, if_neg (by simp [rowRange_not_blank hres])]
    have ihA := ih (fun e' he' => hwf e' (List.mem_cons_of_mem _ he')) (i + 1)
    rw [hstep, List.filterMap_cons, hrow]
    have hget : cellStr (getCell (i, [Cell.cint mi, Cell.cint ma, Cell.cstr e.result]).2 2) =
        e.result := cellStr_result hres
    dsimp only
    rw [hget, if_neg hres.1]
    have h0 : to_int (getCell [Cell.cint mi, Cell.cint ma, Cell.cstr e.result] 0) =
        some mi := rfl
    have h1 : to_int (getCell [Cell.cint mi, Cell.cint ma, Cell.cstr e.result] 1) =
        some ma := rfl
    rw [h0, h1]
    dsimp only
    rw [ihA, List.map_cons]
    rw [hemi, hema]
    rfl

/-- The type strings re-parsed from an emitted weight-mode type sheet. -/
theorem typeWeightRows_parse :
    ∀ (es : List Entry), (∀ e ∈ es, WFweight e) → ∀ i,
    (List.filterMap (fun rr =>
        (let t := cellStr (getCell rr.2 1)
         if t = "" then none
         else
           match to_int (getCell rr.2 0) with
           | some w => if w ≤ 0 then none else some t
           | none => none : Option String))
      (dataRowsAux i (es.map rowWeight))) = es.map Entry.result := by
  intro es
  induction es with
  | nil => intro _ i; rfl
  | cons e rest ih =>
    intro hwf i
    obtain ⟨hres, hminn, hmaxn, w, hw, hwpos⟩ := hwf e (by simp)
    have hrow : rowWeight e = [Cell.cint w, Cell.cstr e.result] := by
      unfold rowWeight
      rw [hw]
      rfl
    have hstep : dataRowsAux i ((e :: rest).map rowWeight) =
        (i, rowWeight e) :: dataRowsAux (i + 1) (rest.map rowWeight) := by
      rw [List.map_cons, dataRowsAux, if_neg (by simp [rowWeight_not_blank hres])]
    have ihA := ih (fun e' he' => hwf e' (List.mem_cons_of_mem _ he')) (i + 1)
    rw [hstep, List.filterMap_cons, hrow]
    have hget : cellStr (getCell (i, [Cell.cint w, Cell.cstr e.result]).2 1) =
        e.result := cellStr_result hres
    dsimp only
    rw [hget, if_neg hres.1]
    have h0 : to_int (getCell [Cell.cint w, Cell.cstr e.result] 0) = some w := rfl
    rw [h0]
    dsimp only
    rw [if_neg (by omega), ihA, List.map_cons]

/-- The type strings re-parsed from an emitted uniform-mode type sheet. -/
theorem typeUniformRows_parse :
    ∀ (es : List Entry), (∀ e ∈ es, WFuniform e) → ∀ i,
    (List.filterMap (fun rr =>
        (let t := cellStr (getCell rr.2 0)
         if t = "" then none else some t : Option String))
      (dataRowsAux i (es.map rowUniform))) = es.map Entry.result := by
  intro es
  induction es with
  | nil => intro _ i; rfl
  | cons e rest ih =>
    intro hwf i
    obtain ⟨hres, hminn, hmaxn, hwn⟩ := hwf e (by simp)
    have hrow : rowUniform e = [Cell.cstr e.result] := rfl
    have hstep : dataRowsAux i ((e :: rest).map rowUniform) =
        (i, rowUniform e) :: dataRowsAux (i + 1) (rest.map rowUniform) := by
      rw [List.map_cons, dataRowsAux, if_neg (by simp [rowUniform_not_blank hres])]
    have ihA := ih (fun e' he' => hwf e' (List.mem_cons_of_mem _ he')) (i + 1)
    rw [hstep, List.filterMap_cons, hrow]
    have hget : cellStr (getCell (i, [Cell.cstr e.result]).2 0) = e.result :=
      cellStr_result hres
    dsimp only
    rw [hget, if_neg hres.1, ihA, List.map_cons]

/-- Re-reading an emitted range-mode type sheet inside phase 2 reproduces the
stored entries. -/
theorem buildType_range_reconstruct (tab : String) (es : List Entry)
    (hwf : ∀ e ∈ es, WFrange e) :
    buildTypeEntriesSheet tab (addSheetForTable tab "type" ROLL_RANGE es) = es := by
  rw [addSheet_range]
  unfold buildTypeEntriesSheet
  have hrs : readSheetRows ⟨tab, [Cell.cstr "min", Cell.cstr "max", Cell.cstr "type"] ::
      es.map rowRange⟩ =
      (headerMap [Cell.cstr "min", Cell.cstr "max", Cell.cstr "type"],
        dataRowsAux 2 (es.map rowRange)) := rfl
  rw [hrs]
  dsimp only
  have hmi : hmFind (headerMap [Cell.cstr "min", Cell.cstr "max", Cell.cstr "type"])
      "min" = some 0 := by decide
  have hma : hmFind (headerMap [Cell.cstr "min", Cell.cstr "max", Cell.cstr "type"])
      "max" = some 1 := by decide
  have ht : hmFind (headerMap [Cell.cstr "min", Cell.cstr "max", Cell.cstr "type"])
      "type" = some 2 := by decide
  rw [detectMode_range_eq _ _ _ 0 1 hmi hma]
  dsimp only
  rw [if_pos (rfl : ROLL_RANGE = ROLL_RANGE), ht, hmi, hma]
  exact (rangeRows_parse 2 0 1 rfl rfl rfl (fun _ _ _ => ⟨tab, none, ""⟩) es hwf 2).1

/-- Re-reading an emitted weight-mode type sheet inside phase 2 reproduces the
stored entries. -/
theorem buildType_weight_reconstruct (tab : String) (es : List Entry)
    (hwf : ∀ e ∈ es, WFweight e) :
    buildTypeEntriesSheet tab (addSheetForTable tab "type" ROLL_WEIGHT es) = es := by
  rw [addSheet_weight]
  unfold buildTypeEntriesSheet
  have hrs : readSheetRows ⟨tab, [Cell.cstr "weight", Cell.cstr "type"] ::
      es.map rowWeight⟩ =
      (headerMap [Cell.cstr "weight", Cell.cstr "type"],
        dataRowsAux 2 (es.map rowWeight)) := rfl
  rw [hrs]
  dsimp only
  have hwi : hmFind (headerMap [Cell.cstr "weight", Cell.cstr "type"])
      "weight" = some 0 := by decide
  have hmi : hmFind (headerMap [Cell.cstr "weight", Cell.cstr "type"])
      "min" = none := by decide
  have hma : hmFind (headerMap [Cell.cstr "weight", Cell.cstr "type"])
      "max" = none := by decide
  have ht : hmFind (headerMap [Cell.cstr "weight", Cell.cstr "type"])
      "type" = some 1 := by decide
  rw [detectMode_weight_eq _ _ _ hmi hma 0 hwi]
  dsimp only
  rw [if_neg (by decide : ¬ROLL_WEIGHT = ROLL_RANGE),
    if_pos (rfl : ROLL_WEIGHT = ROLL_WEIGHT), ht, hwi]
  exact (weightRows_parse 1 0 rfl rfl tab es hwf 2).1

/-- Re-reading an emitted uniform-mode type sheet inside phase 2 reproduces
the stored entries. -/
theorem buildType_uniform_reconstruct (tab : String) (es : List Entry)
    (hwf : ∀ e ∈ es, WFuniform e) :
    buildTypeEntriesSheet tab (addSheetForTable tab "type" ROLL_UNIFORM es) = es := by
  rw [addSheet_uniform]
  unfold buildTypeEntriesSheet
  have hrs : readSheetRows ⟨tab, [Cell.cstr "type"] :: es.map rowUniform⟩ =
      (headerMap [Cell.cstr "type"], dataRowsAux 2 (es.map rowUniform)) := rfl
  rw [hrs]
  dsimp only
  have hwi : hmFind (headerMap [Cell.cstr "type"]) "weight" = none := by decide
  have hmi : hmFind (headerMap [Cell.cstr "type"]) "min" = none := by decide
  have hma : hmFind (headerMap [Cell.cstr "type"]) "max" = none := by decide
  have ht : hmFind (headerMap [Cell.cstr "type"]) "type" = some 0 := by decide
  rw [detectMode_uniform_eq _ _ _ hmi hma hwi]
  dsimp only
  rw [if_neg (by decide : ¬ROLL_UNIFORM = ROLL_RANGE),
    if_neg (by decide : ¬ROLL_UNIFORM = ROLL_WEIGHT), ht]
  exact uniformRows_parse 0 rfl es hwf 2

/-- Re-parsing an emitted range-mode type sheet reproduces the type list (in
first-seen order), the max roll, and no errors. -/
theorem reparse_type_range (tab : String) (es : List Entry)
    (hwf : ∀ e ∈ es, WFrange e) (hdisj : List.Pairwise entryDisj es)
    (hne : dedupFirst (es.map Entry.result) ≠ []) :
    parseTypeSheet tab (addSheetForTable tab "type" ROLL_RANGE es) =
      .ok (ROLL_RANGE, dedupFirst (es.map Entry.result),
        maxRollOf (es.map (fun e => e.max_roll.getD 0)), []) := by
  rw [addSheet_range]
  unfold parseTypeSheet
  have hrs : readSheetRows ⟨tab, [Cell.cstr "min", Cell.cstr "max", Cell.cstr "type"] ::
      es.map rowRange⟩ =
      (headerMap [Cell.cstr "min", Cell.cstr "max", Cell.cstr "type"],
        dataRowsAux 2 (es.map rowRange)) := rfl
  rw [hrs]
  dsimp only
  have ht : hmFind (headerMap [Cell.cstr "min", Cell.cstr "max", Cell.cstr "type"])
      "type" = some 2 := by decide
  have hmi : hmFind (headerMap [Cell.cstr "min", Cell.cstr "max", Cell.cstr "type"])
      "min" = some 0 := by decide
  have hma : hmFind (headerMap [Cell.cstr "min", Cell.cstr "max", Cell.cstr "type"])
      "max" = some 1 := by decide
  rw [ht]
  simp only [Option.isNone_some, Bool.false_eq_true, if_false]
  rw [detectMode_range_eq _ _ _ 0 1 hmi hma]
  dsimp only
  rw [if_pos (rfl : ROLL_RANGE = ROLL_RANGE)]
  obtain ⟨hA, hB, hC⟩ := rangeRows_parse 2 0 1 rfl rfl rfl
    (fun rr miv mav => ⟨tab, some rr.1, "Invalid range: min " ++ intStr miv ++
      " is greater than max " ++ intStr mav ++ "."⟩) es hwf 2
  have hrows : typeRowsRange
      (headerMap [Cell.cstr "min", Cell.cstr "max", Cell.cstr "type"])
      (dataRowsAux 2 (es.map rowRange)) =
      es.map (fun e => (e.result, e.min_roll.getD 0, e.max_roll.getD 0)) := by
    unfold typeRowsRange
    rw [ht, hmi, hma]
    exact typeRangeRows_parse es hwf 2
  have hcoll : (collectRanges
      (headerMap [Cell.cstr "min", Cell.cstr "max", Cell.cstr "type"])
      (dataRowsAux 2 (es.map rowRange))).map (fun x => (x.1, x.2.1)) =
      es.map (fun e => (e.min_roll.getD 0, e.max_roll.getD 0)) := by
    unfold collectRanges
    rw [hmi, hma]
    exact hB
  have hcoll_le : ∀ x ∈ collectRanges
      (headerMap [Cell.cstr "min", Cell.cstr "max", Cell.cstr "type"])
      (dataRowsAux 2 (es.map rowRange)), x.1 ≤ x.2.1 := by
    intro x hx
    have hx2 : (x.1, x.2.1) ∈ es.map (fun e => (e.min_roll.getD 0, e.max_roll.getD 0)) := by
      rw [← hcoll]
      exact List.mem_map_of_mem _ hx
    obtain ⟨e, he, hpe⟩ := List.mem_map.mp hx2
    obtain ⟨_, _, mi, ma, hemi, hema, hle⟩ := hwf e he
    have h1 : x.1 = mi := by
      have := congrArg Prod.fst hpe
      simpa [hemi] using this.symm
    have h2 : x.2.1 = ma := by
      have := congrArg Prod.snd hpe
      simpa [hema] using this.symm
    omega
  have hdisjC : (collectRanges
      (headerMap [Cell.cstr "min", Cell.cstr "max", Cell.cstr "type"])
      (dataRowsAux 2 (es.map rowRange))).Pairwise rangeDisj := by
    have hes : (es.map (fun e => (e.min_roll.getD 0, e.max_roll.getD 0))).Pairwise
        pairDisj := by
      rw [List.pairwise_map]
      refine hdisj.imp_of_mem ?_
      intro e f he hf hd
      obtain ⟨_, _, mi1, ma1, hemi, hema, _⟩ := hwf e he
      obtain ⟨_, _, mi2, ma2, hfmi, hfma, _⟩ := hwf f hf
      have := hd mi1 ma1 mi2 ma2 hemi hema hfmi hfma
      rw [hemi, hema, hfmi, hfma]
      unfold pairDisj
      simpa using this
    rw [← hcoll] at hes
    rw [List.pairwise_map] at hes
    exact hes.imp (fun h => h)
  have hv : validateRanges tab
      (headerMap [Cell.cstr "min", Cell.cstr "max", Cell.cstr "type"])
      (dataRowsAux 2 (es.map rowRange)) = .ok [] :=
    (validateRanges_nil_iff tab _ _ 0 1 hmi hma hcoll_le).mpr hdisjC
  rw [hv]
  dsimp only
  rw [hC, hrows]
  have hfst : (es.map (fun e => (e.result, e.min_roll.getD 0, e.max_roll.getD 0))).map
      (fun r => r.1) = es.map Entry.result := by
    rw [List.map_map]
    rfl
  have hsnd : (es.map (fun e => (e.result, e.min_roll.getD 0, e.max_roll.getD 0))).map
      (fun r => r.2.2) = es.map (fun e => e.max_roll.getD 0) := by
    rw [List.map_map]
    rfl
  rw [hfst, hsnd, if_neg hne]
  rfl

/-- Re-parsing an emitted weight-mode type sheet reproduces the type list. -/
theorem reparse_type_weight (tab : String) (es : List Entry)
    (hwf : ∀ e ∈ es, WFweight e) (hne : dedupFirst (es.map Entry.result) ≠ []) :
    parseTypeSheet tab (addSheetForTable tab "type" ROLL_WEIGHT es) =
      .ok (ROLL_WEIGHT, dedupFirst (es.map Entry.result), none, []) := by
  rw [addSheet_weight]
  unfold parseTypeSheet
  have hrs : readSheetRows ⟨tab, [Cell.cstr "weight", Cell.cstr "type"] ::
      es.map rowWeight⟩ =
      (headerMap [Cell.cstr "weight", Cell.cstr "type"],
        dataRowsAux 2 (es.map rowWeight)) := rfl
  rw [hrs]
  dsimp only
  have ht : hmFind (headerMap [Cell.cstr "weight", Cell.cstr "type"])
      "type" = some 1 := by decide
  have hwi : hmFind (headerMap [Cell.cstr "weight", Cell.cstr "type"])
      "weight" = some 0 := by decide
  have hmi : hmFind (headerMap [Cell.cstr "weight", Cell.cstr "type"])
      "min" = none := by decide
  have hma : hmFind (headerMap [Cell.cstr "weight", Cell.cstr "type"])
      "max" = none := by decide
  rw [ht]
  simp only [Option.isNone_some, Bool.false_eq_true, if_false]
  rw [detectMode_weight_eq _ _ _ hmi hma 0 hwi]
  dsimp only
  rw [if_neg (by decide : ¬ROLL_WEIGHT = ROLL_RANGE),
    if_pos (rfl : ROLL_WEIGHT = ROLL_WEIGHT)]
  obtain ⟨hA, hB⟩ := weightRows_parse 1 0 rfl rfl tab es hwf 2
  have hrows : typeRowsWeight (headerMap [Cell.cstr "weight", Cell.cstr "type"])
      (dataRowsAux 2 (es.map rowWeight)) = es.map Entry.result := by
    unfold typeRowsWeight
    rw [ht, hwi]
    exact typeWeightRows_parse es hwf 2
  rw [hB, hrows, if_neg hne]
  rfl

/-- Re-parsing an emitted uniform-mode type sheet reproduces the type list. -/
theorem reparse_type_uniform (tab : String) (es : List Entry)
    (hwf : ∀ e ∈ es, WFuniform e) (hne : dedupFirst (es.map Entry.result) ≠ []) :
    parseTypeSheet tab (addSheetForTable tab "type" ROLL_UNIFORM es) =
      .ok (ROLL_UNIFORM, dedupFirst (es.map Entry.result), none, []) := by
  rw [addSheet_uniform]
  unfold parseTypeSheet
  have hrs : readSheetRows ⟨tab, [Cell.cstr "type"] :: es.map rowUniform⟩ =
      (headerMap [Cell.cstr "type"], dataRowsAux 2 (es.map rowUniform)) := rfl
  rw [hrs]
  dsimp only
  have ht : hmFind (headerMap [Cell.cstr "type"]) "type" = some 0 := by decide
  have hwi : hmFind (headerMap [Cell.cstr "type"]) "weight" = none := by decide
  have hmi : hmFind (headerMap [Cell.cstr "type"]) "min" = none := by decide
  have hma : hmFind (headerMap [Cell.cstr "type"]) "max" = none := by decide
  rw [ht]
  simp only [Option.isNone_some, Bool.false_eq_true, if_false]
  rw [detectMode_uniform_eq _ _ _ hmi hma hwi]
  dsimp only
  rw [if_neg (by decide : ¬ROLL_UNIFORM = ROLL_RANGE),
    if_neg (by decide : ¬ROLL_UNIFORM = ROLL_WEIGHT)]
  have hrows : typeRowsUniform (headerMap [Cell.cstr "type"])
      (dataRowsAux 2 (es.map rowUniform)) = es.map Entry.result := by
    unfold typeRowsUniform
    rw [ht]
    exact typeUniformRows_parse es hwf 2
  rw [hrows, if_neg hne]
  rfl

/-! ## C1: invariants of successfully parsed sheets -/

/-- Every entry kept by a range-branch row filter is well-formed for range
mode, provided no row has inverted bounds. -/
theorem rangeEntries_WF (rIdx miIdx maIdx : Nat) (data : List (Nat × List Cell))
    (hbound : ∀ rr ∈ data, ∀ mi ma, to_int (getCell rr.2 miIdx) = some mi →
      to_int (getCell rr.2 maIdx) = some ma → mi ≤ ma) :
    ∀ e ∈ data.filterMap (fun rr =>
        (let res := cellStr (getCell rr.2 rIdx)
         if res = "" then none
         else
           match to_int (getCell rr.2 miIdx), to_int (getCell rr.2 maIdx) with
           | some mi, some ma => some ⟨some mi, some ma, none, res⟩
           | _, _ => none : Option Entry)), WFrange e := by
  intro e he
  obtain ⟨rr, hrr, hfe⟩ := List.mem_filterMap.mp he
  dsimp only at hfe
  by_cases hres : cellStr (getCell rr.2 rIdx) = ""
  · simp [hres] at hfe
  · rw [if_neg hres] at hfe
    cases hti : to_int (getCell rr.2 miIdx) with
    | none => rw [hti] at hfe; simp at hfe
    | some mi =>
      cases hta : to_int (getCell rr.2 maIdx) with
      | none => rw [hti, hta] at hfe; simp at hfe
      | some ma =>
        rw [hti, hta] at hfe
        have he2 : e = ⟨some mi, some ma, none, cellStr (getCell rr.2 rIdx)⟩ := by
          injection hfe with hv
          exact hv.symm
        subst he2
        exact ⟨⟨hres, cellStr_strip_fix _⟩, rfl, mi, ma, rfl, rfl,
          hbound rr hrr mi ma hti hta⟩

/-- Every entry kept by a weight-branch row filter is well-formed for weight
mode. -/
theorem weightEntries_WF (rIdx wIdx : Nat) (data : List (Nat × List Cell)) :
    ∀ e ∈ data.filterMap (fun rr =>
        (let res := cellStr (getCell rr.2 rIdx)
         if res = "" then none
         else
           match to_int (getCell rr.2 wIdx) with
           | some w => if w ≤ 0 then none else some ⟨none, none, some w, res⟩
           | none => none : Option Entry)), WFweight e := by
  intro e he
  obtain ⟨rr, hrr, hfe⟩ := List.mem_filterMap.mp he
  dsimp only at hfe
  by_cases hres : cellStr (getCell rr.2 rIdx) = ""
  · simp [hres] at hfe
  · rw [if_neg hres] at hfe
    cases hti : to_int (getCell rr.2 wIdx) with
    | none => rw [hti] at hfe; simp at hfe
    | some w =>
      rw [hti] at hfe
      dsimp only at hfe
      by_cases hw : w ≤ 0
      · simp [hw] at hfe
      · rw [if_neg hw] at hfe
        have he2 : e = ⟨none, none, some w, cellStr (getCell rr.2 rIdx)⟩ := by
          injection hfe with hv
          exact hv.symm
        subst he2
        exact ⟨⟨hres, cellStr_strip_fix _⟩, rfl, rfl, w, rfl, by omega⟩

/-- Every entry kept by a uniform-branch row filter is well-formed for uniform
mode. -/
theorem uniformEntries_WF (rIdx : Nat) (data : List (Nat × List Cell)) :
    ∀ e ∈ data.filterMap (fun rr =>
        (let res := cellStr (getCell rr.2 rIdx)
         if res = "" then none else some ⟨none, none, none, res⟩ : Option Entry)),
      WFuniform e := by
  intro e he
  obtain ⟨rr, hrr, hfe⟩ := List.mem_filterMap.mp he
  dsimp only at hfe
  by_cases hres : cellStr (getCell rr.2 rIdx) = ""
  · simp [hres] at hfe
  · rw [if_neg hres] at hfe
    have he2 : e = ⟨none, none, none, cellStr (getCell rr.2 rIdx)⟩ := by
      injection hfe with hv
      exact hv.symm
    subst he2
    exact ⟨⟨hres, cellStr_strip_fix _⟩, rfl, rfl, rfl⟩

/-- The `(min, max)` pairs of entries kept by a range-branch row filter form a
sublist of the corresponding collected pairs. -/
theorem rangeEntries_pairs_sublist (rIdx miIdx maIdx : Nat)
    (data : List (Nat × List Cell)) :
    List.Sublist
      ((data.filterMap (fun rr =>
          (let res := cellStr (getCell rr.2 rIdx)
           if res = "" then none
           else
             match to_int (getCell rr.2 miIdx), to_int (getCell rr.2 maIdx) with
             | some mi, some ma => some ⟨some mi, some ma, none, res⟩
             | _, _ => none : Option Entry))).map
        (fun e => (e.min_roll.getD 0, e.max_roll.getD 0)))
      ((data.filterMap (fun rr =>
          (match to_int (getCell rr.2 miIdx), to_int (getCell rr.2 maIdx) with
           | some mi, some ma => some (mi, ma, rr.1)
           | _, _ => none : Option (Int × Int × Nat)))).map
        (fun x => (x.1, x.2.1))) := by
  induction data with
  | nil => simp
  | cons rr rest ih =>
    simp only [List.filterMap_cons]
    cases hmi : to_int (getCell rr.2 miIdx) with
    | none =>
      by_cases hres : cellStr (getCell rr.2 rIdx) = ""
      · simp only [hmi, hres, reduceIte]
        exact ih
      · simp only [hmi, if_neg hres]
        exact ih
    | some miv =>
      cases hma : to_int (getCell rr.2 maIdx) with
      | none =>
        by_cases hres : cellStr (getCell rr.2 rIdx) = ""
        · simp only [hmi, hma, hres, reduceIte]
          exact ih
        · simp only [hmi, hma, if_neg hres]
          exact ih
      | some mav =>
        by_cases hres : cellStr (getCell rr.2 rIdx) = ""
        · simp only [hmi, hma, hres, reduceIte, List.map_cons]
          exact ih.cons _
        · simp only [hmi, hma, if_neg hres, List.map_cons, Option.getD_some]
          exact ih.cons₂ _

/-- Pairwise interval disjointness on projected pairs gives pairwise
`entryDisj`. -/
theorem pairwise_entryDisj_of_pairs {es : List Entry}
    (h : (es.map (fun e => (e.min_roll.getD 0, e.max_roll.getD 0))).Pairwise pairDisj) :
    es.Pairwise entryDisj := by
  rw [List.pairwise_map] at h
  refine h.imp ?_
  intro e f hd mi1 ma1 mi2 ma2 h1 h2 h3 h4
  rw [h1, h2, h3, h4] at hd
  unfold pairDisj at hd
  simpa using hd

/-- What a fully successful result-sheet parse guarantees: a non-empty entry
list, per-mode well-formedness of every entry, pairwise interval disjointness
and the max-roll formula in range mode. -/
theorem parseResultSheet_ok_inv (tab : String) (ws : Sheet) (m : String)
    (es : List Entry) (mx : Option Int)
    (h : parseResultSheet tab ws = .ok (m, es, mx, [])) :
    es ≠ [] ∧
    ((m = ROLL_RANGE ∧ (∀ e ∈ es, WFrange e) ∧ es.Pairwise entryDisj ∧
        mx = maxRollOf (es.map (fun e => e.max_roll.getD 0))) ∨
     (m = ROLL_WEIGHT ∧ (∀ e ∈ es, WFweight e) ∧ mx = none) ∨
     (m = ROLL_UNIFORM ∧ (∀ e ∈ es, WFuniform e) ∧ mx = none)) := by
  unfold parseResultSheet at h
  rcases hrsv : readSheetRows ws with ⟨hm, data⟩
  rw [hrsv] at h
  dsimp only at h
  cases hres : hmFind hm "result" with
  | none =>
    rw [hres] at h
    simp at h
  | some rIdx =>
    rw [hres] at h
    simp only [Option.isNone_some, Bool.false_eq_true, if_false] at h
    cases hmi : hmFind hm "min" with
    | some miIdx =>
      cases hma : hmFind hm "max" with
      | some maIdx =>
        rw [detectMode_range_eq tab hm data miIdx maIdx hmi hma] at h
        dsimp only at h
        rw [if_pos (rfl : ROLL_RANGE = ROLL_RANGE)] at h
        rw [validateRanges_ok tab hm data miIdx maIdx hmi hma] at h
        dsimp only at h
        simp only [Except.ok.injEq, Prod.mk.injEq] at h
        obtain ⟨hm1, hes, hmx, herr⟩ := h
        obtain ⟨h12, hite⟩ := List.append_eq_nil.mp herr
        obtain ⟨hmode, hv0⟩ := List.append_eq_nil.mp h12
        have hne : resultRowsRange hm data ≠ [] := by
          intro h0
          rw [if_pos h0] at hite
          exact absurd hite (by simp)
        have hbound : ∀ rr ∈ data, ∀ mi ma, to_int (getCell rr.2 miIdx) = some mi →
            to_int (getCell rr.2 maIdx) = some ma → mi ≤ ma := by
          intro rr hrr mi ma hti hta
          have h0 := List.filterMap_eq_nil_iff.mp hmode rr hrr
          rw [hti, hta] at h0
          dsimp only at h0
          by_cases hgt : mi > ma
          · rw [if_pos hgt] at h0
            exact absurd h0 (by simp)
          · omega
        have hrrR : resultRowsRange hm data = data.filterMap (fun rr =>
            (let res := cellStr (getCell rr.2 rIdx)
             if res = "" then none
             else
               match to_int (getCell rr.2 miIdx), to_int (getCell rr.2 maIdx) with
               | some mi, some ma => some ⟨some mi, some ma, none, res⟩
               | _, _ => none : Option Entry)) := by
          unfold resultRowsRange
          rw [hres, hmi, hma]
          rfl
        have hcR : collectRanges hm data = data.filterMap (fun rr =>
            (match to_int (getCell rr.2 miIdx), to_int (getCell rr.2 maIdx) with
             | some mi, some ma => some (mi, ma, rr.1)
             | _, _ => none : Option (Int × Int × Nat))) := by
          unfold collectRanges
          rw [hmi, hma]
          rfl
        have hcle : ∀ x ∈ collectRanges hm data, x.1 ≤ x.2.1 := by
          intro x hx
          rw [hcR] at hx
          obtain ⟨rr, hrr, hfx⟩ := List.mem_filterMap.mp hx
          cases hti : to_int (getCell rr.2 miIdx) with
          | none => rw [hti] at hfx; simp at hfx
          | some mi =>
            cases hta : to_int (getCell rr.2 maIdx) with
            | none => rw [hti, hta] at hfx; simp at hfx
            | some ma =>
              rw [hti, hta] at hfx
              dsimp only at hfx
              injection hfx with hv
              rw [← hv]
              exact hbound rr hrr mi ma hti hta
        have hvr : validateRanges tab hm data = .ok [] := by
          rw [validateRanges_ok tab hm data miIdx maIdx hmi hma, hv0]
        have hpw : (collectRanges hm data).Pairwise rangeDisj :=
          (validateRanges_nil_iff tab hm data miIdx maIdx hmi hma hcle).mp hvr
        have hpairs : ((resultRowsRange hm data).map
            (fun e => (e.min_roll.getD 0, e.max_roll.getD 0))).Pairwise pairDisj := by
          have hbig : ((collectRanges hm data).map
              (fun x => (x.1, x.2.1))).Pairwise pairDisj := by
            rw [List.pairwise_map]
            exact hpw.imp (fun hh => hh)
          rw [hrrR, hcR] at *
          exact hbig.sublist (rangeEntries_pairs_sublist rIdx miIdx maIdx data)
        have hdisjE : (resultRowsRange hm data).Pairwise entryDisj :=
          pairwise_entryDisj_of_pairs hpairs
        have hwfR : ∀ e ∈ resultRowsRange hm data, WFrange e := by
          rw [hrrR]
          exact rangeEntries_WF rIdx miIdx maIdx data hbound
        subst hm1 hes hmx
        exact ⟨hne, Or.inl ⟨rfl, hwfR, hdisjE, rfl⟩⟩
      | none =>
        have hdm : detectMode tab hm data = (ROLL_RANGE,
            [⟨tab, none, "Range mode requires both 'min' and 'max' columns."⟩]) := by
          unfold detectMode
          rw [hmi, hma]
          simp
        rw [hdm] at h
        dsimp only at h
        rw [if_pos (rfl : ROLL_RANGE = ROLL_RANGE)] at h
        cases hv : validateRanges tab hm data with
        | error e =>
          rw [hv] at h
          exact absurd h (by simp)
        | ok v =>
          rw [hv] at h
          dsimp only at h
          simp only [Except.ok.injEq, Prod.mk.injEq] at h
          obtain ⟨_, _, _, herr⟩ := h
          exact absurd herr (by simp)
    | none =>
      cases hma : hmFind hm "max" with
      | some maIdx =>
        have hdm : detectMode tab hm data = (ROLL_RANGE,
            [⟨tab, none, "Range mode requires both 'min' and 'max' columns."⟩]) := by
          unfold detectMode
          rw [hmi, hma]
          simp
        rw [hdm] at h
        dsimp only at h
        rw [if_pos (rfl : ROLL_RANGE = ROLL_RANGE)] at h
        cases hv : validateRanges tab hm data with
        | error e =>
          rw [hv] at h
          exact absurd h (by simp)
        | ok v =>
          rw [hv] at h
          dsimp only at h
          simp only [Except.ok.injEq, Prod.mk.injEq] at h
          obtain ⟨_, _, _, herr⟩ := h
          exact absurd herr (by simp)
      | none =>
        cases hw : hmFind hm "weight" with
        | some wIdx =>
          rw [detectMode_weight_eq tab hm data hmi hma wIdx hw] at h
          dsimp only at h
          rw [if_neg (by decide : ¬ROLL_WEIGHT = ROLL_RANGE),
            if_pos (rfl : ROLL_WEIGHT = ROLL_WEIGHT)] at h
          simp only [Except.ok.injEq, Prod.mk.injEq] at h
          obtain ⟨hm1, hes, hmx, herr⟩ := h
          obtain ⟨hmode, hite⟩ := List.append_eq_nil.mp herr
          have hne : resultRowsWeight hm data ≠ [] := by
            intro h0
            rw [if_pos h0] at hite
            exact absurd hite (by simp)
          have hrrW : resultRowsWeight hm data = data.filterMap (fun rr =>
              (let res := cellStr (getCell rr.2 rIdx)
               if res = "" then none
               else
                 match to_int (getCell rr.2 wIdx) with
                 | some w => if w ≤ 0 then none else some ⟨none, none, some w, res⟩
                 | none => none : Option Entry)) := by
            unfold resultRowsWeight
            rw [hres, hw]
            rfl
          have hwfW : ∀ e ∈ resultRowsWeight hm data, WFweight e := by
            rw [hrrW]
            exact weightEntries_WF rIdx wIdx data
          subst hm1 hes hmx
          exact ⟨hne, Or.inr (Or.inl ⟨rfl, hwfW, rfl⟩)⟩
        | none =>
          rw [detectMode_uniform_eq tab hm data hmi hma hw] at h
          dsimp only at h
          rw [if_neg (by decide : ¬ROLL_UNIFORM = ROLL_RANGE),
            if_neg (by decide : ¬ROLL_UNIFORM = ROLL_WEIGHT)] at h
          simp only [Except.ok.injEq, Prod.mk.injEq] at h
          obtain ⟨hm1, hes, hmx, herr⟩ := h
          obtain ⟨hmode, hite⟩ := List.append_eq_nil.mp herr
          have hne : resultRowsUniform hm data ≠ [] := by
            intro h0
            rw [if_pos h0] at hite
            exact absurd hite (by simp)
          have hrrU : resultRowsUniform hm data = data.filterMap (fun rr =>
              (let res := cellStr (getCell rr.2 rIdx)
               if res = "" then none else some ⟨none, none, none, res⟩ :
                Option Entry)) := by
            unfold resultRowsUniform
            rw [hres]
            rfl
          have hwfU : ∀ e ∈ resultRowsUniform hm data, WFuniform e := by
            rw [hrrU]
            exact uniformEntries_WF rIdx data
          subst hm1 hes hmx
          exact ⟨hne, Or.inr (Or.inr ⟨rfl, hwfU, rfl⟩)⟩

/-- What a fully successful type-sheet parse guarantees, phrased over the
entries phase 2 later re-reads with `build_type_entries_from_sheet`: the type
list is the deduplicated entry results, it is non-empty, and the entries are
well-formed per mode (with disjointness and the max-roll formula in range
mode). -/
theorem parseTypeSheet_ok_inv (tab : String) (ws : Sheet) (m : String)
    (types : List String) (mx : Option Int)
    (h : parseTypeSheet tab ws = .ok (m, types, mx, [])) :
    types = dedupFirst ((buildTypeEntriesSheet tab ws).map Entry.result) ∧
    types ≠ [] ∧
    ((m = ROLL_RANGE ∧ (∀ e ∈ buildTypeEntriesSheet tab ws, WFrange e) ∧
        (buildTypeEntriesSheet tab ws).Pairwise entryDisj ∧
        mx = maxRollOf ((buildTypeEntriesSheet tab ws).map
          (fun e => e.max_roll.getD 0))) ∨
     (m = ROLL_WEIGHT ∧ (∀ e ∈ buildTypeEntriesSheet tab ws, WFweight e) ∧
        mx = none) ∨
     (m = ROLL_UNIFORM ∧ (∀ e ∈ buildTypeEntriesSheet tab ws, WFuniform e) ∧
        mx = none)) := by
  unfold parseTypeSheet at h
  rcases hrsv : readSheetRows ws with ⟨hm, data⟩
  rw [hrsv] at h
  dsimp only at h
  cases ht : hmFind hm "type" with
  | none =>
    rw [ht] at h
    simp at h
  | some tIdx =>
    rw [ht] at h
    simp only [Option.isNone_some, Bool.false_eq_true, if_false] at h
    cases hmi : hmFind hm "min" with
    | some miIdx =>
      cases hma : hmFind hm "max" with
      | some maIdx =>
        rw [detectMode_range_eq tab hm data miIdx maIdx hmi hma] at h
        dsimp only at h
        rw [if_pos (rfl : ROLL_RANGE = ROLL_RANGE)] at h
        rw [validateRanges_ok tab hm data miIdx maIdx hmi hma] at h
        dsimp only at h
        simp only [Except.ok.injEq, Prod.mk.injEq] at h
        obtain ⟨hm1, hts, hmx, herr⟩ := h
        obtain ⟨h12, hite⟩ := List.append_eq_nil.mp herr
        obtain ⟨hmode, hv0⟩ := List.append_eq_nil.mp h12
        have hbound : ∀ rr ∈ data, ∀ mi ma, to_int (getCell rr.2 miIdx) = some mi →
            to_int (getCell rr.2 maIdx) = some ma → mi ≤ ma := by
          intro rr hrr mi ma hti hta
          have h0 := List.filterMap_eq_nil_iff.mp hmode rr hrr
          rw [hti, hta] at h0
          dsimp only at h0
          by_cases hgt : mi > ma
          · rw [if_pos hgt] at h0
            exact absurd h0 (by simp)
          · omega
        have hbuildR : buildTypeEntriesSheet tab ws = data.filterMap (fun rr =>
            (let t := cellStr (getCell rr.2 tIdx)
             if t = "" then none
             else
               match to_int (getCell rr.2 miIdx), to_int (getCell rr.2 maIdx) with
               | some mi, some ma => some ⟨some mi, some ma, none, t⟩
               | _, _ => none : Option Entry)) := by
          unfold buildTypeEntriesSheet
          rw [hrsv]
          dsimp only
          rw [detectMode_range_eq tab hm data miIdx maIdx hmi hma]
          dsimp only
          rw [if_pos (rfl : ROLL_RANGE = ROLL_RANGE), ht, hmi, hma]
          rfl
        have htr : typeRowsRange hm data = (data.filterMap (fun rr =>
            (let t := cellStr (getCell rr.2 tIdx)
             if t = "" then none
             else
               match to_int (getCell rr.2 miIdx), to_int (getCell rr.2 maIdx) with
               | some mi, some ma => some ⟨some mi, some ma, none, t⟩
               | _, _ => none : Option Entry))).map
            (fun e => (e.result, e.min_roll.getD 0, e.max_roll.getD 0)) := by
          unfold typeRowsRange
          rw [ht, hmi, hma]
          simp only [Option.getD_some]
          rw [List.map_filterMap]
          apply List.filterMap_congr
          intro rr _
          dsimp only
          by_cases h0 : cellStr (getCell rr.2 tIdx) = ""
          · simp [h0]
          · cases to_int (getCell rr.2 miIdx) <;> cases to_int (getCell rr.2 maIdx) <;>
              simp [h0]
        have hcR : collectRanges hm data = data.filterMap (fun rr =>
            (match to_int (getCell rr.2 miIdx), to_int (getCell rr.2 maIdx) with
             | some mi, some ma => some (mi, ma, rr.1)
             | _, _ => none : Option (Int × Int × Nat))) := by
          unfold collectRanges
          rw [hmi, hma]
          rfl
        have hcle : ∀ x ∈ collectRanges hm data, x.1 ≤ x.2.1 := by
          intro x hx
          rw [hcR] at hx
          obtain ⟨rr, hrr, hfx⟩ := List.mem_filterMap.mp hx
          cases hti : to_int (getCell rr.2 miIdx) with
          | none => rw [hti] at hfx; simp at hfx
          | some mi =>
            cases hta : to_int (getCell rr.2 maIdx) with
            | none => rw [hti, hta] at hfx; simp at hfx
            | some ma =>
              rw [hti, hta] at hfx
              dsimp only at hfx
              injection hfx with hv
              rw [← hv]
              exact hbound rr hrr mi ma hti hta
        have hvr : validateRanges tab hm data = .ok [] := by
          rw [validateRanges_ok tab hm data miIdx maIdx hmi hma, hv0]
        have hpw : (collectRanges hm data).Pairwise rangeDisj :=
          (validateRanges_nil_iff tab hm data miIdx maIdx hmi hma hcle).mp hvr
        have hpairs : ((buildTypeEntriesSheet tab ws).map
            (fun e => (e.min_roll.getD 0, e.max_roll.getD 0))).Pairwise pairDisj := by
          have hbig : ((collectRanges hm data).map
              (fun x => (x.1, x.2.1))).Pairwise pairDisj := by
            rw [List.pairwise_map]
            exact hpw.imp (fun hh => hh)
          rw [hbuildR]
          rw [hcR] at hbig
          exact hbig.sublist (rangeEntries_pairs_sublist tIdx miIdx maIdx data)
        have hdisjE : (buildTypeEntriesSheet tab ws).Pairwise entryDisj :=
          pairwise_entryDisj_of_pairs hpairs
        have hwfR : ∀ e ∈ buildTypeEntriesSheet tab ws, WFrange e := by
          rw [hbuildR]
          exact rangeEntries_WF tIdx miIdx maIdx data hbound
        have hfst : ((data.filterMap (fun rr =>
            (let t := cellStr (getCell rr.2 tIdx)
             if t = "" then none
             else
               match to_int (getCell rr.2 miIdx), to_int (getCell rr.2 maIdx) with
               | some mi, some ma => some ⟨some mi, some ma, none, t⟩
               | _, _ => none : Option Entry))).map
            (fun e => (e.result, e.min_roll.getD 0, e.max_roll.getD 0))).map
            (fun r => r.1) = (buildTypeEntriesSheet tab ws).map Entry.result := by
          rw [List.map_map, hbuildR]
          rfl
        have hsnd : ((data.filterMap (fun rr =>
            (let t := cellStr (getCell rr.2 tIdx)
             if t = "" then none
             else
               match to_int (getCell rr.2 miIdx), to_int (getCell rr.2 maIdx) with
               | some mi, some ma => some ⟨some mi, some ma, none, t⟩
               | _, _ => none : Option Entry))).map
            (fun e => (e.result, e.min_roll.getD 0, e.max_roll.getD 0))).map
            (fun r => r.2.2) = (buildTypeEntriesSheet tab ws).map
            (fun e => e.max_roll.getD 0) := by
          rw [List.map_map, hbuildR]
          rfl
        have htypes : types = dedupFirst ((buildTypeEntriesSheet tab ws).map
            Entry.result) := by
          rw [← hts, htr, hfst]
        have hmx2 : mx = maxRollOf ((buildTypeEntriesSheet tab ws).map
            (fun e => e.max_roll.getD 0)) := by
          rw [← hmx, htr, hsnd]
        have hne : types ≠ [] := by
          intro h0
          rw [← hts] at h0
          rw [if_pos h0] at hite
          exact absurd hite (by simp)
        exact ⟨htypes, hne, Or.inl ⟨hm1.symm, hwfR, hdisjE, hmx2⟩⟩
      | none =>
        have hdm : detectMode tab hm data = (ROLL_RANGE,
            [⟨tab, none, "Range mode requires both 'min' and 'max' columns."⟩]) := by
          unfold detectMode
          rw [hmi, hma]
          simp
        rw [hdm] at h
        dsimp only at h
        rw [if_pos (rfl : ROLL_RANGE = ROLL_RANGE)] at h
        cases hv : validateRanges tab hm data with
        | error e =>
          rw [hv] at h
          exact absurd h (by simp)
        | ok v =>
          rw [hv] at h
          dsimp only at h
          simp only [Except.ok.injEq, Prod.mk.injEq] at h
          obtain ⟨_, _, _, herr⟩ := h
          exact absurd herr (by simp)
    | none =>
      cases hma : hmFind hm "max" with
      | some maIdx =>
        have hdm : detectMode tab hm data = (ROLL_RANGE,
            [⟨tab, none, "Range mode requires both 'min' and 'max' columns."⟩]) := by
          unfold detectMode
          rw [hmi, hma]
          simp
        rw [hdm] at h
        dsimp only at h
        rw [if_pos (rfl : ROLL_RANGE = ROLL_RANGE)] at h
        cases hv : validateRanges tab hm data with
        | error e =>
          rw [hv] at h
          exact absurd h (by simp)
        | ok v =>
          rw [hv] at h
          dsimp only at h
          simp only [Except.ok.injEq, Prod.mk.injEq] at h
          obtain ⟨_, _, _, herr⟩ := h
          exact absurd herr (by simp)
      | none =>
        cases hw : hmFind hm "weight" with
        | some wIdx =>
          rw [detectMode_weight_eq tab hm data hmi hma wIdx hw] at h
          dsimp only at h
          rw [if_neg (by decide : ¬ROLL_WEIGHT = ROLL_RANGE),
            if_pos (rfl : ROLL_WEIGHT = ROLL_WEIGHT)] at h
          simp only [Except.ok.injEq, Prod.mk.injEq] at h
          obtain ⟨hm1, hts, hmx, herr⟩ := h
          obtain ⟨hmode, hite⟩ := List.append_eq_nil.mp herr
          have hbuildW : buildTypeEntriesSheet tab ws = data.filterMap (fun rr =>
              (let t := cellStr (getCell rr.2 tIdx)
               if t = "" then none
               else
                 match to_int (getCell rr.2 wIdx) with
                 | some w => if w ≤ 0 then none else some ⟨none, none, some w, t⟩
                 | none => none : Option Entry)) := by
            unfold buildTypeEntriesSheet
            rw [hrsv]
            dsimp only
            rw [detectMode_weight_eq tab hm data hmi hma wIdx hw]
            dsimp only
            rw [if_neg (by decide : ¬ROLL_WEIGHT = ROLL_RANGE),
              if_pos (rfl : ROLL_WEIGHT = ROLL_WEIGHT), ht, hw]
            rfl
          have htr : typeRowsWeight hm data = (data.filterMap (fun rr =>
              (let t := cellStr (getCell rr.2 tIdx)
               if t = "" then none
               else
                 match to_int (getCell rr.2 wIdx) with
                 | some w => if w ≤ 0 then none else some ⟨none, none, some w, t⟩
                 | none => none : Option Entry))).map Entry.result := by
            unfold typeRowsWeight
            rw [ht, hw]
            simp only [Option.getD_some]
            rw [List.map_filterMap]
            apply List.filterMap_congr
            intro rr _
            dsimp only
            by_cases h0 : cellStr (getCell rr.2 tIdx) = ""
            · simp [h0]
            · cases hti : to_int (getCell rr.2 wIdx) with
              | none => simp [h0]
              | some w =>
                by_cases hw0 : w ≤ 0 <;> simp [h0, hw0]
          have hwfW : ∀ e ∈ buildTypeEntriesSheet tab ws, WFweight e := by
            rw [hbuildW]
            exact weightEntries_WF tIdx wIdx data
          have htypes : types = dedupFirst ((buildTypeEntriesSheet tab ws).map
              Entry.result) := by
            rw [← hts, htr, hbuildW]
          have hne : types ≠ [] := by
            intro h0
            rw [← hts] at h0
            rw [if_pos h0] at hite
            exact absurd hite (by simp)
          exact ⟨htypes, hne, Or.inr (Or.inl ⟨hm1.symm, hwfW, hmx.symm⟩)⟩
        | none =>
          rw [detectMode_uniform_eq tab hm data hmi hma hw] at h
          dsimp only at h
          rw [if_neg (by decide : ¬ROLL_UNIFORM = ROLL_RANGE),
            if_neg (by decide : ¬ROLL_UNIFORM = ROLL_WEIGHT)] at h
          simp only [Except.ok.injEq, Prod.mk.injEq] at h
          obtain ⟨hm1, hts, hmx, herr⟩ := h
          obtain ⟨hmode, hite⟩ := List.append_eq_nil.mp herr
          have hbuildU : buildTypeEntriesSheet tab ws = data.filterMap (fun rr =>
              (let t := cellStr (getCell rr.2 tIdx)
               if t = "" then none else some ⟨none, none, none, t⟩ :
                Option Entry)) := by
            unfold buildTypeEntriesSheet
            rw [hrsv]
            dsimp only
            rw [detectMode_uniform_eq tab hm data hmi hma hw]
            dsimp only
            rw [if_neg (by decide : ¬ROLL_UNIFORM = ROLL_RANGE),
              if_neg (by decide : ¬ROLL_UNIFORM = ROLL_WEIGHT), ht]
            rfl
          have htr : typeRowsUniform hm data = (data.filterMap (fun rr =>
              (let t := cellStr (getCell rr.2 tIdx)
               if t = "" then none else some ⟨none, none, none, t⟩ :
                Option Entry))).map Entry.result := by
            unfold typeRowsUniform
            rw [ht]
            simp only [Option.getD_some]
            rw [List.map_filterMap]
            apply List.filterMap_congr
            intro rr _
            dsimp only
            by_cases h0 : cellStr (getCell rr.2 tIdx) = "" <;> simp [h0]
          have hwfU : ∀ e ∈ buildTypeEntriesSheet tab ws, WFuniform e := by
            rw [hbuildU]
            exact uniformEntries_WF tIdx data
          have htypes : types = dedupFirst ((buildTypeEntriesSheet tab ws).map
              Entry.result) := by
            rw [← hts, htr, hbuildU]
          have hne : types ≠ [] := by
            intro h0
            rw [← hts] at h0
            rw [if_pos h0] at hite
            exact absurd hite (by simp)
          exact ⟨htypes, hne, Or.inr (Or.inr ⟨hm1.symm, hwfU, hmx.symm⟩)⟩

/-! ## C1: decomposition and reassembly of phase 1 -/

/-- A per-type result-tab loop that ends with an empty error list parsed every
type's tab successfully with no errors, in order. -/
theorem parseResultTabs_ok_nil (wb : Workbook) (mk : String → String) :
    ∀ (types : List String) (tbls : List (String × TableParse)),
    parseResultTabs wb mk types = .ok (tbls, []) →
    List.Forall₂ (fun t p => p.1 = t ∧
      parseResultTab wb (mk t) = .ok (p.2.mode, p.2.entries, p.2.maxRoll, []))
      types tbls := by
  intro types
  induction types with
  | nil =>
    intro tbls h
    rw [parseResultTabs] at h
    simp only [Except.ok.injEq, Prod.mk.injEq] at h
    rw [← h.1]
    exact List.Forall₂.nil
  | cons t rest ih =>
    intro tbls h
    rw [parseResultTabs] at h
    cases hp : parseResultTab wb (mk t) with
    | error e => rw [hp] at h; exact absurd h (by simp)
    | ok r =>
      obtain ⟨rm, re, rmx, rerrs⟩ := r
      rw [hp] at h
      dsimp only at h
      cases hrest : parseResultTabs wb mk rest with
      | error e => rw [hrest] at h; exact absurd h (by simp)
      | ok pr =>
        obtain ⟨tbls', errs'⟩ := pr
        rw [hrest] at h
        dsimp only at h
        simp only [Except.ok.injEq, Prod.mk.injEq] at h
        obtain ⟨htb, herr⟩ := h
        obtain ⟨he1, he2⟩ := List.append_eq_nil.mp herr
        rw [← htb]
        refine List.Forall₂.cons ⟨rfl, ?_⟩ (ih tbls' (by rw [hrest, he2]))
        rw [hp, he1]

/-- Reassembly: if every type's tab parses successfully with no errors, the
loop returns the table list with no errors. -/
theorem parseResultTabs_build (wb : Workbook) (mk : String → String) :
    ∀ (types : List String) (tbls : List (String × TableParse)),
    List.Forall₂ (fun t p => p.1 = t ∧
      parseResultTab wb (mk t) = .ok (p.2.mode, p.2.entries, p.2.maxRoll, []))
      types tbls →
    parseResultTabs wb mk types = .ok (tbls, []) := by
  intro types
  induction types with
  | nil =>
    intro tbls h
    cases h
    rfl
  | cons t rest ih =>
    intro tbls h
    cases h with
    | cons h1 h2 =>
      obtain ⟨hfst, hp⟩ := h1
      rw [parseResultTabs, hp]
      dsimp only
      rw [ih _ h2]
      dsimp only
      rw [← hfst]
      rfl

/-- The per-region loop body only appends to the error list it is given. -/
theorem parseRegionPhase_errs_prefix (wb : Workbook) (sn : List String)
    (errs0 : List ImportError) (rid : Option Int) (b? : Option RegionParse)
    (errsOut : List ImportError)
    (h : parseRegionPhase wb sn errs0 rid = .ok (b?, errsOut)) :
    ∃ suf, errsOut = errs0 ++ suf := by
  unfold parseRegionPhase at h
  cases hT : parseTypeTab wb (encTypeTab rid) with
  | error e => rw [hT] at h; exact absurd h (by simp)
  | ok q =>
    obtain ⟨tm, ts, tmx, terrs⟩ := q
    rw [hT] at h
    dsimp only at h
    by_cases h1 : terrs ≠ []
    · rw [if_pos h1] at h
      simp only [Except.ok.injEq, Prod.mk.injEq] at h
      exact ⟨terrs, h.2.symm⟩
    · rw [if_neg h1] at h
      by_cases h2 : errs0 ++ terrs ++ missingTabErrs sn rid ts ≠ []
      · rw [if_pos h2] at h
        simp only [Except.ok.injEq, Prod.mk.injEq] at h
        exact ⟨terrs ++ missingTabErrs sn rid ts, by rw [← h.2, List.append_assoc]⟩
      · rw [if_neg h2] at h
        cases hE : parseResultTabs wb (encTab rid) ts with
        | error e => rw [hE] at h; exact absurd h (by simp)
        | ok qe =>
          obtain ⟨encT, encE⟩ := qe
          rw [hE] at h
          dsimp only at h
          cases hR : parseResultTabs wb (rewTab rid) ts with
          | error e => rw [hR] at h; exact absurd h (by simp)
          | ok qr =>
            obtain ⟨rewT, rewE⟩ := qr
            rw [hR] at h
            dsimp only at h
            by_cases h3 : errs0 ++ terrs ++ missingTabErrs sn rid ts ++ encE ++ rewE ≠ []
            · rw [if_pos h3] at h
              simp only [Except.ok.injEq, Prod.mk.injEq] at h
              refine ⟨terrs ++ missingTabErrs sn rid ts ++ encE ++ rewE, ?_⟩
              rw [← h.2]
              simp [List.append_assoc]
            · rw [if_neg h3] at h
              simp only [Except.ok.injEq, Prod.mk.injEq] at h
              refine ⟨terrs ++ missingTabErrs sn rid ts ++ encE ++ rewE, ?_⟩
              rw [← h.2]
              simp [List.append_assoc]

/-- A region-loop body that ends with an empty error list started with none,
appended a region blob, and every stage of it succeeded with no errors. -/
theorem parseRegionPhase_ok_nil (wb : Workbook) (sn : List String)
    (errs0 : List ImportError) (rid : Option Int) (b? : Option RegionParse)
    (h : parseRegionPhase wb sn errs0 rid = .ok (b?, [])) :
    errs0 = [] ∧ ∃ blob, b? = some blob ∧ blob.region_id = rid ∧
      parseTypeTab wb (encTypeTab rid) =
        .ok (blob.typesMode, blob.types, blob.typesMax, []) ∧
      missingTabErrs sn rid blob.types = [] ∧
      parseResultTabs wb (encTab rid) blob.types = .ok (blob.encTables, []) ∧
      parseResultTabs wb (rewTab rid) blob.types = .ok (blob.rewTables, []) := by
  unfold parseRegionPhase at h
  cases hT : parseTypeTab wb (encTypeTab rid) with
  | error e => rw [hT] at h; exact absurd h (by simp)
  | ok q =>
    obtain ⟨tm, ts, tmx, terrs⟩ := q
    rw [hT] at h
    dsimp only at h
    by_cases h1 : terrs ≠ []
    · rw [if_pos h1] at h
      simp only [Except.ok.injEq, Prod.mk.injEq] at h
      obtain ⟨he1, he2⟩ := List.append_eq_nil.mp h.2
      exact absurd he2 h1
    · rw [if_neg h1] at h
      have hteq : terrs = [] := not_not.mp h1
      by_cases h2 : errs0 ++ terrs ++ missingTabErrs sn rid ts ≠ []
      · rw [if_pos h2] at h
        simp only [Except.ok.injEq, Prod.mk.injEq] at h
        exact absurd h.2 h2
      · rw [if_neg h2] at h
        have h2' : errs0 ++ terrs ++ missingTabErrs sn rid ts = [] := not_not.mp h2
        obtain ⟨h01, hmiss⟩ := List.append_eq_nil.mp h2'
        obtain ⟨h0, _⟩ := List.append_eq_nil.mp h01
        cases hE : parseResultTabs wb (encTab rid) ts with
        | error e => rw [hE] at h; exact absurd h (by simp)
        | ok qe =>
          obtain ⟨encT, encE⟩ := qe
          rw [hE] at h
          dsimp only at h
          cases hR : parseResultTabs wb (rewTab rid) ts with
          | error e => rw [hR] at h; exact absurd h (by simp)
          | ok qr =>
            obtain ⟨rewT, rewE⟩ := qr
            rw [hR] at h
            dsimp only at h
            by_cases h3 : errs0 ++ terrs ++ missingTabErrs sn rid ts ++ encE ++ rewE ≠ []
            · rw [if_pos h3] at h
              simp only [Except.ok.injEq, Prod.mk.injEq] at h
              exact absurd h.2 h3
            · rw [if_neg h3] at h
              have h3' : errs0 ++ terrs ++ missingTabErrs sn rid ts ++ encE ++ rewE = [] :=
                not_not.mp h3
              obtain ⟨h34, hrew⟩ := List.append_eq_nil.mp h3'
              obtain ⟨_, henc⟩ := List.append_eq_nil.mp h34
              simp only [Except.ok.injEq, Prod.mk.injEq] at h
              obtain ⟨hblob, _⟩ := h
              refine ⟨h0, ⟨rid, tm, tmx, ts, encT, rewT⟩, hblob.symm, rfl, ?_, ?_, ?_, ?_⟩
              · rw [hteq]
              · exact hmiss
              · rw [henc] at hE
                exact hE
              · rw [hrew] at hR
                exact hR

/-- Reassembly of the region-loop body from its per-stage successes. -/
theorem parseRegionPhase_build (wb : Workbook) (sn : List String)
    (rid : Option Int) (blob : RegionParse) (hb : blob.region_id = rid)
    (ht : parseTypeTab wb (encTypeTab rid) =
      .ok (blob.typesMode, blob.types, blob.typesMax, []))
    (hmiss : missingTabErrs sn rid blob.types = [])
    (he : parseResultTabs wb (encTab rid) blob.types = .ok (blob.encTables, []))
    (hr : parseResultTabs wb (rewTab rid) blob.types = .ok (blob.rewTables, [])) :
    parseRegionPhase wb sn [] rid = .ok (some blob, []) := by
  obtain ⟨brid, btm, btmx, bts, bet, brt⟩ := blob
  dsimp only at hb ht hmiss he hr
  subst hb
  unfold parseRegionPhase
  rw [ht]
  dsimp only
  rw [if_neg (by simp : ¬(([] : List ImportError) ≠ []))]
  rw [hmiss]
  rw [if_neg (by simp : ¬(([] : List ImportError) ++ [] ++ [] ≠ []))]
  rw [he]
  dsimp only
  rw [hr]
  dsimp only
  rw [if_neg (by simp : ¬(([] : List ImportError) ++ [] ++ [] ++ [] ++ [] ≠ []))]
  rfl

/-- A whole region loop ending with an empty error list started with none and
produced exactly one successfully parsed blob per region id, in order. -/
theorem parseAllRegions_ok_nil (wb : Workbook) (sn : List String) :
    ∀ (rids : List (Option Int)) (errs0 : List ImportError)
      (blobs : List RegionParse),
    parseAllRegions wb sn rids errs0 = .ok (blobs, []) →
    errs0 = [] ∧ List.Forall₂ (fun rid b =>
      parseRegionPhase wb sn [] rid = .ok (some b, [])) rids blobs := by
  intro rids
  induction rids with
  | nil =>
    intro errs0 blobs h
    rw [parseAllRegions] at h
    simp only [Except.ok.injEq, Prod.mk.injEq] at h
    refine ⟨h.2, ?_⟩
    rw [← h.1]
    exact List.Forall₂.nil
  | cons rid rest ih =>
    intro errs0 blobs h
    rw [parseAllRegions] at h
    cases hP : parseRegionPhase wb sn errs0 rid with
    | error e => rw [hP] at h; exact absurd h (by simp)
    | ok q =>
      obtain ⟨b?, errs'⟩ := q
      rw [hP] at h
      dsimp only at h
      cases hA : parseAllRegions wb sn rest errs' with
      | error e => rw [hA] at h; exact absurd h (by simp)
      | ok qa =>
        obtain ⟨blobs', errs''⟩ := qa
        rw [hA] at h
        dsimp only at h
        cases b? with
        | none =>
          dsimp only at h
          simp only [Except.ok.injEq, Prod.mk.injEq] at h
          obtain ⟨hb, he⟩ := h
          obtain ⟨herrs', hall⟩ := ih errs' blobs' (by rw [hA, he])
          rw [herrs'] at hP
          obtain ⟨_, blob, hbb, _⟩ := parseRegionPhase_ok_nil wb sn errs0 rid none hP
          exact absurd hbb (by simp)
        | some blob =>
          dsimp only at h
          simp only [Except.ok.injEq, Prod.mk.injEq] at h
          obtain ⟨hb, he⟩ := h
          obtain ⟨herrs', hall⟩ := ih errs' blobs' (by rw [hA, he])
          rw [herrs'] at hP
          obtain ⟨h0, _⟩ := parseRegionPhase_ok_nil wb sn errs0 rid (some blob) hP
          refine ⟨h0, ?_⟩
          rw [← hb]
          rw [h0] at hP
          exact List.Forall₂.cons hP hall

/-- Reassembly of the whole region loop from per-region successes. -/
theorem parseAllRegions_build (wb : Workbook) (sn : List String) :
    ∀ (rids : List (Option Int)) (blobs : List RegionParse),
    List.Forall₂ (fun rid b =>
      parseRegionPhase wb sn [] rid = .ok (some b, [])) rids blobs →
    parseAllRegions wb sn rids [] = .ok (blobs, []) := by
  intro rids
  induction rids with
  | nil =>
    intro blobs h
    cases h
    rfl
  | cons rid rest ih =>
    intro blobs h
    cases h with
    | cons h1 h2 =>
      rw [parseAllRegions, h1]
      dsimp only
      rw [ih _ h2]

/-- When a workbook has no `Regions` sheet, the regions tab parse is empty. -/
theorem parseRegionsTab_of_no_sheet (wb : Workbook)
    (hs : hasSheet wb "Regions" = false) : parseRegionsTab wb = ([], []) := by
  have hfs : findSheet wb "Regions" = none := by
    apply findSheet_none
    intro s hmem hname
    have : hasSheet wb "Regions" = true := (hasSheet_iff wb "Regions").mpr ⟨s, hmem, hname⟩
    rw [hs] at this
    cases this
  unfold parseRegionsTab
  rw [hfs]

/-- A phase-1 run ending with an empty error list decomposes into: the
regional flag, a clean regions parse, and one clean region-phase success per
region id. -/
theorem importParse_ok_nil (wb : Workbook) (pp : ParsePhase)
    (h : importParse wb = .ok pp) (hnil : pp.errors = []) :
    pp.regionalMode = hasSheet wb "Regions" ∧
    ((pp.regionalMode = true ∧ parseRegionsTab wb = (pp.regions, []) ∧
        pp.regions ≠ []) ∨
     (pp.regionalMode = false ∧ pp.regions = [])) ∧
    List.Forall₂ (fun rid b =>
      parseRegionPhase wb (sheetNames wb) [] rid = .ok (some b, []))
      (if pp.regionalMode = true then pp.regions.map (fun p => some p.1) else [none])
      pp.parsed := by
  unfold importParse at h
  rcases hreg : parseRegionsTab wb with ⟨regions, regionErrs⟩
  rw [hreg] at h
  dsimp only at h
  by_cases h1 : (hasSheet wb "Regions" = true) ∧ regionErrs ≠ []
  · rw [if_pos h1] at h
    cases h
    dsimp only at hnil
    exact absurd hnil h1.2
  · rw [if_neg h1] at h
    by_cases h2 : (hasSheet wb "Regions" = true) ∧ regions = []
    · rw [if_pos h2] at h
      cases h
      dsimp only at hnil
      exact absurd hnil (by simp)
    · rw [if_neg h2] at h
      cases hpar : parseAllRegions wb (sheetNames wb)
        (if hasSheet wb "Regions" = true then regions.map (fun p => some p.1)
         else [none]) regionErrs with
      | error e =>
        rw [hpar] at h
        exact absurd h (by simp)
      | ok pr =>
        obtain ⟨parsed, errs⟩ := pr
        rw [hpar] at h
        dsimp only at h
        cases h
        dsimp only at hnil
        subst hnil
        obtain ⟨hre, hall⟩ := parseAllRegions_ok_nil wb (sheetNames wb) _ regionErrs
          parsed hpar
        refine ⟨rfl, ?_, ?_⟩
        · by_cases hrm : hasSheet wb "Regions" = true
          · left
            refine ⟨hrm, ?_, ?_⟩
            · rw [hre]
            · intro hempty
              exact h2 ⟨hrm, hempty⟩
          · right
            have hsf : hasSheet wb "Regions" = false := by simpa using hrm
            have hregs0 := parseRegionsTab_of_no_sheet wb hsf
            rw [hreg] at hregs0
            have hr0 : regions = [] := by
              injection hregs0 with hr1 hr2
            exact ⟨hsf, hr0⟩
        · exact hall

/-- Reassembly of phase 1 in default (non-regional) mode. -/
theorem importParse_build_default (wb : Workbook)
    (hs : hasSheet wb "Regions" = false) (blob : RegionParse)
    (hphase : parseRegionPhase wb (sheetNames wb) [] none = .ok (some blob, [])) :
    importParse wb = .ok ⟨false, [], [blob], []⟩ := by
  have hregs := parseRegionsTab_of_no_sheet wb hs
  unfold importParse
  rw [hregs]
  dsimp only
  rw [hs]
  rw [if_neg (by simp)]
  rw [if_neg (by simp)]
  simp only [Bool.false_eq_true, if_false]
  rw [parseAllRegions_build wb (sheetNames wb) [none] [blob]
    (List.Forall₂.cons hphase List.Forall₂.nil)]

/-- Reassembly of phase 1 in regional mode. -/
theorem importParse_build_regional (wb : Workbook)
    (regions : List (Int × String)) (blobs : List RegionParse)
    (hs : hasSheet wb "Regions" = true)
    (hregs : parseRegionsTab wb = (regions, []))
    (hne : regions ≠ [])
    (hall : List.Forall₂ (fun rid b =>
      parseRegionPhase wb (sheetNames wb) [] rid = .ok (some b, []))
      (regions.map (fun p => some p.1)) blobs) :
    importParse wb = .ok ⟨true, regions, blobs, []⟩ := by
  unfold importParse
  rw [hregs]
  dsimp only
  rw [hs]
  rw [if_neg (by simp)]
  rw [if_neg (by simp [hne])]
  simp only [if_true]
  rw [parseAllRegions_build wb (sheetNames wb) _ blobs hall]

/-! ## C1: dedup, key and regions-parse invariants -/

theorem contains_iff_mem (l : List String) (x : String) :
    l.contains x = true ↔ x ∈ l := by
  simp

theorem dedupFirstAux_mem : ∀ (l seen : List String) (x : String),
    x ∈ dedupFirstAux seen l ↔ x ∈ l ∧ x ∉ seen := by
  intro l
  induction l with
  | nil => intro seen x; simp [dedupFirstAux]
  | cons a t ih =>
    intro seen x
    rw [dedupFirstAux]
    by_cases ha : seen.contains a = true
    · rw [if_pos ha]
      rw [ih]
      simp only [List.mem_cons]
      constructor
      · rintro ⟨hx, hnx⟩
        exact ⟨Or.inr hx, hnx⟩
      · rintro ⟨hor, hnx⟩
        rcases hor with rfl | hx
        · exact absurd ((contains_iff_mem seen x).mp ha) hnx
        · exact ⟨hx, hnx⟩
    · rw [if_neg ha]
      simp only [List.mem_cons, ih, List.mem_cons]
      constructor
      · rintro (rfl | ⟨hx, hnx⟩)
        · exact ⟨Or.inl rfl, fun hm =>
            ha ((contains_iff_mem seen x).mpr hm)⟩
        · simp only [List.mem_cons, not_or] at hnx
          exact ⟨Or.inr hx, hnx.2⟩
      · rintro ⟨rfl | hx, hnx⟩
        · exact Or.inl rfl
        · by_cases hxa : x = a
          · exact Or.inl hxa
          · exact Or.inr ⟨hx, by simp [hxa, hnx]⟩

theorem dedupFirst_mem (l : List String) (x : String) :
    x ∈ dedupFirst l ↔ x ∈ l := by
  unfold dedupFirst
  rw [dedupFirstAux_mem]
  simp

theorem dedupFirstAux_nodup : ∀ (l seen : List String),
    (dedupFirstAux seen l).Nodup := by
  intro l
  induction l with
  | nil => intro seen; exact List.nodup_nil
  | cons a t ih =>
    intro seen
    rw [dedupFirstAux]
    by_cases ha : seen.contains a = true
    · rw [if_pos ha]
      exact ih seen
    · rw [if_neg ha]
      refine List.nodup_cons.mpr ⟨?_, ih (a :: seen)⟩
      intro hmem
      have := (dedupFirstAux_mem t (a :: seen) a).mp hmem
      exact this.2 (by simp)

theorem dedupFirst_nodup (l : List String) : (dedupFirst l).Nodup :=
  dedupFirstAux_nodup l []

/-- The keys of the tables produced by a clean result-tab loop are exactly
the types, in order. -/
theorem forall₂_keys {wb : Workbook} {mk : String → String} :
    ∀ {types : List String} {tbls : List (String × TableParse)},
    List.Forall₂ (fun t p => p.1 = t ∧
      parseResultTab wb (mk t) = .ok (p.2.mode, p.2.entries, p.2.maxRoll, []))
      types tbls →
    tbls.map Prod.fst = types := by
  intro types
  induction types with
  | nil =>
    intro tbls h
    cases h
    rfl
  | cons t rest ih =>
    intro tbls h
    cases h with
    | cons h1 h2 =>
      simp only [List.map_cons, ih h2, h1.1]

theorem contains_iff_mem' (l : List Int) (x : Int) :
    l.contains x = true ↔ x ∈ l := by
  simp

/-- The rows kept by the regions-tab loop: positive, strip-fixed non-empty
names, ids distinct and outside `seen`. -/
theorem regionsRowsAux_inv : ∀ (data : List (Nat × List Cell)) (seen : List Int)
    (ridIdx nameIdx : Nat),
    (∀ p ∈ (regionsRowsAux seen ridIdx nameIdx data).1,
      0 < p.1 ∧ p.2 ≠ "" ∧ pyStrip p.2 = p.2 ∧ p.1 ∉ seen) ∧
    ((regionsRowsAux seen ridIdx nameIdx data).1.map Prod.fst).Nodup := by
  intro data
  induction data with
  | nil => intro seen ridIdx nameIdx; exact ⟨by simp [regionsRowsAux], by simp [regionsRowsAux]⟩
  | cons rr rest ih =>
    intro seen ridIdx nameIdx
    rw [regionsRowsAux]
    cases hri : to_int (getCell rr.2 ridIdx) with
    | none =>
      dsimp only
      rcases hrec : regionsRowsAux seen ridIdx nameIdx rest with ⟨rs, es⟩
      have := ih seen ridIdx nameIdx
      rw [hrec] at this
      exact this
    | some rid =>
      dsimp only
      by_cases h1 : rid ≤ 0
      · rw [if_pos h1]
        rcases hrec : regionsRowsAux seen ridIdx nameIdx rest with ⟨rs, es⟩
        have := ih seen ridIdx nameIdx
        rw [hrec] at this
        exact this
      · rw [if_neg h1]
        by_cases h2 : cellStr (getCell rr.2 nameIdx) = ""
        · rw [if_pos h2]
          rcases hrec : regionsRowsAux seen ridIdx nameIdx rest with ⟨rs, es⟩
          have := ih seen ridIdx nameIdx
          rw [hrec] at this
          exact this
        · rw [if_neg h2]
          by_cases h3 : seen.contains rid = true
          · rw [if_pos h3]
            rcases hrec : regionsRowsAux seen ridIdx nameIdx rest with ⟨rs, es⟩
            have := ih seen ridIdx nameIdx
            rw [hrec] at this
            exact this
          · rw [if_neg h3]
            rcases hrec : regionsRowsAux (rid :: seen) ridIdx nameIdx rest with ⟨rs, es⟩
            have hrest := ih (rid :: seen) ridIdx nameIdx
            rw [hrec] at hrest
            dsimp only
            constructor
            · intro p hp
              rcases List.mem_cons.mp hp with rfl | hp'
              · refine ⟨by omega, h2, cellStr_strip_fix _, ?_⟩
                intro hmem
                exact h3 ((contains_iff_mem' seen rid).mpr hmem)
              · obtain ⟨hpos, hne, hfix, hnotin⟩ := hrest.1 p hp'
                refine ⟨hpos, hne, hfix, ?_⟩
                intro hmem
                exact hnotin (by simp [hmem])
            · rw [List.map_cons]
              refine List.nodup_cons.mpr ⟨?_, hrest.2⟩
              intro hmem
              obtain ⟨q, hq, hq2⟩ := List.mem_map.mp hmem
              have := (hrest.1 q hq).2.2.2
              rw [hq2] at this
              exact this (by simp)


/-- The regions-tab parse keeps only positive ids with strip-fixed non-empty
names, and the kept ids are distinct. -/
theorem parseRegionsTab_inv (wb : Workbook) :
    (∀ p ∈ (parseRegionsTab wb).1, 0 < p.1 ∧ p.2 ≠ "" ∧ pyStrip p.2 = p.2) ∧
    ((parseRegionsTab wb).1.map Prod.fst).Nodup := by
  unfold parseRegionsTab
  cases hfs : findSheet wb "Regions" with
  | none => exact ⟨by simp, by simp⟩
  | some ws =>
    dsimp only
    rcases hrs : readSheetRows ws with ⟨hm, data⟩
    dsimp only
    by_cases hc : (hmFind hm "region_id").isNone ∨ (hmFind hm "region_name").isNone
    · rw [if_pos hc]
      exact ⟨by simp, by simp⟩
    · rw [if_neg hc]
      have h := regionsRowsAux_inv data [] ((hmFind hm "region_id").getD 0)
        ((hmFind hm "region_name").getD 0)
      exact ⟨fun p hp => ⟨(h.1 p hp).1, (h.1 p hp).2.1, (h.1 p hp).2.2.1⟩, h.2⟩

/-! ## C1: injectivity of the regional sheet-naming convention -/

theorem digitChar_ne_space (d : Nat) : digitChar d ≠ ' ' := by
  unfold digitChar
  split_ifs <;> decide

theorem space_notin_natStr (n : Nat) : ' ' ∉ (natStr n).data := by
  intro hmem
  obtain ⟨d, _, hd⟩ := (natStr_data_digits n).2 ' ' hmem
  exact digitChar_ne_space d hd.symm

theorem space_notin_intStr (n : Int) : ' ' ∉ (intStr n).data := by
  unfold intStr
  split_ifs with h
  · rw [String.data_append]
    intro hmem
    rcases List.mem_append.mp hmem with h1 | h2
    · have : ("-" : String).data = ['-'] := rfl
      rw [this] at h1
      simp at h1
    · exact space_notin_natStr _ h2
  · exact space_notin_natStr _

/-- Splitting two equal lists at the first occurrence of a separator that
appears in neither prefix. -/
theorem append_sep_inj : ∀ (xs ys u v : List Char) (c : Char),
    xs ++ c :: u = ys ++ c :: v → c ∉ xs → c ∉ ys → xs = ys ∧ u = v := by
  intro xs
  induction xs with
  | nil =>
    intro ys u v c h hx hy
    cases ys with
    | nil =>
      simp only [List.nil_append] at h
      exact ⟨rfl, (List.cons.injEq _ _ _ _ ▸ h).2⟩
    | cons y ys' =>
      simp only [List.nil_append, List.cons_append, List.cons.injEq] at h
      exact absurd (h.1.symm ▸ (by simp : y ∈ y :: ys')) (h.1 ▸ hy)
  | cons x xs' ih =>
    intro ys u v c h hx hy
    cases ys with
    | nil =>
      simp only [List.cons_append, List.nil_append, List.cons.injEq] at h
      exact absurd (by simp [h.1] : c ∈ x :: xs') hx
    | cons y ys' =>
      simp only [List.cons_append, List.cons.injEq] at h
      obtain ⟨hxy, hrest⟩ := h
      have hx' : c ∉ xs' := fun hm => hx (by simp [hm])
      have hy' : c ∉ ys' := fun hm => hy (by simp [hm])
      obtain ⟨h1, h2⟩ := ih ys' u v c hrest hx' hy'
      exact ⟨by rw [hxy, h1], h2⟩

theorem encTab_some_inj {r r' : Int} {t t' : String}
    (h : encTab (some r) t = encTab (some r') t') : r = r' ∧ t = t' := by
  unfold encTab at h
  have hd := congrArg String.data h
  have hL : ∀ (a : Int) (s : String),
      ("Encounter - " ++ intStr a ++ " - " ++ s).data =
      "Encounter - ".data ++ ((intStr a).data ++ (' ' :: '-' :: ' ' :: s.data)) := by
    intro a s
    rw [String.data_append ("Encounter - " ++ intStr a ++ " - ") s,
      String.data_append ("Encounter - " ++ intStr a) " - ",
      String.data_append "Encounter - " (intStr a)]
    rw [List.append_assoc, List.append_assoc]
    rfl
  rw [hL, hL] at hd
  have hd2 := List.append_cancel_left hd
  obtain ⟨h1, h2⟩ := append_sep_inj _ _ _ _ ' ' hd2
    (space_notin_intStr r) (space_notin_intStr r')
  have ht : t = t' := by
    injection h2 with hh h3
    injection h3 with hh2 h4
    exact String.ext h4
  exact ⟨intStr_inj (String.ext h1), ht⟩

theorem rewTab_some_inj {r r' : Int} {t t' : String}
    (h : rewTab (some r) t = rewTab (some r') t') : r = r' ∧ t = t' := by
  unfold rewTab at h
  have hd := congrArg String.data h
  have hL : ∀ (a : Int) (s : String),
      ("Reward - " ++ intStr a ++ " - " ++ s).data =
      "Reward - ".data ++ ((intStr a).data ++ (' ' :: '-' :: ' ' :: s.data)) := by
    intro a s
    rw [String.data_append ("Reward - " ++ intStr a ++ " - ") s,
      String.data_append ("Reward - " ++ intStr a) " - ",
      String.data_append "Reward - " (intStr a)]
    rw [List.append_assoc, List.append_assoc]
    rfl
  rw [hL, hL] at hd
  have hd2 := List.append_cancel_left hd
  obtain ⟨h1, h2⟩ := append_sep_inj _ _ _ _ ' ' hd2
    (space_notin_intStr r) (space_notin_intStr r')
  have ht : t = t' := by
    injection h2 with hh h3
    injection h3 with hh2 h4
    exact String.ext h4
  exact ⟨intStr_inj (String.ext h1), ht⟩

/-! ## C1: locating stored tables in the replaced store -/

theorem find?_append_left_none {α : Type} (p : α → Bool) (l1 l2 : List α)
    (h : ∀ x ∈ l1, p x = false) : (l1 ++ l2).find? p = l2.find? p := by
  rw [List.find?_append]
  have h0 : l1.find? p = none := by
    rw [List.find?_eq_none]
    intro x hx
    simp [h x hx]
  rw [h0]
  rfl

/-- Every table inserted for a blob carries the blob's region id. -/
theorem tablesOfBlob_region_id (wb : Workbook) (b : RegionParse) :
    ∀ td ∈ tablesOfBlob wb b, td.region_id = b.region_id := by
  intro td htd
  unfold tablesOfBlob at htd
  rcases List.mem_cons.mp htd with rfl | hm
  · rfl
  · obtain ⟨pp, hpp, hin⟩ := List.mem_flatMap.mp hm
    rw [List.mem_cons, List.mem_singleton] at hin
    rcases hin with rfl | rfl
    · rfl
    · rfl

/-- Finding a table among the tables of a blob list when the blob region ids
are distinct: only the owning blob's segment can match. -/
theorem find?_blobs (wb : Workbook) (blobs : List RegionParse) (b : RegionParse)
    (td : TableDef) (p : TableDef → Bool)
    (hmem : b ∈ blobs)
    (hnd : (blobs.map RegionParse.region_id).Nodup)
    (hskip : ∀ b' : RegionParse, b'.region_id ≠ b.region_id →
      ∀ td' ∈ tablesOfBlob wb b', p td' = false)
    (hself : (tablesOfBlob wb b).find? p = some td) :
    (blobs.flatMap (tablesOfBlob wb)).find? p = some td := by
  obtain ⟨l1, l2, rfl⟩ := List.append_of_mem hmem
  rw [List.flatMap_append l1 (b :: l2) (tablesOfBlob wb)]
  rw [find?_append_left_none]
  · rw [List.flatMap_cons, List.find?_append, hself]
    rfl
  · intro td' htd'
    obtain ⟨b', hb', hin⟩ := List.mem_flatMap.mp htd'
    apply hskip b' ?_ td' hin
    intro heq
    rw [List.map_append, List.map_cons] at hnd
    have hdisj := List.disjoint_of_nodup_append hnd
    have hmm : b'.region_id ∈ l1.map RegionParse.region_id :=
      List.mem_map_of_mem _ hb'
    rw [heq] at hmm
    exact hdisj hmm (by simp)

/-- Finding the encounter table of type `t` among a blob's zipped typed
tables. -/
theorem find?_enc_zip (rid : Option Int) :
    ∀ (ets rts : List (String × TableParse)) (t : String) (tp : TableParse),
    ets.map Prod.fst = rts.map Prod.fst →
    (ets.map Prod.fst).Nodup →
    (t, tp) ∈ ets →
    ((ets.zip rts).flatMap (fun pp =>
      ([⟨"encounter", rid, some pp.1.1, pp.1.2.mode, pp.1.2.maxRoll, pp.1.2.entries⟩,
        ⟨"reward", rid, some pp.2.1, pp.2.2.mode, pp.2.2.maxRoll, pp.2.2.entries⟩] :
        List TableDef))).find?
      (fun td => td.group_key == "encounter" && td.region_id == rid &&
        td.type_key == some t) =
      some ⟨"encounter", rid, some t, tp.mode, tp.maxRoll, tp.entries⟩ := by
  intro ets
  induction ets with
  | nil =>
    intro rts t tp _ _ hmem
    simp at hmem
  | cons e ets' ih =>
    intro rts t tp hkeys hnd hmem
    cases rts with
    | nil => simp at hkeys
    | cons r rts' =>
      simp only [List.map_cons, List.cons.injEq] at hkeys
      obtain ⟨hk1, hk2⟩ := hkeys
      rw [List.zip_cons_cons, List.flatMap_cons]
      obtain ⟨te, tpe⟩ := e
      obtain ⟨tr, tpr⟩ := r
      by_cases hte : te = t
      · subst hte
        have htpe : tpe = tp := by
          rcases List.mem_cons.mp hmem with heq | hmem'
          · injection heq with h1 h2
            exact h2.symm
          · exfalso
            have : te ∈ ets'.map Prod.fst := by
              have := List.mem_map_of_mem Prod.fst hmem'
              simpa using this
            exact (List.nodup_cons.mp (by simpa using hnd)).1 this
        subst htpe
        rw [List.cons_append]
        rw [List.find?_cons_of_pos _ (by simp)]
      · rw [List.cons_append, List.find?_cons_of_neg _ (by simp [hte]),
          List.cons_append, List.nil_append,
          List.find?_cons_of_neg _ (by simp)]
        apply ih rts' t tp hk2 (by simpa using (List.nodup_cons.mp (by simpa using hnd)).2)
        rcases List.mem_cons.mp hmem with heq | hmem'
        · injection heq with h1 h2
          exact absurd h1.symm hte
        · exact hmem'

/-- Finding the reward table of type `t` among a blob's zipped typed tables. -/
theorem find?_rew_zip (rid : Option Int) :
    ∀ (ets rts : List (String × TableParse)) (t : String) (tp : TableParse),
    ets.map Prod.fst = rts.map Prod.fst →
    (ets.map Prod.fst).Nodup →
    (t, tp) ∈ rts →
    ((ets.zip rts).flatMap (fun pp =>
      ([⟨"encounter", rid, some pp.1.1, pp.1.2.mode, pp.1.2.maxRoll, pp.1.2.entries⟩,
        ⟨"reward", rid, some pp.2.1, pp.2.2.mode, pp.2.2.maxRoll, pp.2.2.entries⟩] :
        List TableDef))).find?
      (fun td => td.group_key == "reward" && td.region_id == rid &&
        td.type_key == some t) =
      some ⟨"reward", rid, some t, tp.mode, tp.maxRoll, tp.entries⟩ := by
  intro ets
  induction ets with
  | nil =>
    intro rts t tp hkeys _ hmem
    cases rts with
    | nil => simp at hmem
    | cons r rts' => simp at hkeys
  | cons e ets' ih =>
    intro rts t tp hkeys hnd hmem
    cases rts with
    | nil => simp at hkeys
    | cons r rts' =>
      simp only [List.map_cons, List.cons.injEq] at hkeys
      obtain ⟨hk1, hk2⟩ := hkeys
      rw [List.zip_cons_cons, List.flatMap_cons]
      obtain ⟨te, tpe⟩ := e
      obtain ⟨tr, tpr⟩ := r
      dsimp only at hk1
      by_cases htr : tr = t
      · subst htr
        have htpr : tpr = tp := by
          rcases List.mem_cons.mp hmem with heq | hmem'
          · injection heq with h1 h2
            exact h2.symm
          · exfalso
            have hmm : tr ∈ rts'.map Prod.fst := by
              have := List.mem_map_of_mem Prod.fst hmem'
              simpa using this
            rw [← hk2] at hmm
            have hnd2 : (te :: ets'.map Prod.fst).Nodup := by simpa using hnd
            rw [hk1] at hnd2
            exact (List.nodup_cons.mp hnd2).1 hmm
        subst htpr
        rw [List.cons_append, List.find?_cons_of_neg _ (by simp),
          List.cons_append, List.nil_append,
          List.find?_cons_of_pos _ (by simp)]
      · rw [List.cons_append, List.find?_cons_of_neg _ (by simp),
          List.cons_append, List.nil_append,
          List.find?_cons_of_neg _ (by simp [htr])]
        apply ih rts' t tp hk2 (by simpa using (List.nodup_cons.mp (by simpa using hnd)).2)
        rcases List.mem_cons.mp hmem with heq | hmem'
        · injection heq with h1 h2
          exact absurd h1.symm htr
        · exact hmem'

/-- Fetching a blob's `encounter_type` table from the replaced store. -/
theorem fetch_encType_blob (wb : Workbook) (regs : List (Int × String))
    (blobs : List RegionParse) (b : RegionParse) (hmem : b ∈ blobs)
    (hnd : (blobs.map RegionParse.region_id).Nodup) :
    fetchTableDef ⟨regs, blobs.flatMap (tablesOfBlob wb)⟩ "encounter_type"
      b.region_id none =
    some ⟨"encounter_type", b.region_id, none, b.typesMode, b.typesMax,
      buildTypeEntriesFromSheet wb b.region_id⟩ := by
  unfold fetchTableDef
  dsimp only
  apply find?_blobs wb blobs b _ _ hmem hnd
  · intro b' hne td' htd'
    have hrid := tablesOfBlob_region_id wb b' td' htd'
    simp [hrid, hne]
  · unfold tablesOfBlob
    rw [List.find?_cons_of_pos _ (by simp)]

/-- Fetching a blob's per-type `encounter` table from the replaced store. -/
theorem fetch_enc_blob (wb : Workbook) (regs : List (Int × String))
    (blobs : List RegionParse) (b : RegionParse) (hmem : b ∈ blobs)
    (hnd : (blobs.map RegionParse.region_id).Nodup)
    (hkeys : b.encTables.map Prod.fst = b.rewTables.map Prod.fst)
    (hndk : (b.encTables.map Prod.fst).Nodup)
    (t : String) (tp : TableParse) (htp : (t, tp) ∈ b.encTables) :
    fetchTableDef ⟨regs, blobs.flatMap (tablesOfBlob wb)⟩ "encounter"
      b.region_id (some t) =
    some ⟨"encounter", b.region_id, some t, tp.mode, tp.maxRoll, tp.entries⟩ := by
  unfold fetchTableDef
  dsimp only
  apply find?_blobs wb blobs b _ _ hmem hnd
  · intro b' hne td' htd'
    have hrid := tablesOfBlob_region_id wb b' td' htd'
    simp [hrid, hne]
  · unfold tablesOfBlob
    rw [List.find?_cons_of_neg _ (by simp)]
    exact find?_enc_zip b.region_id b.encTables b.rewTables t tp hkeys hndk htp

/-- Fetching a blob's per-type `reward` table from the replaced store. -/
theorem fetch_rew_blob (wb : Workbook) (regs : List (Int × String))
    (blobs : List RegionParse) (b : RegionParse) (hmem : b ∈ blobs)
    (hnd : (blobs.map RegionParse.region_id).Nodup)
    (hkeys : b.encTables.map Prod.fst = b.rewTables.map Prod.fst)
    (hndk : (b.encTables.map Prod.fst).Nodup)
    (t : String) (tp : TableParse) (htp : (t, tp) ∈ b.rewTables) :
    fetchTableDef ⟨regs, blobs.flatMap (tablesOfBlob wb)⟩ "reward"
      b.region_id (some t) =
    some ⟨"reward", b.region_id, some t, tp.mode, tp.maxRoll, tp.entries⟩ := by
  unfold fetchTableDef
  dsimp only
  apply find?_blobs wb blobs b _ _ hmem hnd
  · intro b' hne td' htd'
    have hrid := tablesOfBlob_region_id wb b' td' htd'
    simp [hrid, hne]
  · unfold tablesOfBlob
    rw [List.find?_cons_of_neg _ (by simp)]
    exact find?_rew_zip b.region_id b.encTables b.rewTables t tp hkeys hndk htp

/-! ## C1: unwrapping found tabs and export helpers -/

theorem parseTypeTab_ok_nil (wb : Workbook) (tab m : String) (types : List String)
    (mx : Option Int) (h : parseTypeTab wb tab = .ok (m, types, mx, [])) :
    ∃ ws, findSheet wb tab = some ws ∧
      parseTypeSheet tab ws = .ok (m, types, mx, []) := by
  unfold parseTypeTab at h
  cases hfs : findSheet wb tab with
  | none =>
    rw [hfs] at h
    simp at h
  | some ws =>
    rw [hfs] at h
    exact ⟨ws, rfl, h⟩

theorem parseResultTab_ok_nil (wb : Workbook) (tab m : String) (es : List Entry)
    (mx : Option Int) (h : parseResultTab wb tab = .ok (m, es, mx, [])) :
    ∃ ws, findSheet wb tab = some ws ∧
      parseResultSheet tab ws = .ok (m, es, mx, []) := by
  unfold parseResultTab at h
  cases hfs : findSheet wb tab with
  | none =>
    rw [hfs] at h
    simp at h
  | some ws =>
    rw [hfs] at h
    exact ⟨ws, rfl, h⟩

/-- When every stored result is non-empty, the exported types list is exactly
the entry results. -/
theorem exportTypesOf_eq : ∀ (es : List Entry), (∀ e ∈ es, e.result ≠ "") →
    exportTypesOf es = es.map Entry.result := by
  intro es
  induction es with
  | nil => intro _; rfl
  | cons e es' ih =>
    intro h
    unfold exportTypesOf at ih ⊢
    rw [List.filterMap_cons]
    rw [if_neg (h e (by simp))]
    dsimp only
    rw [ih (fun x hx => h x (by simp [hx])), List.map_cons]

theorem forall₂_of_keys {β : Type} {R : String → (String × β) → Prop} :
    ∀ (tbls : List (String × β)), (∀ p ∈ tbls, R p.1 p) →
    List.Forall₂ R (tbls.map Prod.fst) tbls := by
  intro tbls
  induction tbls with
  | nil => intro _; exact List.Forall₂.nil
  | cons p tbls' ih =>
    intro h
    exact List.Forall₂.cons (h p (by simp)) (ih (fun q hq => h q (by simp [hq])))

theorem forall₂_imp_mem {α β : Type} {R S : α → β → Prop} :
    ∀ {l1 : List α} {l2 : List β}, List.Forall₂ R l1 l2 →
    (∀ a b, a ∈ l1 → b ∈ l2 → R a b → S a b) → List.Forall₂ S l1 l2 := by
  intro l1
  induction l1 with
  | nil =>
    intro l2 h _
    cases h
    exact List.Forall₂.nil
  | cons a l1' ih =>
    intro l2 h himp
    cases h with
    | cons h1 h2 =>
      exact List.Forall₂.cons
        (himp _ _ (by simp) (by simp) h1)
        (ih h2 (fun x y hx hy => himp x y (by simp [hx]) (by simp [hy])))

theorem forall₂_mem_left {α β : Type} {R : α → β → Prop} :
    ∀ {l1 : List α} {l2 : List β}, List.Forall₂ R l1 l2 →
    ∀ a ∈ l1, ∃ b ∈ l2, R a b := by
  intro l1
  induction l1 with
  | nil =>
    intro l2 _ a ha
    simp at ha
  | cons x l1' ih =>
    intro l2 h a ha
    cases h with
    | cons h1 h2 =>
      rcases List.mem_cons.mp ha with rfl | ha'
      · exact ⟨_, by simp, h1⟩
      · obtain ⟨b, hb, hr⟩ := ih h2 a ha'
        exact ⟨b, by simp [hb], hr⟩

theorem exportRegionBlock_eq (st : Store) (rid : Option Int) (etd : TableDef)
    (hfetch : fetchTableDef st "encounter_type" rid none = some etd) :
    exportRegionBlock st rid =
      addSheetForTable (encTypeTab rid) "type" etd.roll_mode etd.entries ::
      (exportTypesOf etd.entries).flatMap (exportTypedSheets st rid) := by
  unfold exportRegionBlock
  rw [hfetch]

theorem exportTypedSheets_eq (st : Store) (rid : Option Int) (t : String)
    (de dr : TableDef)
    (he : fetchTableDef st "encounter" rid (some t) = some de)
    (hr : fetchTableDef st "reward" rid (some t) = some dr) :
    exportTypedSheets st rid t =
      [addSheetForTable (encTab rid t) "result" de.roll_mode de.entries,
       addSheetForTable (rewTab rid t) "result" dr.roll_mode dr.entries] := by
  unfold exportTypedSheets
  rw [he, hr]
  rfl

theorem mem_exportTypedSheets (st : Store) (rid : Option Int) (t : String)
    (s : Sheet) (h : s ∈ exportTypedSheets st rid t) :
    (∃ d, fetchTableDef st "encounter" rid (some t) = some d ∧
      s = addSheetForTable (encTab rid t) "result" d.roll_mode d.entries) ∨
    (∃ d, fetchTableDef st "reward" rid (some t) = some d ∧
      s = addSheetForTable (rewTab rid t) "result" d.roll_mode d.entries) := by
  unfold exportTypedSheets at h
  rw [List.mem_append] at h
  rcases h with h | h
  · cases hf : fetchTableDef st "encounter" rid (some t) with
    | none => rw [hf] at h; simp at h
    | some d =>
      rw [hf] at h
      exact Or.inl ⟨d, rfl, by simpa using h⟩
  · cases hf : fetchTableDef st "reward" rid (some t) with
    | none => rw [hf] at h; simp at h
    | some d =>
      rw [hf] at h
      exact Or.inr ⟨d, rfl, by simpa using h⟩

theorem mem_exportRegionBlock (st : Store) (rid : Option Int) (s : Sheet)
    (h : s ∈ exportRegionBlock st rid) :
    (∃ etd, fetchTableDef st "encounter_type" rid none = some etd ∧
      s = addSheetForTable (encTypeTab rid) "type" etd.roll_mode etd.entries) ∨
    (∃ t d, fetchTableDef st "encounter" rid (some t) = some d ∧
      s = addSheetForTable (encTab rid t) "result" d.roll_mode d.entries) ∨
    (∃ t d, fetchTableDef st "reward" rid (some t) = some d ∧
      s = addSheetForTable (rewTab rid t) "result" d.roll_mode d.entries) := by
  unfold exportRegionBlock at h
  cases hf : fetchTableDef st "encounter_type" rid none with
  | none => rw [hf] at h; simp at h
  | some etd =>
    rw [hf] at h
    rcases List.mem_cons.mp h with rfl | h'
    · exact Or.inl ⟨etd, rfl, rfl⟩
    · obtain ⟨t, ht, hs⟩ := List.mem_flatMap.mp h'
      rcases mem_exportTypedSheets st rid t s hs with ⟨d, hd, rfl⟩ | ⟨d, hd, rfl⟩
      · exact Or.inr (Or.inl ⟨t, d, hd, rfl⟩)
      · exact Or.inr (Or.inr ⟨t, d, hd, rfl⟩)

theorem encSheet_mem_block (st : Store) (rid : Option Int) (t : String)
    (d etd : TableDef)
    (hft : fetchTableDef st "encounter_type" rid none = some etd)
    (ht : t ∈ exportTypesOf etd.entries)
    (hfe : fetchTableDef st "encounter" rid (some t) = some d) :
    addSheetForTable (encTab rid t) "result" d.roll_mode d.entries ∈
      exportRegionBlock st rid := by
  rw [exportRegionBlock_eq st rid etd hft]
  refine List.mem_cons_of_mem _ (List.mem_flatMap.mpr ⟨t, ht, ?_⟩)
  unfold exportTypedSheets
  rw [hfe]
  rw [List.mem_append]
  left
  simp

theorem rewSheet_mem_block (st : Store) (rid : Option Int) (t : String)
    (d etd : TableDef)
    (hft : fetchTableDef st "encounter_type" rid none = some etd)
    (ht : t ∈ exportTypesOf etd.entries)
    (hfr : fetchTableDef st "reward" rid (some t) = some d) :
    addSheetForTable (rewTab rid t) "result" d.roll_mode d.entries ∈
      exportRegionBlock st rid := by
  rw [exportRegionBlock_eq st rid etd hft]
  refine List.mem_cons_of_mem _ (List.mem_flatMap.mpr ⟨t, ht, ?_⟩)
  unfold exportTypedSheets
  rw [hfr]
  rw [List.mem_append]
  right
  simp

/-- Re-parsing the emitted Regions sheet reproduces the regions with no
errors. -/
theorem reparse_regions (regs : List (Int × String))
    (hinv : ∀ p ∈ regs, 0 < p.1 ∧ p.2 ≠ "" ∧ pyStrip p.2 = p.2)
    (hnd : (regs.map Prod.fst).Nodup) (rest : Workbook) :
    parseRegionsTab (regionsSheetOf regs :: rest) = (regs, []) := by
  unfold parseRegionsTab
  rw [findSheet_cons, if_pos (show (regionsSheetOf regs).name = "Regions" from rfl)]
  dsimp only
  have hrs : readSheetRows (regionsSheetOf regs) =
      (headerMap [Cell.cstr "region_id", Cell.cstr "region_name"],
        dataRowsAux 2 (regs.map (fun p => [Cell.cint p.1, Cell.cstr p.2]))) := rfl
  rw [hrs]
  dsimp only
  rw [if_neg (by decide :
    ¬((hmFind (headerMap [Cell.cstr "region_id", Cell.cstr "region_name"])
        "region_id").isNone = true ∨
      (hmFind (headerMap [Cell.cstr "region_id", Cell.cstr "region_name"])
        "region_name").isNone = true))]
  rw [show (hmFind (headerMap [Cell.cstr "region_id", Cell.cstr "region_name"])
      "region_id").getD 0 = 0 from by decide,
    show (hmFind (headerMap [Cell.cstr "region_id", Cell.cstr "region_name"])
      "region_name").getD 0 = 1 from by decide]
  exact regionsRowsAux_reconstruct regs [] 2 hinv hnd (by simp)

/-- Core per-blob round trip: when the original parse of a blob's tabs
succeeded cleanly and the exported workbook resolves each of the blob's tab
names to the sheet the exporter emitted for it, re-parsing those tabs from
the exported workbook reproduces the blob exactly, and phase 2 re-reads the
same type entries. -/
theorem blob_reimport (wb wb' : Workbook) (b : RegionParse)
    (hT : parseTypeTab wb (encTypeTab b.region_id) =
      .ok (b.typesMode, b.types, b.typesMax, []))
    (hE : parseResultTabs wb (encTab b.region_id) b.types = .ok (b.encTables, []))
    (hR : parseResultTabs wb (rewTab b.region_id) b.types = .ok (b.rewTables, []))
    (hfT : findSheet wb' (encTypeTab b.region_id) =
      some (addSheetForTable (encTypeTab b.region_id) "type" b.typesMode
        (buildTypeEntriesFromSheet wb b.region_id)))
    (hfE : ∀ t tp, (t, tp) ∈ b.encTables →
      findSheet wb' (encTab b.region_id t) =
        some (addSheetForTable (encTab b.region_id t) "result" tp.mode tp.entries))
    (hfR : ∀ t tp, (t, tp) ∈ b.rewTables →
      findSheet wb' (rewTab b.region_id t) =
        some (addSheetForTable (rewTab b.region_id t) "result" tp.mode tp.entries)) :
    parseTypeTab wb' (encTypeTab b.region_id) =
      .ok (b.typesMode, b.types, b.typesMax, []) ∧
    parseResultTabs wb' (encTab b.region_id) b.types = .ok (b.encTables, []) ∧
    parseResultTabs wb' (rewTab b.region_id) b.types = .ok (b.rewTables, []) ∧
    buildTypeEntriesFromSheet wb' b.region_id =
      buildTypeEntriesFromSheet wb b.region_id := by
  obtain ⟨ws, hfs, hps⟩ := parseTypeTab_ok_nil wb _ _ _ _ hT
  have hesdef : buildTypeEntriesFromSheet wb b.region_id =
      buildTypeEntriesSheet (encTypeTab b.region_id) ws := by
    unfold buildTypeEntriesFromSheet
    rw [hfs]
  obtain ⟨htys, htysne, hbundle⟩ := parseTypeSheet_ok_inv _ _ _ _ _ hps
  rw [← hesdef] at htys hbundle
  have hdedup_ne :
      dedupFirst ((buildTypeEntriesFromSheet wb b.region_id).map Entry.result) ≠ [] := by
    rw [← htys]
    exact htysne
  have hA : parseTypeTab wb' (encTypeTab b.region_id) =
      .ok (b.typesMode, b.types, b.typesMax, []) := by
    unfold parseTypeTab
    rw [hfT]
    dsimp only
    rcases hbundle with ⟨hm, hwf, hdisj, hmx⟩ | ⟨hm, hwf, hmx⟩ | ⟨hm, hwf, hmx⟩
    · rw [hm, htys, hmx]
      exact reparse_type_range _ _ hwf hdisj hdedup_ne
    · rw [hm, htys, hmx]
      exact reparse_type_weight _ _ hwf hdedup_ne
    · rw [hm, htys, hmx]
      exact reparse_type_uniform _ _ hwf hdedup_ne
  have hD : buildTypeEntriesFromSheet wb' b.region_id =
      buildTypeEntriesFromSheet wb b.region_id := by
    have hstep : buildTypeEntriesFromSheet wb' b.region_id =
        buildTypeEntriesSheet (encTypeTab b.region_id)
          (addSheetForTable (encTypeTab b.region_id) "type" b.typesMode
            (buildTypeEntriesFromSheet wb b.region_id)) := by
      conv_lhs => unfold buildTypeEntriesFromSheet
      rw [hfT]
    rw [hstep]
    rcases hbundle with ⟨hm, hwf, _, _⟩ | ⟨hm, hwf, _⟩ | ⟨hm, hwf, _⟩
    · rw [hm]
      exact buildType_range_reconstruct _ _ hwf
    · rw [hm]
      exact buildType_weight_reconstruct _ _ hwf
    · rw [hm]
      exact buildType_uniform_reconstruct _ _ hwf
  have hallE := parseResultTabs_ok_nil wb (encTab b.region_id) b.types b.encTables hE
  have hallR := parseResultTabs_ok_nil wb (rewTab b.region_id) b.types b.rewTables hR
  have hallE' : List.Forall₂ (fun t p => p.1 = t ∧
      parseResultTab wb' (encTab b.region_id t) =
        .ok (p.2.mode, p.2.entries, p.2.maxRoll, [])) b.types b.encTables := by
    refine forall₂_imp_mem hallE ?_
    intro t p _ hpmem hrp
    obtain ⟨hfst, hparse⟩ := hrp
    refine ⟨hfst, ?_⟩
    have hmm : (t, p.2) ∈ b.encTables := by
      rw [← hfst]
      exact hpmem
    obtain ⟨wst, hfst2, hpst⟩ := parseResultTab_ok_nil wb _ _ _ _ hparse
    obtain ⟨hne_t, hbun⟩ := parseResultSheet_ok_inv _ _ _ _ _ hpst
    unfold parseResultTab
    rw [hfE t p.2 hmm]
    dsimp only
    rcases hbun with ⟨hm, hwf, hdisj, hmx⟩ | ⟨hm, hwf, hmx⟩ | ⟨hm, hwf, hmx⟩
    · rw [hm, hmx]
      exact reparse_result_range _ _ hwf hne_t hdisj
    · rw [hm, hmx]
      exact reparse_result_weight _ _ hwf hne_t
    · rw [hm, hmx]
      exact reparse_result_uniform _ _ hwf hne_t
  have hallR' : List.Forall₂ (fun t p => p.1 = t ∧
      parseResultTab wb' (rewTab b.region_id t) =
        .ok (p.2.mode, p.2.entries, p.2.maxRoll, [])) b.types b.rewTables := by
    refine forall₂_imp_mem hallR ?_
    intro t p _ hpmem hrp
    obtain ⟨hfst, hparse⟩ := hrp
    refine ⟨hfst, ?_⟩
    have hmm : (t, p.2) ∈ b.rewTables := by
      rw [← hfst]
      exact hpmem
    obtain ⟨wst, hfst2, hpst⟩ := parseResultTab_ok_nil wb _ _ _ _ hparse
    obtain ⟨hne_t, hbun⟩ := parseResultSheet_ok_inv _ _ _ _ _ hpst
    unfold parseResultTab
    rw [hfR t p.2 hmm]
    dsimp only
    rcases hbun with ⟨hm, hwf, hdisj, hmx⟩ | ⟨hm, hwf, hmx⟩ | ⟨hm, hwf, hmx⟩
    · rw [hm, hmx]
      exact reparse_result_range _ _ hwf hne_t hdisj
    · rw [hm, hmx]
      exact reparse_result_weight _ _ hwf hne_t
    · rw [hm, hmx]
      exact reparse_result_uniform _ _ hwf hne_t
  exact ⟨hA, parseResultTabs_build wb' _ _ _ hallE',
    parseResultTabs_build wb' _ _ _ hallR', hD⟩

/-! ## C1: resolving sheet names in the exported workbook -/

theorem block_no_regions (st : Store) (rid : Option Int) :
    ∀ s ∈ exportRegionBlock st rid, s.name ≠ "Regions" := by
  intro s hs
  rcases mem_exportRegionBlock st rid s hs with ⟨etd, _, rfl⟩ | ⟨t, d, _, rfl⟩ |
    ⟨t, d, _, rfl⟩
  · exact encTypeTab_ne_regions rid
  · exact encTab_ne_regions rid t
  · exact rewTab_ne_regions rid t

theorem findSheet_block_type (st : Store) (rid : Option Int) (etd : TableDef)
    (hft : fetchTableDef st "encounter_type" rid none = some etd) :
    findSheet (exportRegionBlock st rid) (encTypeTab rid) =
      some (addSheetForTable (encTypeTab rid) "type" etd.roll_mode etd.entries) := by
  apply findSheet_of_all_eq
  · rw [exportRegionBlock_eq st rid etd hft]
    simp
  · rfl
  · intro s hs hname
    rcases mem_exportRegionBlock st rid s hs with ⟨etd', hf', rfl⟩ | ⟨t, d, hf', rfl⟩ |
      ⟨t, d, hf', rfl⟩
    · rw [hft] at hf'
      injection hf' with he
      rw [he]
    · exact absurd hname (encTab_ne_encTypeTab rid rid t)
    · exact absurd hname (rewTab_ne_encTypeTab rid rid t)

theorem findSheet_block_enc (st : Store) (rid : Option Int) (etd : TableDef)
    (t : String) (d : TableDef)
    (hft : fetchTableDef st "encounter_type" rid none = some etd)
    (htt : t ∈ exportTypesOf etd.entries)
    (hfe : fetchTableDef st "encounter" rid (some t) = some d) :
    findSheet (exportRegionBlock st rid) (encTab rid t) =
      some (addSheetForTable (encTab rid t) "result" d.roll_mode d.entries) := by
  apply findSheet_of_all_eq
  · exact encSheet_mem_block st rid t d etd hft htt hfe
  · rfl
  · intro s hs hname
    rcases mem_exportRegionBlock st rid s hs with ⟨etd', hf', rfl⟩ | ⟨t', d', hf', rfl⟩ |
      ⟨t', d', hf', rfl⟩
    · exact absurd hname.symm (encTab_ne_encTypeTab rid rid t)
    · have ht' : t' = t := by
        cases rid with
        | none => exact encTab_none_inj hname
        | some r => exact (encTab_some_inj hname).2
      subst ht'
      rw [hfe] at hf'
      injection hf' with he
      rw [he]
    · exact absurd hname (rewTab_ne_encTab rid rid t' t)

theorem findSheet_block_rew (st : Store) (rid : Option Int) (etd : TableDef)
    (t : String) (d : TableDef)
    (hft : fetchTableDef st "encounter_type" rid none = some etd)
    (htt : t ∈ exportTypesOf etd.entries)
    (hfr : fetchTableDef st "reward" rid (some t) = some d) :
    findSheet (exportRegionBlock st rid) (rewTab rid t) =
      some (addSheetForTable (rewTab rid t) "result" d.roll_mode d.entries) := by
  apply findSheet_of_all_eq
  · exact rewSheet_mem_block st rid t d etd hft htt hfr
  · rfl
  · intro s hs hname
    rcases mem_exportRegionBlock st rid s hs with ⟨etd', hf', rfl⟩ | ⟨t', d', hf', rfl⟩ |
      ⟨t', d', hf', rfl⟩
    · exact absurd hname.symm (rewTab_ne_encTypeTab rid rid t)
    · exact absurd hname.symm (rewTab_ne_encTab rid rid t t')
    · have ht' : t' = t := by
        cases rid with
        | none =>
          exact rewTab_none_inj hname
        | some r => exact (rewTab_some_inj hname).2
      subst ht'
      rw [hfr] at hf'
      injection hf' with he
      rw [he]

theorem findSheet_blocks_type (st : Store) (regs : List (Int × String)) (r0 : Int)
    (etd : TableDef) (hr : ∃ p ∈ regs, p.1 = r0)
    (hft : fetchTableDef st "encounter_type" (some r0) none = some etd) :
    findSheet (regs.flatMap (fun p => exportRegionBlock st (some p.1)))
      (encTypeTab (some r0)) =
      some (addSheetForTable (encTypeTab (some r0)) "type" etd.roll_mode
        etd.entries) := by
  apply findSheet_of_all_eq
  · obtain ⟨p, hp, hpr⟩ := hr
    refine List.mem_flatMap.mpr ⟨p, hp, ?_⟩
    rw [hpr, exportRegionBlock_eq st (some r0) etd hft]
    simp
  · rfl
  · intro s hs hname
    obtain ⟨q, hq, hsq⟩ := List.mem_flatMap.mp hs
    rcases mem_exportRegionBlock st (some q.1) s hsq with ⟨etd', hf', rfl⟩ |
      ⟨t', d', hf', rfl⟩ | ⟨t', d', hf', rfl⟩
    · have hq1 : some q.1 = some r0 := encTypeTab_inj hname
      rw [hq1, hft] at hf'
      injection hf' with he
      rw [he, hq1]
    · exact absurd hname (encTab_ne_encTypeTab (some q.1) (some r0) t')
    · exact absurd hname (rewTab_ne_encTypeTab (some q.1) (some r0) t')

theorem findSheet_blocks_enc (st : Store) (regs : List (Int × String)) (r0 : Int)
    (etd : TableDef) (t : String) (d : TableDef) (hr : ∃ p ∈ regs, p.1 = r0)
    (hft : fetchTableDef st "encounter_type" (some r0) none = some etd)
    (htt : t ∈ exportTypesOf etd.entries)
    (hfe : fetchTableDef st "encounter" (some r0) (some t) = some d) :
    findSheet (regs.flatMap (fun p => exportRegionBlock st (some p.1)))
      (encTab (some r0) t) =
      some (addSheetForTable (encTab (some r0) t) "result" d.roll_mode
        d.entries) := by
  apply findSheet_of_all_eq
  · obtain ⟨p, hp, hpr⟩ := hr
    refine List.mem_flatMap.mpr ⟨p, hp, ?_⟩
    rw [hpr]
    exact encSheet_mem_block st (some r0) t d etd hft htt hfe
  · rfl
  · intro s hs hname
    obtain ⟨q, hq, hsq⟩ := List.mem_flatMap.mp hs
    rcases mem_exportRegionBlock st (some q.1) s hsq with ⟨etd', hf', rfl⟩ |
      ⟨t', d', hf', rfl⟩ | ⟨t', d', hf', rfl⟩
    · exact absurd hname.symm (encTab_ne_encTypeTab (some r0) (some q.1) t)
    · obtain ⟨hq1, ht'⟩ := encTab_some_inj hname
      subst ht'
      rw [hq1, hfe] at hf'
      injection hf' with he
      rw [he, hq1]
    · exact absurd hname (rewTab_ne_encTab (some q.1) (some r0) t' t)

theorem findSheet_blocks_rew (st : Store) (regs : List (Int × String)) (r0 : Int)
    (etd : TableDef) (t : String) (d : TableDef) (hr : ∃ p ∈ regs, p.1 = r0)
    (hft : fetchTableDef st "encounter_type" (some r0) none = some etd)
    (htt : t ∈ exportTypesOf etd.entries)
    (hfr : fetchTableDef st "reward" (some r0) (some t) = some d) :
    findSheet (regs.flatMap (fun p => exportRegionBlock st (some p.1)))
      (rewTab (some r0) t) =
      some (addSheetForTable (rewTab (some r0) t) "result" d.roll_mode
        d.entries) := by
  apply findSheet_of_all_eq
  · obtain ⟨p, hp, hpr⟩ := hr
    refine List.mem_flatMap.mpr ⟨p, hp, ?_⟩
    rw [hpr]
    exact rewSheet_mem_block st (some r0) t d etd hft htt hfr
  · rfl
  · intro s hs hname
    obtain ⟨q, hq, hsq⟩ := List.mem_flatMap.mp hs
    rcases mem_exportRegionBlock st (some q.1) s hsq with ⟨etd', hf', rfl⟩ |
      ⟨t', d', hf', rfl⟩ | ⟨t', d', hf', rfl⟩
    · exact absurd hname.symm (rewTab_ne_encTypeTab (some r0) (some q.1) t)
    · exact absurd hname.symm (rewTab_ne_encTab (some r0) (some q.1) t t')
    · obtain ⟨hq1, ht'⟩ := rewTab_some_inj hname
      subst ht'
      rw [hq1, hfr] at hf'
      injection hf' with he
      rw [he, hq1]

/-- The per-type missing-tab checks pass when every typed tab name is
present. -/
theorem missingTabErrs_nil (sn : List String) (rid : Option Int)
    (types : List String)
    (h : ∀ t ∈ types, sn.contains (encTab rid t) = true ∧
      sn.contains (rewTab rid t) = true) :
    missingTabErrs sn rid types = [] := by
  unfold missingTabErrs
  rw [List.flatMap_eq_nil_iff]
  intro t ht
  rw [if_pos ((h t ht).1), if_pos ((h t ht).2)]
  rfl

/-- The tables inserted for a blob depend on the workbook only through the
re-read type entries. -/
theorem tablesOfBlob_congr (wb1 wb2 : Workbook) (b : RegionParse)
    (h : buildTypeEntriesFromSheet wb1 b.region_id =
      buildTypeEntriesFromSheet wb2 b.region_id) :
    tablesOfBlob wb1 b = tablesOfBlob wb2 b := by
  unfold tablesOfBlob
  rw [h]

/-! ## C1: full round trip, default mode -/

/-- Round trip for a default-mode (no `Regions` sheet) import: exporting the
replaced store and re-importing the emitted workbook reproduces the same
store and the same success counts, for any prior state. -/
theorem roundtrip_default (wb : Workbook) (b : RegionParse) (st2 : Store)
    (hphase : parseRegionPhase wb (sheetNames wb) [] none = .ok (some b, [])) :
    ∀ wb', buildWorkbook (storeOfParse wb ⟨false, [], [b], []⟩) = .ok wb' →
      importWorkbook st2 wb' false =
        .ok (storeOfParse wb ⟨false, [], [b], []⟩,
          some (countsOfParse ⟨false, [], [b], []⟩), []) := by
  obtain ⟨_, blob, hbb, hbrid, hT, hmiss, hE, hR⟩ :=
    parseRegionPhase_ok_nil wb (sheetNames wb) [] none (some b) hphase
  injection hbb with hbb'
  subst hbb'
  obtain ⟨brid, btm, btmx, bts, bet, brt⟩ := b
  dsimp only at hbrid hT hmiss hE hR
  subst hbrid
  have hst' : storeOfParse wb ⟨false, [], [⟨none, btm, btmx, bts, bet, brt⟩], []⟩ =
      ⟨[], [(⟨none, btm, btmx, bts, bet, brt⟩ : RegionParse)].flatMap
        (tablesOfBlob wb)⟩ := rfl
  have hmemb : (⟨none, btm, btmx, bts, bet, brt⟩ : RegionParse) ∈
      [(⟨none, btm, btmx, bts, bet, brt⟩ : RegionParse)] := by simp
  have hnd : ([(⟨none, btm, btmx, bts, bet, brt⟩ : RegionParse)].map
      RegionParse.region_id).Nodup := by simp
  have hallE := parseResultTabs_ok_nil wb (encTab none) bts bet hE
  have hallR := parseResultTabs_ok_nil wb (rewTab none) bts brt hR
  have hkeysE : bet.map Prod.fst = bts := forall₂_keys hallE
  have hkeysR : brt.map Prod.fst = bts := forall₂_keys hallR
  have hkeys : bet.map Prod.fst = brt.map Prod.fst := hkeysE.trans hkeysR.symm
  obtain ⟨ws, hfs, hps⟩ := parseTypeTab_ok_nil wb _ _ _ _ hT
  obtain ⟨htys, htysne, hbundle⟩ := parseTypeSheet_ok_inv _ _ _ _ _ hps
  have hesdef : buildTypeEntriesFromSheet wb none =
      buildTypeEntriesSheet (encTypeTab none) ws := by
    unfold buildTypeEntriesFromSheet
    rw [hfs]
  rw [← hesdef] at htys hbundle
  have hndt : bts.Nodup := by
    rw [htys]
    exact dedupFirst_nodup _
  have hndkE : (bet.map Prod.fst).Nodup := by
    rw [hkeysE]
    exact hndt
  have hResNe : ∀ e ∈ buildTypeEntriesFromSheet wb none, e.result ≠ "" := by
    rcases hbundle with ⟨_, hwf, _, _⟩ | ⟨_, hwf, _⟩ | ⟨_, hwf, _⟩
    · exact fun e he => (hwf e he).1.1
    · exact fun e he => (hwf e he).1.1
    · exact fun e he => (hwf e he).1.1
  have hexp : exportTypesOf (buildTypeEntriesFromSheet wb none) =
      (buildTypeEntriesFromSheet wb none).map Entry.result :=
    exportTypesOf_eq _ hResNe
  have htysmem : ∀ t ∈ bts, t ∈ exportTypesOf (buildTypeEntriesFromSheet wb none) := by
    intro t ht
    rw [hexp]
    rw [htys] at ht
    exact (dedupFirst_mem _ _).mp ht
  have hft := fetch_encType_blob wb []
    [(⟨none, btm, btmx, bts, bet, brt⟩ : RegionParse)] _ hmemb hnd
  have hfe : ∀ t tp, (t, tp) ∈ bet →
      fetchTableDef ⟨[], [(⟨none, btm, btmx, bts, bet, brt⟩ : RegionParse)].flatMap
        (tablesOfBlob wb)⟩ "encounter" none (some t) =
      some ⟨"encounter", none, some t, tp.mode, tp.maxRoll, tp.entries⟩ :=
    fun t tp htp => fetch_enc_blob wb [] _ _ hmemb hnd hkeys hndkE t tp htp
  have hfr : ∀ t tp, (t, tp) ∈ brt →
      fetchTableDef ⟨[], [(⟨none, btm, btmx, bts, bet, brt⟩ : RegionParse)].flatMap
        (tablesOfBlob wb)⟩ "reward" none (some t) =
      some ⟨"reward", none, some t, tp.mode, tp.maxRoll, tp.entries⟩ :=
    fun t tp htp => fetch_rew_blob wb [] _ _ hmemb hnd hkeys hndkE t tp htp
  have hbw : buildWorkbook (storeOfParse wb
      ⟨false, [], [⟨none, btm, btmx, bts, bet, brt⟩], []⟩) =
      .ok (exportRegionBlock ⟨[], [(⟨none, btm, btmx, bts, bet, brt⟩ :
        RegionParse)].flatMap (tablesOfBlob wb)⟩ none) := by
    rw [hst']
    unfold buildWorkbook
    rw [if_pos (show (⟨[], [(⟨none, btm, btmx, bts, bet, brt⟩ :
      RegionParse)].flatMap (tablesOfBlob wb)⟩ : Store).regions.isEmpty = true
      from rfl)]
    rw [hft]
    rw [exportRegionBlock_eq _ none _ hft]
  intro wb' hwb'
  rw [hbw] at hwb'
  injection hwb' with hwb''
  subst hwb''
  have hmemt : ∀ t tp, (t, tp) ∈ bet → t ∈ exportTypesOf
      (buildTypeEntriesFromSheet wb none) := by
    intro t tp htp
    apply htysmem
    rw [← hkeysE]
    have := List.mem_map_of_mem Prod.fst htp
    simpa using this
  have hmemtr : ∀ t tp, (t, tp) ∈ brt → t ∈ exportTypesOf
      (buildTypeEntriesFromSheet wb none) := by
    intro t tp htp
    apply htysmem
    rw [← hkeysR]
    have := List.mem_map_of_mem Prod.fst htp
    simpa using this
  obtain ⟨hA, hB, hC, hD⟩ := blob_reimport wb _ ⟨none, btm, btmx, bts, bet, brt⟩
    hT hE hR
    (findSheet_block_type _ none _ hft)
    (fun t tp htp => findSheet_block_enc _ none _ t _ hft (hmemt t tp htp)
      (hfe t tp htp))
    (fun t tp htp => findSheet_block_rew _ none _ t _ hft (hmemtr t tp htp)
      (hfr t tp htp))
  dsimp only at hA hB hC hD
  have hnoreg : hasSheet (exportRegionBlock ⟨[], [(⟨none, btm, btmx, bts, bet,
      brt⟩ : RegionParse)].flatMap (tablesOfBlob wb)⟩ none) "Regions" = false := by
    cases hv : hasSheet (exportRegionBlock ⟨[], [(⟨none, btm, btmx, bts, bet,
        brt⟩ : RegionParse)].flatMap (tablesOfBlob wb)⟩ none) "Regions" with
    | false => rfl
    | true =>
      obtain ⟨s, hsm, hsn⟩ := (hasSheet_iff _ _).mp hv
      exact absurd hsn (block_no_regions _ none s hsm)
  have hhsE : ∀ t tp, (t, tp) ∈ bet →
      hasSheet (exportRegionBlock ⟨[], [(⟨none, btm, btmx, bts, bet, brt⟩ :
        RegionParse)].flatMap (tablesOfBlob wb)⟩ none) (encTab none t) = true := by
    intro t tp htp
    rw [hasSheet_iff]
    refine ⟨addSheetForTable (encTab none t) "result" tp.mode tp.entries, ?_, rfl⟩
    exact encSheet_mem_block _ none t
      ⟨"encounter", none, some t, tp.mode, tp.maxRoll, tp.entries⟩ _ hft
      (hmemt t tp htp) (hfe t tp htp)
  have hhsR : ∀ t tp, (t, tp) ∈ brt →
      hasSheet (exportRegionBlock ⟨[], [(⟨none, btm, btmx, bts, bet, brt⟩ :
        RegionParse)].flatMap (tablesOfBlob wb)⟩ none) (rewTab none t) = true := by
    intro t tp htp
    rw [hasSheet_iff]
    refine ⟨addSheetForTable (rewTab none t) "result" tp.mode tp.entries, ?_, rfl⟩
    exact rewSheet_mem_block _ none t
      ⟨"reward", none, some t, tp.mode, tp.maxRoll, tp.entries⟩ _ hft
      (hmemtr t tp htp) (hfr t tp htp)
  have hms : missingTabErrs (sheetNames (exportRegionBlock ⟨[],
      [(⟨none, btm, btmx, bts, bet, brt⟩ : RegionParse)].flatMap
        (tablesOfBlob wb)⟩ none)) none bts = [] := by
    apply missingTabErrs_nil
    intro t ht
    have hexE : ∃ tp, (t, tp) ∈ bet := by
      rw [← hkeysE] at ht
      obtain ⟨p, hp, hp1⟩ := List.mem_map.mp ht
      refine ⟨p.2, ?_⟩
      rw [← hp1]
      exact hp
    have hexR : ∃ tp, (t, tp) ∈ brt := by
      rw [← hkeysR] at ht
      obtain ⟨p, hp, hp1⟩ := List.mem_map.mp ht
      refine ⟨p.2, ?_⟩
      rw [← hp1]
      exact hp
    obtain ⟨tpe, htpe⟩ := hexE
    obtain ⟨tpr, htpr⟩ := hexR
    exact ⟨hhsE t tpe htpe, hhsR t tpr htpr⟩
  have hphase' := parseRegionPhase_build (exportRegionBlock ⟨[],
      [(⟨none, btm, btmx, bts, bet, brt⟩ : RegionParse)].flatMap
        (tablesOfBlob wb)⟩ none)
    (sheetNames (exportRegionBlock ⟨[], [(⟨none, btm, btmx, bts, bet, brt⟩ :
      RegionParse)].flatMap (tablesOfBlob wb)⟩ none))
    none ⟨none, btm, btmx, bts, bet, brt⟩ rfl hA hms hB hC
  have himport := importParse_build_default _ hnoreg _ hphase'
  unfold importWorkbook
  rw [himport]
  dsimp only
  rw [if_neg (by simp)]
  rw [if_neg (by simp)]
  have htb : tablesOfBlob (exportRegionBlock ⟨[], [(⟨none, btm, btmx, bts, bet,
      brt⟩ : RegionParse)].flatMap (tablesOfBlob wb)⟩ none)
      ⟨none, btm, btmx, bts, bet, brt⟩ =
      tablesOfBlob wb ⟨none, btm, btmx, bts, bet, brt⟩ :=
    tablesOfBlob_congr _ wb _ hD
  have hflat : ∀ (f g : RegionParse → List TableDef),
      f ⟨none, btm, btmx, bts, bet, brt⟩ = g ⟨none, btm, btmx, bts, bet, brt⟩ →
      [(⟨none, btm, btmx, bts, bet, brt⟩ : RegionParse)].flatMap f =
        [(⟨none, btm, btmx, bts, bet, brt⟩ : RegionParse)].flatMap g := by
    intro f g h
    simp only [List.flatMap_cons, List.flatMap_nil, h]
  have hst2 : storeOfParse (exportRegionBlock ⟨[], [(⟨none, btm, btmx, bts, bet,
      brt⟩ : RegionParse)].flatMap (tablesOfBlob wb)⟩ none)
      ⟨false, [], [⟨none, btm, btmx, bts, bet, brt⟩], []⟩ =
      storeOfParse wb ⟨false, [], [⟨none, btm, btmx, bts, bet, brt⟩], []⟩ := by
    unfold storeOfParse
    dsimp only
    congr 1
    exact hflat _ _ htb
  rw [hst2]

/-! ## C1: full round trip, regional mode -/

theorem forall₂_mem_right {α β : Type} {R : α → β → Prop} :
    ∀ {l1 : List α} {l2 : List β}, List.Forall₂ R l1 l2 →
    ∀ b ∈ l2, ∃ a ∈ l1, R a b := by
  intro l1
  induction l1 with
  | nil =>
    intro l2 h b hb
    cases h
    simp at hb
  | cons x l1' ih =>
    intro l2 h b hb
    cases h with
    | cons h1 h2 =>
      rcases List.mem_cons.mp hb with rfl | hb'
      · exact ⟨x, by simp, h1⟩
      · obtain ⟨a, ha, hr⟩ := ih h2 b hb'
        exact ⟨a, by simp [ha], hr⟩

/-- Per-region round trip in regional mode: the emitted workbook re-parses the
region's blob exactly, and phase 2 re-reads the same type entries. -/
theorem pair_reimport (wb : Workbook) (regs : List (Int × String))
    (blobs : List RegionParse) (p : Int × String) (b : RegionParse)
    (hp : p ∈ regs) (hb : b ∈ blobs)
    (hndr : (blobs.map RegionParse.region_id).Nodup)
    (hbrid : b.region_id = some p.1)
    (hT : parseTypeTab wb (encTypeTab (some p.1)) =
      .ok (b.typesMode, b.types, b.typesMax, []))
    (hE : parseResultTabs wb (encTab (some p.1)) b.types = .ok (b.encTables, []))
    (hR : parseResultTabs wb (rewTab (some p.1)) b.types = .ok (b.rewTables, [])) :
    parseRegionPhase (regionsSheetOf regs :: regs.flatMap (fun q =>
        exportRegionBlock ⟨regs, blobs.flatMap (tablesOfBlob wb)⟩ (some q.1)))
      (sheetNames (regionsSheetOf regs :: regs.flatMap (fun q =>
        exportRegionBlock ⟨regs, blobs.flatMap (tablesOfBlob wb)⟩ (some q.1))))
      [] (some p.1) = .ok (some b, []) ∧
    tablesOfBlob (regionsSheetOf regs :: regs.flatMap (fun q =>
        exportRegionBlock ⟨regs, blobs.flatMap (tablesOfBlob wb)⟩ (some q.1))) b =
      tablesOfBlob wb b := by
  obtain ⟨brid, btm, btmx, bts, bet, brt⟩ := b
  dsimp only at hbrid hT hE hR
  subst hbrid
  have hallE := parseResultTabs_ok_nil wb (encTab (some p.1)) bts bet hE
  have hallR := parseResultTabs_ok_nil wb (rewTab (some p.1)) bts brt hR
  have hkeysE : bet.map Prod.fst = bts := forall₂_keys hallE
  have hkeysR : brt.map Prod.fst = bts := forall₂_keys hallR
  have hkeys : bet.map Prod.fst = brt.map Prod.fst := hkeysE.trans hkeysR.symm
  obtain ⟨ws, hfs, hps⟩ := parseTypeTab_ok_nil wb _ _ _ _ hT
  obtain ⟨htys, htysne, hbundle⟩ := parseTypeSheet_ok_inv _ _ _ _ _ hps
  have hesdef : buildTypeEntriesFromSheet wb (some p.1) =
      buildTypeEntriesSheet (encTypeTab (some p.1)) ws := by
    unfold buildTypeEntriesFromSheet
    rw [hfs]
  rw [← hesdef] at htys hbundle
  have hndt : bts.Nodup := by
    rw [htys]
    exact dedupFirst_nodup _
  have hndkE : (bet.map Prod.fst).Nodup := by
    rw [hkeysE]
    exact hndt
  have hResNe : ∀ e ∈ buildTypeEntriesFromSheet wb (some p.1), e.result ≠ "" := by
    rcases hbundle with ⟨_, hwf, _, _⟩ | ⟨_, hwf, _⟩ | ⟨_, hwf, _⟩
    · exact fun e he => (hwf e he).1.1
    · exact fun e he => (hwf e he).1.1
    · exact fun e he => (hwf e he).1.1
  have hexp : exportTypesOf (buildTypeEntriesFromSheet wb (some p.1)) =
      (buildTypeEntriesFromSheet wb (some p.1)).map Entry.result :=
    exportTypesOf_eq _ hResNe
  have htysmem : ∀ t ∈ bts,
      t ∈ exportTypesOf (buildTypeEntriesFromSheet wb (some p.1)) := by
    intro t ht
    rw [hexp]
    rw [htys] at ht
    exact (dedupFirst_mem _ _).mp ht
  have hft := fetch_encType_blob wb regs blobs _ hb hndr
  have hfe : ∀ t tp, (t, tp) ∈ bet →
      fetchTableDef ⟨regs, blobs.flatMap (tablesOfBlob wb)⟩ "encounter"
        (some p.1) (some t) =
      some ⟨"encounter", some p.1, some t, tp.mode, tp.maxRoll, tp.entries⟩ :=
    fun t tp htp => fetch_enc_blob wb regs blobs _ hb hndr hkeys hndkE t tp htp
  have hfr : ∀ t tp, (t, tp) ∈ brt →
      fetchTableDef ⟨regs, blobs.flatMap (tablesOfBlob wb)⟩ "reward"
        (some p.1) (some t) =
      some ⟨"reward", some p.1, some t, tp.mode, tp.maxRoll, tp.entries⟩ :=
    fun t tp htp => fetch_rew_blob wb regs blobs _ hb hndr hkeys hndkE t tp htp
  have hmemt : ∀ t tp, (t, tp) ∈ bet → t ∈ exportTypesOf
      (buildTypeEntriesFromSheet wb (some p.1)) := by
    intro t tp htp
    apply htysmem
    rw [← hkeysE]
    have := List.mem_map_of_mem Prod.fst htp
    simpa using this
  have hmemtr : ∀ t tp, (t, tp) ∈ brt → t ∈ exportTypesOf
      (buildTypeEntriesFromSheet wb (some p.1)) := by
    intro t tp htp
    apply htysmem
    rw [← hkeysR]
    have := List.mem_map_of_mem Prod.fst htp
    simpa using this
  have hfT : findSheet (regionsSheetOf regs :: regs.flatMap (fun q =>
      exportRegionBlock ⟨regs, blobs.flatMap (tablesOfBlob wb)⟩ (some q.1)))
      (encTypeTab (some p.1)) =
      some (addSheetForTable (encTypeTab (some p.1)) "type" btm
        (buildTypeEntriesFromSheet wb (some p.1))) := by
    rw [findSheet_cons,
      if_neg (fun hcontra => encTypeTab_ne_regions (some p.1) hcontra.symm)]
    exact findSheet_blocks_type _ regs p.1 _ ⟨p, hp, rfl⟩ hft
  have hfE : ∀ t tp, (t, tp) ∈ bet →
      findSheet (regionsSheetOf regs :: regs.flatMap (fun q =>
        exportRegionBlock ⟨regs, blobs.flatMap (tablesOfBlob wb)⟩ (some q.1)))
        (encTab (some p.1) t) =
      some (addSheetForTable (encTab (some p.1) t) "result" tp.mode tp.entries) := by
    intro t tp htp
    rw [findSheet_cons,
      if_neg (fun hcontra => encTab_ne_regions (some p.1) t hcontra.symm)]
    exact findSheet_blocks_enc _ regs p.1 _ t
      ⟨"encounter", some p.1, some t, tp.mode, tp.maxRoll, tp.entries⟩
      ⟨p, hp, rfl⟩ hft (hmemt t tp htp) (hfe t tp htp)
  have hfR : ∀ t tp, (t, tp) ∈ brt →
      findSheet (regionsSheetOf regs :: regs.flatMap (fun q =>
        exportRegionBlock ⟨regs, blobs.flatMap (tablesOfBlob wb)⟩ (some q.1)))
        (rewTab (some p.1) t) =
      some (addSheetForTable (rewTab (some p.1) t) "result" tp.mode tp.entries) := by
    intro t tp htp
    rw [findSheet_cons,
      if_neg (fun hcontra => rewTab_ne_regions (some p.1) t hcontra.symm)]
    exact findSheet_blocks_rew _ regs p.1 _ t
      ⟨"reward", some p.1, some t, tp.mode, tp.maxRoll, tp.entries⟩
      ⟨p, hp, rfl⟩ hft (hmemtr t tp htp) (hfr t tp htp)
  obtain ⟨hA, hB, hC, hD⟩ := blob_reimport wb _ ⟨some p.1, btm, btmx, bts, bet, brt⟩
    hT hE hR hfT hfE hfR
  dsimp only at hA hB hC hD
  have hhsE : ∀ t tp, (t, tp) ∈ bet →
      hasSheet (regionsSheetOf regs :: regs.flatMap (fun q =>
        exportRegionBlock ⟨regs, blobs.flatMap (tablesOfBlob wb)⟩ (some q.1)))
        (encTab (some p.1) t) = true := by
    intro t tp htp
    rw [hasSheet_iff]
    refine ⟨addSheetForTable (encTab (some p.1) t) "result" tp.mode tp.entries,
      ?_, rfl⟩
    refine List.mem_cons_of_mem _ (List.mem_flatMap.mpr ⟨p, hp, ?_⟩)
    exact encSheet_mem_block _ (some p.1) t
      ⟨"encounter", some p.1, some t, tp.mode, tp.maxRoll, tp.entries⟩ _ hft
      (hmemt t tp htp) (hfe t tp htp)
  have hhsR : ∀ t tp, (t, tp) ∈ brt →
      hasSheet (regionsSheetOf regs :: regs.flatMap (fun q =>
        exportRegionBlock ⟨regs, blobs.flatMap (tablesOfBlob wb)⟩ (some q.1)))
        (rewTab (some p.1) t) = true := by
    intro t tp htp
    rw [hasSheet_iff]
    refine ⟨addSheetForTable (rewTab (some p.1) t) "result" tp.mode tp.entries,
      ?_, rfl⟩
    refine List.mem_cons_of_mem _ (List.mem_flatMap.mpr ⟨p, hp, ?_⟩)
    exact rewSheet_mem_block _ (some p.1) t
      ⟨"reward", some p.1, some t, tp.mode, tp.maxRoll, tp.entries⟩ _ hft
      (hmemtr t tp htp) (hfr t tp htp)
  have hms : missingTabErrs (sheetNames (regionsSheetOf regs :: regs.flatMap
      (fun q => exportRegionBlock ⟨regs, blobs.flatMap (tablesOfBlob wb)⟩
        (some q.1)))) (some p.1) bts = [] := by
    apply missingTabErrs_nil
    intro t ht
    have hexE : ∃ tp, (t, tp) ∈ bet := by
      rw [← hkeysE] at ht
      obtain ⟨q, hq, hq1⟩ := List.mem_map.mp ht
      refine ⟨q.2, ?_⟩
      rw [← hq1]
      exact hq
    have hexR : ∃ tp, (t, tp) ∈ brt := by
      rw [← hkeysR] at ht
      obtain ⟨q, hq, hq1⟩ := List.mem_map.mp ht
      refine ⟨q.2, ?_⟩
      rw [← hq1]
      exact hq
    obtain ⟨tpe, htpe⟩ := hexE
    obtain ⟨tpr, htpr⟩ := hexR
    exact ⟨hhsE t tpe htpe, hhsR t tpr htpr⟩
  refine ⟨parseRegionPhase_build _ _ (some p.1) ⟨some p.1, btm, btmx, bts, bet, brt⟩
    rfl hA hms hB hC, ?_⟩
  exact tablesOfBlob_congr _ wb _ hD

theorem forall₂_map_eq {α β γ : Type} {R : α → β → Prop} (f : α → γ) (g : β → γ)
    (himp : ∀ a b, R a b → g b = f a) :
    ∀ {l1 : List α} {l2 : List β}, List.Forall₂ R l1 l2 →
      l2.map g = l1.map f := by
  intro l1
  induction l1 with
  | nil =>
    intro l2 h
    cases h
    rfl
  | cons a l1' ih =>
    intro l2 h
    cases h with
    | cons h1 h2 =>
      simp only [List.map_cons, ih h2, himp a _ h1]

/-- Round trip for a regional import: exporting the replaced store and
re-importing the emitted workbook reproduces the same store and counts. -/
theorem roundtrip_regional (wb : Workbook) (regs : List (Int × String))
    (blobs : List RegionParse) (st2 : Store)
    (hregs : parseRegionsTab wb = (regs, []))
    (hne : regs ≠ [])
    (hall : List.Forall₂ (fun rid b =>
      parseRegionPhase wb (sheetNames wb) [] rid = .ok (some b, []))
      (regs.map (fun p => some p.1)) blobs) :
    ∀ wb', buildWorkbook (storeOfParse wb ⟨true, regs, blobs, []⟩) = .ok wb' →
      importWorkbook st2 wb' false =
        .ok (storeOfParse wb ⟨true, regs, blobs, []⟩,
          some (countsOfParse ⟨true, regs, blobs, []⟩), []) := by
  have hrinv := parseRegionsTab_inv wb
  rw [hregs] at hrinv
  dsimp only at hrinv
  obtain ⟨hrfacts, hrnd⟩ := hrinv
  have hlink : List.Forall₂ (fun p b => b.region_id = some p.1 ∧
      parseTypeTab wb (encTypeTab (some p.1)) =
        .ok (b.typesMode, b.types, b.typesMax, []) ∧
      parseResultTabs wb (encTab (some p.1)) b.types = .ok (b.encTables, []) ∧
      parseResultTabs wb (rewTab (some p.1)) b.types = .ok (b.rewTables, []))
      regs blobs := by
    have hall2 := List.forall₂_map_left_iff.mp hall
    refine forall₂_imp_mem hall2 ?_
    intro p b hp hb hphase
    obtain ⟨_, blob, hsome, hbrid, hTb, hmissb, hEb, hRb⟩ :=
      parseRegionPhase_ok_nil wb (sheetNames wb) [] (some p.1) (some b) hphase
    injection hsome with hsome'
    subst hsome'
    exact ⟨hbrid, hTb, hEb, hRb⟩
  have hmapids : blobs.map RegionParse.region_id = regs.map (fun p => some p.1) :=
    forall₂_map_eq (fun p => some p.1) RegionParse.region_id
      (fun p b h => h.1) hlink
  have hndrids : (blobs.map RegionParse.region_id).Nodup := by
    rw [hmapids]
    have hmm : regs.map (fun p => some p.1) = (regs.map Prod.fst).map some := by
      rw [List.map_map]
      rfl
    rw [hmm]
    exact hrnd.map (Option.some_injective Int)
  have hst' : storeOfParse wb ⟨true, regs, blobs, []⟩ =
      ⟨regs, blobs.flatMap (tablesOfBlob wb)⟩ := rfl
  have hbw : buildWorkbook (storeOfParse wb ⟨true, regs, blobs, []⟩) =
      .ok (regionsSheetOf regs :: regs.flatMap (fun q =>
        exportRegionBlock ⟨regs, blobs.flatMap (tablesOfBlob wb)⟩ (some q.1))) := by
    rw [hst']
    unfold buildWorkbook
    rw [if_neg (by simpa [List.isEmpty_iff] using hne)]
    rfl
  intro wb' hwb'
  rw [hbw] at hwb'
  injection hwb' with hwb''
  subst hwb''
  have hpairs : List.Forall₂ (fun p b =>
      parseRegionPhase (regionsSheetOf regs :: regs.flatMap (fun q =>
          exportRegionBlock ⟨regs, blobs.flatMap (tablesOfBlob wb)⟩ (some q.1)))
        (sheetNames (regionsSheetOf regs :: regs.flatMap (fun q =>
          exportRegionBlock ⟨regs, blobs.flatMap (tablesOfBlob wb)⟩ (some q.1))))
        [] (some p.1) = .ok (some b, []) ∧
      tablesOfBlob (regionsSheetOf regs :: regs.flatMap (fun q =>
          exportRegionBlock ⟨regs, blobs.flatMap (tablesOfBlob wb)⟩ (some q.1))) b =
        tablesOfBlob wb b) regs blobs := by
    refine forall₂_imp_mem hlink ?_
    intro p b hp hb hcomp
    exact pair_reimport wb regs blobs p b hp hb hndrids hcomp.1 hcomp.2.1
      hcomp.2.2.1 hcomp.2.2.2
  have hall2 : List.Forall₂ (fun rid bb =>
      parseRegionPhase (regionsSheetOf regs :: regs.flatMap (fun q =>
          exportRegionBlock ⟨regs, blobs.flatMap (tablesOfBlob wb)⟩ (some q.1)))
        (sheetNames (regionsSheetOf regs :: regs.flatMap (fun q =>
          exportRegionBlock ⟨regs, blobs.flatMap (tablesOfBlob wb)⟩ (some q.1))))
        [] rid = .ok (some bb, []))
      (regs.map (fun p => some p.1)) blobs := by
    rw [List.forall₂_map_left_iff]
    exact hpairs.imp (fun p b h => h.1)
  have hDall : ∀ b ∈ blobs,
      tablesOfBlob (regionsSheetOf regs :: regs.flatMap (fun q =>
        exportRegionBlock ⟨regs, blobs.flatMap (tablesOfBlob wb)⟩ (some q.1))) b =
      tablesOfBlob wb b := by
    intro b hb
    obtain ⟨p, hp, hpair⟩ := forall₂_mem_right hpairs b hb
    exact hpair.2
  have hregs' : parseRegionsTab (regionsSheetOf regs :: regs.flatMap (fun q =>
      exportRegionBlock ⟨regs, blobs.flatMap (tablesOfBlob wb)⟩ (some q.1))) =
      (regs, []) :=
    reparse_regions regs hrfacts hrnd _
  have hsT : hasSheet (regionsSheetOf regs :: regs.flatMap (fun q =>
      exportRegionBlock ⟨regs, blobs.flatMap (tablesOfBlob wb)⟩ (some q.1)))
      "Regions" = true := by
    rw [hasSheet_iff]
    exact ⟨regionsSheetOf regs, by simp, rfl⟩
  have himport := importParse_build_regional _ regs blobs hsT hregs' hne hall2
  unfold importWorkbook
  rw [himport]
  dsimp only
  rw [if_neg (by simp)]
  rw [if_neg (by simp)]
  have hst2' : storeOfParse (regionsSheetOf regs :: regs.flatMap (fun q =>
      exportRegionBlock ⟨regs, blobs.flatMap (tablesOfBlob wb)⟩ (some q.1)))
      ⟨true, regs, blobs, []⟩ = storeOfParse wb ⟨true, regs, blobs, []⟩ := by
    unfold storeOfParse
    dsimp only
    congr 1
    exact List.flatMap_congr hDall
  rw [hst2']

/-- C1: a content-preserving import/export round trip.  For every workbook
accepted by import with zero validation errors (prior store `st` replaced by
`st'` with success summary `cnt`), immediately exporting the tenant yields a
workbook whose re-import (into any prior state) reproduces exactly the same
stored state - the same region ids and names in the same order, the same
discovered type list per region in first-seen order, and for each table the
same entries (min/max/weight/result values) in the same order - and the same
success summary.  Formatting/styling is outside the cell-content model. -/
theorem import_export_roundtrip (st st2 : Store) (wb wb' : Workbook)
    (st' : Store) (cnt : ImportCounts)
    (h1 : importWorkbook st wb false = .ok (st', some cnt, []))
    (h2 : buildWorkbook st' = .ok wb') :
    importWorkbook st2 wb' false = .ok (st', some cnt, []) := by
  unfold importWorkbook at h1
  cases hp : importParse wb with
  | error e =>
    rw [hp] at h1
    exact absurd h1 (by simp)
  | ok pp =>
    rw [hp] at h1
    dsimp only at h1
    by_cases he : pp.errors ≠ []
    · rw [if_pos he] at h1
      simp at h1
    · rw [if_neg he] at h1
      rw [if_neg (by simp)] at h1
      simp only [Except.ok.injEq, Prod.mk.injEq] at h1
      obtain ⟨hst, hcnt, _⟩ := h1
      have hperr : pp.errors = [] := not_not.mp he
      obtain ⟨hrm, hmode, hall⟩ := importParse_ok_nil wb pp hp hperr
      obtain ⟨prm, pregs, pparsed, perrs⟩ := pp
      dsimp only at hrm hmode hall hperr hst hcnt
      subst hperr
      rcases hmode with ⟨hrmT, hregsE, hregne⟩ | ⟨hrmF, hregsnil⟩
      · subst hrmT
        rw [if_pos (rfl : (true : Bool) = true)] at hall
        rw [← hst] at h2
        rw [← hst, ← hcnt]
        exact roundtrip_regional wb pregs pparsed st2 hregsE hregne hall wb' h2
      · subst hrmF
        subst hregsnil
        rw [if_neg (by simp)] at hall
        cases hall with
        | cons hph hnil =>
          cases hnil
          rw [← hst] at h2
          rw [← hst, ← hcnt]
          exact roundtrip_default wb _ st2 hph wb' h2

theorem import_export_roundtrip_witness :
    importWorkbook st0 wbDemo false =
      .ok (stDemoAfter, some ⟨1, 1, 1, 1, 0⟩, []) :=
  import_export_roundtrip st0 st0 wbDemo wbDemo stDemoAfter ⟨1, 1, 1, 1, 0⟩
    (by rfl) (by rfl)
